import Mathlib

/-!
# musql: directive parser, ingestion layer and `sql` template lambda

A shallow embedding of `internal/musql.go` and `internal/config.go`.

* Go `error` values are `Option String`: `none` is `nil`, `some msg` an error.
* The embedded relational store (an external collaborator of the program) is a
  list of named tables with text rows, plus the working copy of an open
  transaction.
* The file system, the archive reader and the CSV tokenizer are external as
  well: a `FileSys` value gives, for a name, what opening it yields.
-/

namespace Musql

/-! ## Errors -/

/-- The text that `fmt.Errorf("%w" ++ suffix, err)` produces. The call always
builds a non-nil error, also when `err` is nil (the verb then prints
`%!w(<nil>)`). -/
def errorfW (err : Option String) (suffix : String) : String :=
  (match err with
   | some e => e
   | none => "%!w(<nil>)") ++ suffix

/-- Go `strings.Join`. -/
def stringsJoin : List String → String → String
  | [], _ => ""
  | [a], _ => a
  | a :: b :: rest, sep => a ++ sep ++ stringsJoin (b :: rest) sep

/-! ## The store -/

/-- One table of the store: its column list and its text rows. -/
structure Table where
  columns : List String
  rows : List (List String)
  deriving DecidableEq, Repr

/-- Named tables, in creation order. -/
abbrev Tables := List (String × Table)

/-- The store behind `*sql.DB`: the committed tables and, while a transaction
is open, its working copy. -/
structure Store where
  tables : Tables
  pending : Option Tables
  deriving DecidableEq, Repr

/-- A prepared `insert into "t" values (?, …, ?)` with `arity` placeholders. -/
structure Stmt where
  table : String
  arity : Nat
  deriving DecidableEq, Repr

/-- Replace the table stored under `name`. -/
def Tables.update (ts : Tables) (name : String) (t : Table) : Tables :=
  ts.map (fun p => if p.1 == name then (p.1, t) else p)

/-- The store runs `select * from name limit 1`: the table, or an error when
there is none. -/
def Store.query (s : Store) (name : String) : Except String Table :=
  match s.tables.lookup name with
  | some t => .ok t
  | none => .error ("no such table: " ++ name)

/-- The store's `rows.Columns()`. -/
def Store.rowsColumns (t : Table) : Except String (List String) := .ok t.columns

/-- The store runs `delete from "name"`. -/
def Store.execDelete (s : Store) (name : String) : Except String Store :=
  match s.tables.lookup name with
  | some t => .ok { s with tables := s.tables.update name { t with rows := [] } }
  | none => .error ("no such table: " ++ name)

/-- The store runs `drop table "name"`. -/
def Store.execDrop (s : Store) (name : String) : Except String Store :=
  match s.tables.lookup name with
  | some _ => .ok { s with tables := s.tables.filter (fun p => !(p.1 == name)) }
  | none => .error ("no such table: " ++ name)

/-- A column name as the store compares it: the letters `A` to `Z` count as
`a` to `z`. -/
def foldName (s : String) : String :=
  String.mk (s.data.map Char.toLower)

/-- The first column of a `create table` whose name, compared without regard
to case, was already given to an earlier column (`seen`). -/
def repeatedColumn : List String → List String → Option String
  | [], _ => none
  | col :: rest, seen =>
    if seen.contains (foldName col) then some col
    else repeatedColumn rest (foldName col :: seen)

/-- The store runs `create table "name" ( "c1" , … )`. It refuses a table that
exists and a column list in which a name comes twice. -/
def Store.execCreate (s : Store) (name : String) (cols : List String) : Except String Store :=
  match s.tables.lookup name with
  | some _ => .error ("table " ++ name ++ " already exists")
  | none =>
    match repeatedColumn cols [] with
    | some col => .error ("duplicate column name: " ++ col)
    | none => .ok { s with tables := s.tables ++ [(name, { columns := cols, rows := [] })] }

/-- The store's `db.Begin()`: the transaction starts from the committed tables. -/
def Store.begin (s : Store) : Except String Store :=
  .ok { s with pending := some s.tables }

/-- The store's `tx.Commit()`: the working copy becomes the committed state. A
second commit of the same transaction changes nothing. -/
def Store.commit (s : Store) : Store :=
  match s.pending with
  | some ts => { tables := ts, pending := none }
  | none => s

/-- The store's `tx.Prepare` of an insert with `n` placeholders into `name`. -/
def Store.prepareInsert (s : Store) (name : String) (n : Nat) : Except String Stmt :=
  match s.pending with
  | none => .error "transaction has already been committed or rolled back"
  | some ts =>
    match ts.lookup name with
    | none => .error ("no such table: " ++ name)
    | some t =>
      if t.columns.length = n then .ok { table := name, arity := n }
      else .error ("table " ++ name ++ " has " ++ toString t.columns.length ++
        " columns but " ++ toString n ++ " values were supplied")

/-- The store's `insert.Exec(row...)` inside the open transaction. -/
def Store.execInsert (s : Store) (ins : Stmt) (row : List String) : Except String Store :=
  if row.length = ins.arity then
    match s.pending with
    | none => .error "transaction has already been committed or rolled back"
    | some ts =>
      match ts.lookup ins.table with
      | none => .error ("no such table: " ++ ins.table)
      | some t =>
        .ok { s with pending := some (ts.update ins.table { t with rows := t.rows ++ [row] }) }
  else .error ("sql: expected " ++ toString ins.arity ++ " arguments, got " ++ toString row.length)

/-! ## Files -/

/-- Go `FileInfo`. -/
structure FileInfo where
  Path : String
  Container : String
  deriving DecidableEq, Repr

/-- What the file system answers: `glob` is `filepath.Glob`, `osOpen` is
`os.Open` followed by reading, `zipOpen` is `zip.OpenReader` and lists the
archive's members with what `fe.Open()` gives for each, and `csvRecords` is
the CSV tokenizer with the given separator. -/
structure FileSys (α : Type) where
  glob : String → Except String (List String)
  osOpen : String → Except String α
  zipOpen : String → Except String (List (String × Except String α))
  csvRecords : α → Char → List (List String)

/-- The range loop of `opencontainer` over the archive members: the first
member whose name equals `path` is opened. `none` is "no such member". -/
def findMember {α : Type} (path : String) : List (String × Except String α) → Option (Except String α)
  | [] => none
  | fe :: rest => if fe.1 == path then some fe.2 else findMember path rest

/-- Go `opencontainer`. -/
def opencontainer {α : Type} (fs : FileSys α) (info : FileInfo) : Except String α :=
  if info.Container == "" then
    match fs.osOpen info.Path with
    | .error e => .error e
    | .ok f => .ok f
  else
    match fs.zipOpen info.Container with
    | .error e => .error e
    | .ok members =>
      match findMember info.Path members with
      | some (.error e) => .error e
      | some (.ok f) => .ok f
      | none => .error ("could not find " ++ info.Path ++ " in " ++ info.Container)

/-- Go `readHeaderCsv`: the first record of the file. -/
def readHeaderCsv {α : Type} (fs : FileSys α) (info : FileInfo) (sep : Char) :
    Except String (List String) :=
  match opencontainer fs info with
  | .error e => .error (errorfW (some e) (": reading header of " ++ info.Path))
  | .ok f =>
    match fs.csvRecords f sep with
    | [] => .error (errorfW (some "EOF") (": reading header of " ++ info.Path))
    | header :: _ => .ok header

/-! ## ensureTable -/

/-- Go `deleteAllFromTable`. -/
def deleteAllFromTable (db : Store) (tablename : String) : Option String × Store :=
  match db.execDelete tablename with
  | .error e => (some (errorfW (some e) ": deleting rows"), db)
  | .ok db1 => (none, db1)

/-- The result codes of `haveTable`. -/
inductive TableInfo where
  | no_table
  | have_table
  | bad_table
  | had_err
  deriving DecidableEq, Repr

/-- The text of the header-mismatch error. -/
def headerMismatch (collist1 collist2 : List String) : String :=
  "header mismatch: >" ++ stringsJoin collist1 ";" ++ "< >" ++ stringsJoin collist2 ";" ++ "<"

/-- The range loop of `verifyHeader`: `names` is what is left of `collist1`
from index `i` on; `collist2[i]` is in range because the lengths are equal. -/
def verifyHeaderLoop (collist1 collist2 : List String) : List String → Nat → Option String
  | [], _ => none
  | name :: rest, i =>
    if some name != collist2[i]? then some (headerMismatch collist1 collist2)
    else verifyHeaderLoop collist1 collist2 rest (i + 1)

/-- Go `verifyHeader`. -/
def verifyHeader (collist1 collist2 : List String) : Option String :=
  if collist1.length != collist2.length then some (headerMismatch collist1 collist2)
  else verifyHeaderLoop collist1 collist2 collist1 0

/-- Go `haveTable`. -/
def haveTable (db : Store) (tablename : String) (header : List String) :
    TableInfo × Option String :=
  match db.query tablename with
  | .error _ => (.no_table, none)
  | .ok rows =>
    match Store.rowsColumns rows with
    | .error e => (.had_err, some e)
    | .ok columns =>
      match verifyHeader columns header with
      | some _ => (.bad_table, none)
      | none => (.have_table, none)

/-- Go `dropTable`: the result of `Exec` is wrapped without a nil test, so the
returned error is never nil. -/
def dropTable (db : Store) (tablename : String) : Option String × Store :=
  match db.execDrop tablename with
  | .error e => (some (errorfW (some e) (": dropping table " ++ tablename)), db)
  | .ok db1 => (some (errorfW none (": dropping table " ++ tablename)), db1)

/-- The `create table` step at the end of `ensureTable`. -/
def createTable (db : Store) (tablename : String) (header : List String) : Option String × Store :=
  match db.execCreate tablename header with
  | .error e => (some (errorfW (some e) (": creating " ++ tablename)), db)
  | .ok db1 => (none, db1)

/-- Go `ensureTable`. -/
def ensureTable (db : Store) (tablename : String) (header : List String) : Option String × Store :=
  if header.length ≤ 0 then (some ("creating " ++ tablename ++ ": empty header"), db)
  else
    match haveTable db tablename header with
    | (_, some err) => (some err, db)
    | (info, none) =>
      if info = .have_table then deleteAllFromTable db tablename
      else if info = .bad_table then
        match dropTable db tablename with
        | (some err, db1) => (some err, db1)
        | (none, db1) => createTable db1 tablename header
      else createTable db tablename header

/-! ## Delimited ingest -/

/-- What `csv.Reader.Read` returns. -/
inductive ReadResult where
  | record (row : List String)
  | eof
  | fail (msg : String)
  deriving DecidableEq, Repr

/-- One `r.Read()` of `encoding/csv` on the records still unread. The reader
starts with `FieldsPerRecord = 0`; the first record fixes the field count, and
a later record of another length is the error `ErrFieldCount`. The result is
what was read, the records left, and the field count afterwards. -/
def csvRead (recs : List (List String)) (fieldsPerRecord : Nat) :
    ReadResult × List (List String) × Nat :=
  match recs with
  | [] => (.eof, [], fieldsPerRecord)
  | row :: more =>
    if fieldsPerRecord = 0 then (.record row, more, row.length)
    else if row.length = fieldsPerRecord then (.record row, more, fieldsPerRecord)
    else (.fail "wrong number of fields", more, fieldsPerRecord)

/-- The `for err == nil` loop of `addCsvFileToTable`: read a record, insert
it, until the reader reports `io.EOF` (no error) or something fails. -/
def insertLoop (path : String) (insert : Stmt) :
    List (List String) → Nat → Store → Option String × Store
  | [], _, db => (none, db)
  | row :: more, fields, db =>
    match csvRead (row :: more) fields with
    | (.record v, _, fields1) =>
      match db.execInsert insert v with
      | .error e => (some (errorfW (some e) (": fill table from " ++ path)), db)
      | .ok db1 => insertLoop path insert more fields1 db1
    | (.eof, _, _) => (none, db)
    | (.fail e, _, _) => (some (errorfW (some e) (": fill table from " ++ path)), db)

/-- Go `addCsvFileToTable`. -/
def addCsvFileToTable {α : Type} (fs : FileSys α) (db : Store) (info : FileInfo) (insert : Stmt)
    (header : List String) (sep : Char) (csvheader : Bool) : Option String × Store :=
  match opencontainer fs info with
  | .error e => (some e, db)
  | .ok f =>
    let recs := fs.csvRecords f sep
    if csvheader then
      match csvRead recs 0 with
      | (.record row, more, fields) =>
        match verifyHeader header row with
        | some e => (some e, db)
        | none => insertLoop info.Path insert more fields db
      | (.eof, _, _) => (some "EOF", db)
      | (.fail e, _, _) => (some e, db)
    else insertLoop info.Path insert recs 0 db

/-- Go `makeInsert`. -/
def makeInsert (db : Store) (tablename : String) (header : List String) : Except String Stmt :=
  match db.prepareInsert tablename header.length with
  | .error e => .error (errorfW (some e) " preparing insert")
  | .ok stmt => .ok stmt

/-- The local variables of `addCsvFiles` that its loops change: `header`,
`insert`, whether a `defer tx.Commit()` has been registered, and the store. -/
structure CsvIngest where
  header : List String
  insert : Option Stmt
  deferred : Bool
  db : Store
  deriving DecidableEq, Repr

/-- The body of the inner loop of `addCsvFiles`, for one matched file name. -/
def addCsvOne {α : Type} (fs : FileSys α) (tablename : String) (sep : Char) (csvheader : Bool)
    (container : String) (st : CsvIngest) (fname : String) : Option String × CsvIngest :=
  let f : FileInfo := { Path := fname, Container := container }
  if st.header.length == 0 then
    match readHeaderCsv fs f sep with
    | .error e => (some e, st)
    | .ok header =>
      match ensureTable st.db tablename header with
      | (some e, db1) => (some e, { st with header := header, db := db1 })
      | (none, db1) =>
        match db1.begin with
        | .error e => (some e, { st with header := header, db := db1 })
        | .ok db2 =>
          match makeInsert db2 tablename header with
          | .error e => (some e, { header := header, insert := none, deferred := true, db := db2 })
          | .ok ins =>
            match addCsvFileToTable fs db2 f ins header sep csvheader with
            | (err, db3) => (err, { header := header, insert := some ins, deferred := true, db := db3 })
  else
    match st.insert with
    | none => (some "invalid memory address or nil pointer dereference", st)
    | some ins =>
      match addCsvFileToTable fs st.db f ins st.header sep csvheader with
      | (err, db1) => (err, { st with db := db1 })

/-- The inner loop of `addCsvFiles` over the names a glob matched. -/
def addCsvFlist {α : Type} (fs : FileSys α) (tablename : String) (sep : Char) (csvheader : Bool)
    (container : String) : List String → CsvIngest → Option String × CsvIngest
  | [], st => (none, st)
  | fname :: rest, st =>
    match addCsvOne fs tablename sep csvheader container st fname with
    | (some e, st1) => (some e, st1)
    | (none, st1) => addCsvFlist fs tablename sep csvheader container rest st1

/-- The pattern that `addCsvFiles` hands to `filepath.Glob` for a file entry:
the container when there is one, else the path. -/
def globPattern (fileinfo : FileInfo) : String :=
  if fileinfo.Container != "" then fileinfo.Container else fileinfo.Path

/-- The outer loop of `addCsvFiles` over the file entries. -/
def addCsvPaths {α : Type} (fs : FileSys α) (tablename : String) (sep : Char) (csvheader : Bool) :
    List FileInfo → CsvIngest → Option String × CsvIngest
  | [], st => (none, st)
  | fileinfo :: rest, st =>
    let patt := globPattern fileinfo
    match fs.glob patt with
    | .error e => (some e, st)
    | .ok flist =>
      if flist.length == 0 then (some ("file " ++ patt ++ " not found"), st)
      else
        match addCsvFlist fs tablename sep csvheader fileinfo.Container flist st with
        | (some e, st1) => (some e, st1)
        | (none, st1) => addCsvPaths fs tablename sep csvheader rest st1

/-- The deferred `tx.Commit()` calls run when `addCsvFiles` returns, whatever
it returns. -/
def runDeferred (st : CsvIngest) : Store :=
  if st.deferred then st.db.commit else st.db

/-- The first statement of `addCsvFiles`: a zero separator stands for `;`. -/
def defaultSep (sep : Char) : Char :=
  if sep == Char.ofNat 0 then ';' else sep

/-- Go `Musql.addCsvFiles`; `inheader = none` is the nil header. -/
def addCsvFiles {α : Type} (fs : FileSys α) (db : Store) (tablename : String)
    (path : List FileInfo) (sep : Char) (inheader : Option (List String)) : Option String × Store :=
  let sep := defaultSep sep
  match inheader with
  | some header =>
    match ensureTable db tablename header with
    | (some e, db1) => (some e, db1)
    | (none, db1) =>
      match db1.begin with
      | .error e => (some e, db1)
      | .ok db2 =>
        match makeInsert db2 tablename header with
        | .error e => (some e, db2.commit)
        | .ok ins =>
          match addCsvPaths fs tablename sep false path
              { header := header, insert := some ins, deferred := true, db := db2 } with
          | (err, st) => (err, runDeferred st)
  | none =>
    match addCsvPaths fs tablename sep true path
        { header := [], insert := none, deferred := false, db := db } with
    | (err, st) => (err, runDeferred st)

/-- Go `Musql.AddCsv`. -/
def AddCsv {α : Type} (fs : FileSys α) (db : Store) (tablename : String) (path : List FileInfo)
    (sep : Char) : Option String × Store :=
  addCsvFiles fs db tablename path sep none

/-- Go `Musql.AddCsvWithHeader`. -/
def AddCsvWithHeader {α : Type} (fs : FileSys α) (db : Store) (tablename : String)
    (path : List FileInfo) (sep : Char) (header : List String) : Option String × Store :=
  addCsvFiles fs db tablename path sep (some header)

/-! ## Tree ingest: the transaction around the inserts -/

/-- Go `Select`. -/
structure Select where
  Path : String
  Name : String
  deriving DecidableEq, Repr

/-- One flattened row of a tree file, a Go `map[string]string`. -/
abbrev TreeRow := List (String × String)

/-- Go `d[h]` on a `map[string]string`: the empty string for a missing key. -/
def TreeRow.get (d : TreeRow) (h : String) : String :=
  (d.lookup h).getD ""

/-- The signature of `readTreeFile(path, xpathstr, xselects, kind)`. The
function reads and flattens a document and never touches the store; the
ingest below takes it as a parameter. -/
abbrev TreeReader :=
  FileInfo → String → List Select → String → Except String (List String × List TreeRow)

/-- The insert loop of `addTreeFileToTable`: one row per flattened node, its
cells in header order. -/
def insertTreeRows (insert : Stmt) (header : List String) :
    List TreeRow → Store → Option String × Store
  | [], db => (none, db)
  | d :: rest, db =>
    match db.execInsert insert (header.map d.get) with
    | .error e => (some e, db)
    | .ok db1 => insertTreeRows insert header rest db1

/-- Go `addTreeFileToTable`. -/
def addTreeFileToTable (readTreeFile : TreeReader) (db : Store) (info : FileInfo) (insert : Stmt)
    (header : List String) (xpathstr : String) (xselects : List Select) (kind : String) :
    Option String × Store :=
  match readTreeFile info xpathstr xselects kind with
  | .error e => (some e, db)
  | .ok (nheader, data) =>
    match verifyHeader header nheader with
    | some e => (some e, db)
    | none => insertTreeRows insert header data db

/-- The loop of `AddFromTreeFile` over the files; it stops at the first error. -/
def addTreeFiles (readTreeFile : TreeReader) (insert : Stmt) (header : List String)
    (xpathstr : String) (xselects : List Select) (kind : String) :
    List FileInfo → Store → Option String × Store
  | [], db => (none, db)
  | filename :: rest, db =>
    match addTreeFileToTable readTreeFile db filename insert header xpathstr xselects kind with
    | (some e, db1) => (some e, db1)
    | (none, db1) => addTreeFiles readTreeFile insert header xpathstr xselects kind rest db1

/-- Go `Musql.AddFromTreeFile`. The result `none` is the run-time panic of
`path[0]` on an empty file list; the deferred `tx.Commit()` runs on every
return after `Begin`. -/
def AddFromTreeFile (readTreeFile : TreeReader) (db : Store) (tablename : String)
    (path : List FileInfo) (xpathstr : String) (xselects : List Select) (kind : String) :
    Option (Option String × Store) :=
  match path with
  | [] => none
  | path0 :: _ =>
    match readTreeFile path0 xpathstr xselects kind with
    | .error e => some (some e, db)
    | .ok (header, _) =>
      match ensureTable db tablename header with
      | (some e, db1) => some (some e, db1)
      | (none, db1) =>
        match db1.begin with
        | .error e => some (some e, db1)
        | .ok db2 =>
          match makeInsert db2 tablename header with
          | .error e => some (some e, db2.commit)
          | .ok insert =>
            match addTreeFiles readTreeFile insert header xpathstr xselects kind path db2 with
            | (err, db3) => some (err, db3.commit)

/-! ## Directive parser: data -/

/-- Go `tabinfo`; the field `Type` is `FileType` here. -/
structure tabinfo where
  Tablename : String
  Files : List FileInfo
  FileType : String
  Sep : Char
  Header : List String
  Content : Bool
  XPath : String
  XSelect : List Select
  deriving DecidableEq, Repr

/-- Go `templinfo`. -/
structure templinfo where
  TemplateName : String
  TemplateString : String
  Outname : String
  deriving DecidableEq, Repr

/-- Go `argpart`. -/
structure argpart where
  basedir : String
  argv : List String
  deriving DecidableEq, Repr

/-- A Go `map[string]string`; the order of the entries carries no meaning. -/
abbrev GoMap := List (String × String)

/-- Go `m[k] = v`. -/
def GoMap.set : GoMap → String → String → GoMap
  | [], k, v => [(k, v)]
  | (k1, v1) :: rest, k, v => if k1 == k then (k1, v) :: rest else (k1, v1) :: GoMap.set rest k v

/-- What the parser needs from outside: `path.Join`, `filepath.Dir` and
`ioutil.ReadFile`. -/
structure Os where
  pathJoin : String → String → String
  dir : String → String
  readFile : String → Except String String

/-- Go `getPath`. -/
def getPath (os : Os) (basedir fname : String) : String :=
  os.pathJoin basedir fname

/-- What a sub-parser call does: it returns `(i, err)` and leaves the state
it works on as `s`, or it stops the program with an index-out-of-range panic. -/
inductive Outcome (σ : Type) where
  | ret (i : Nat) (err : Option String) (s : σ)
  | panic
  deriving DecidableEq, Repr

/-- The value a parsing step has built so far: the cursor and the value, an
error to return, or an index-out-of-range panic. -/
inductive Parsed (α : Type) where
  | ok (i : Nat) (a : α)
  | error (msg : String)
  | panic
  deriving DecidableEq, Repr

/-- Go `utf8.DecodeRuneInString`, the rune only: the first code point, or
`RuneError` (U+FFFD) for the empty string. -/
def decodeRune (s : String) : Char :=
  match s.data with
  | [] => Char.ofNat 0xFFFD
  | c :: _ => c

/-! ## Directive parser: `insert` -/

/-- The first loop of `ArgSource`: file names, each optionally followed by
`from <container>`, up to `into`. Every round moves the cursor on, so
`argv.length` rounds are enough; `fuel` counts them. -/
def sourceFilesLoop (os : Os) (basedir : String) (argv : List String) :
    Nat → Nat → List FileInfo → Parsed (List FileInfo)
  | 0, i, files => .ok i files
  | fuel + 1, i, files =>
    match argv[i]? with
    | none => .ok i files
    | some a =>
      if a == "into" then .ok i files
      else if argv[i + 1]? = some "from" then
        match argv[i + 2]? with
        | none => .error "missing container file after 'from'"
        | some cf =>
          sourceFilesLoop os basedir argv fuel (i + 3)
            (files ++ [{ Path := getPath os basedir a, Container := getPath os basedir cf }])
      else
        sourceFilesLoop os basedir argv fuel (i + 1)
          (files ++ [{ Path := getPath os basedir a, Container := "" }])

/-- The loop of `ArgSource` after `with`: column names up to `as`. -/
def sourceHeaderLoop : List String → Nat → List String → Nat × List String
  | [], i, header => (i, header)
  | a :: rest, i, header =>
    if a == "as" then (i, header) else sourceHeaderLoop rest (i + 1) (header ++ [a])

/-- The loop of `ArgSource` after `using`: select paths, each optionally
followed by `as <name>`, up to `from`; `fuel` counts the rounds as in
`sourceFilesLoop`. -/
def sourceSelectLoop (argv : List String) : Nat → Nat → List Select → Parsed (List Select)
  | 0, i, sels => .ok i sels
  | fuel + 1, i, sels =>
    match argv[i]? with
    | none => .ok i sels
    | some a =>
      if a == "from" then .ok i sels
      else if argv[i + 1]? = some "as" then
        match argv[i + 2]? with
        | none => .error "Missing name after 'as'"
        | some nm => sourceSelectLoop argv fuel (i + 3) (sels ++ [{ Path := a, Name := nm }])
      else sourceSelectLoop argv fuel (i + 1) (sels ++ [{ Path := a, Name := "" }])

/-- The optional `xpath <expr>` at the end of `ArgSource`. -/
def sourceXPath (argv : List String) (t : tabinfo) (i : Nat) : Parsed tabinfo :=
  if argv[i]? = some "xpath" then
    match argv[i + 1]? with
    | none => .error "Missing xpath after 'xpath'"
    | some x => .ok (i + 2) { t with XPath := x }
  else .ok i t

/-- The part of `ArgSource` from `with` on: `with content`, `with <col>… as
header`, or `using … from xpath` and `xpath <expr>`. -/
def sourceTail (argv : List String) (t : tabinfo) (i : Nat) : Parsed tabinfo :=
  if argv[i]? = some "with" then
    if argv[i + 1]? = some "content" then .ok (i + 2) { t with Content := true }
    else
      match sourceHeaderLoop (argv.drop (i + 1)) (i + 1) t.Header with
      | (j, header) =>
        if j + 1 ≥ argv.length + 1 then .error "Missing 'content' or 'as header' after 'with'"
        else if argv[j]? ≠ some "as" then .error "Missing 'content' or 'as header' after 'with'"
        else
          match argv[j + 1]? with
          | none => .panic
          | some h =>
            if h != "header" then .error "Missing 'content' or 'as header' after 'with'"
            else .ok (j + 2) { t with Header := header }
  else if argv[i]? = some "using" then
    match sourceSelectLoop argv argv.length (i + 1) t.XSelect with
    | .panic => .panic
    | .error e => .error e
    | .ok j sels =>
      if j + 1 ≥ argv.length then .error "Missing 'from xpath' after 'using' list"
      else if argv[j]? ≠ some "from" then .error "Missing 'from xpath' after 'using' list"
      else if argv[j + 1]? ≠ some "xpath" then .error "Missing 'from xpath' after 'using' list"
      else sourceXPath argv { t with XSelect := sels } (j + 1)
  else sourceXPath argv t i

/-- The optional `separator <char>` of `ArgSource`. -/
def sourceSeparator (argv : List String) (t : tabinfo) (i : Nat) : Parsed tabinfo :=
  if argv[i]? = some "separator" then
    match argv[i + 1]? with
    | none => .error "Missing separator after 'separator'"
    | some x => sourceTail argv { t with Sep := decodeRune x } (i + 2)
  else sourceTail argv t i

/-- The optional `as <type>` of `ArgSource`. -/
def sourceType (argv : List String) (t : tabinfo) (i : Nat) : Parsed tabinfo :=
  if argv[i]? = some "as" then
    match argv[i + 1]? with
    | none => .error "Missing file-type after 'as'"
    | some x => sourceSeparator argv { t with FileType := x } (i + 2)
  else sourceSeparator argv t i

/-- The `tabinfo` that `ArgSource` builds for a directive starting at `start`
(the keyword has been checked), and the cursor after it. -/
def sourceParse (os : Os) (argv : List String) (start : Nat) (basedir : String) : Parsed tabinfo :=
  match sourceFilesLoop os basedir argv argv.length (start + 1) [] with
  | .panic => .panic
  | .error e => .error e
  | .ok i files =>
    if i ≥ argv.length then .error "Missing 'into' for insert"
    else
      match argv[i + 1]? with
      | none => .panic
      | some name =>
        sourceType argv
          { Tablename := name, Files := files, FileType := "", Sep := Char.ofNat 0, Header := [],
            Content := false, XPath := "", XSelect := [] } (i + 2)

/-- Go `ArgSource`. Every error return gives back `start`; a recognized
directive appends its `tabinfo`. -/
def ArgSource (os : Os) (argv : List String) (start : Nat) (basedir : String)
    (tables : List tabinfo) : Outcome (List tabinfo) :=
  if start ≥ argv.length ∨ (argv[start]? ≠ some "insert" ∧ argv[start]? ≠ some "-insert") then
    .ret start none tables
  else
    match sourceParse os argv start basedir with
    | .panic => .panic
    | .error e => .ret start (some e) tables
    | .ok i t => .ret i none (tables ++ [t])

/-! ## Directive parser: the other sub-parsers -/

/-- Go `ArgTemplate`. -/
def ArgTemplate (os : Os) (argv : List String) (start : Nat) (basedir : String)
    (templates : List templinfo) : Outcome (List templinfo) :=
  if start ≥ argv.length ∨ (argv[start]? ≠ some "expand" ∧ argv[start]? ≠ some "-expand") then
    .ret start none templates
  else
    match argv[start + 1]? with
    | none => .ret (start + 1) (some "Missing template name after 'run'") templates
    | some name =>
      let TemplateName := getPath os basedir name
      let rest : Parsed String :=
        if argv[start + 2]? = some "as" then
          match argv[start + 3]? with
          | none => .error "Missing output name after 'as'"
          | some out => .ok (start + 4) (getPath os basedir out)
        else .ok (start + 2) "stdout"
      match rest with
      | .panic => .panic
      | .error e => .ret start (some e) templates
      | .ok i Outname =>
        match os.readFile TemplateName with
        | .error e => .ret start (some e) templates
        | .ok tempstring =>
          .ret i none (templates ++ [{ TemplateName := TemplateName,
                                       TemplateString := tempstring, Outname := Outname }])

/-- The loop of `ArgSelect`: the tokens from the cursor up to `expanding`.
`toks` is `argv[i:]`. -/
def selectLoop : List String → Nat → List String → Nat × List String
  | [], i, txt => (i, txt)
  | a :: rest, i, txt =>
    if a == "expanding" then (i, txt) else selectLoop rest (i + 1) (txt ++ [a])

/-- The text `fmt.Sprintf("{{#sql}}%s{{/sql}}%s", query, expand)`. -/
def selectTemplate (query expand : String) : String :=
  "\x7b\x7b#sql\x7d\x7d" ++ query ++ "\x7b\x7b/sql\x7d\x7d" ++ expand

/-- Go `ArgSelect`. The loop starts at the keyword itself. -/
def ArgSelect (argv : List String) (start : Nat) (_basedir : String)
    (templates : List templinfo) : Outcome (List templinfo) :=
  if start ≥ argv.length ∨ (argv[start]? ≠ some "select" ∧ argv[start]? ≠ some "-select") then
    .ret start none templates
  else
    match selectLoop (argv.drop start) start [] with
    | (i, txt) =>
      if i ≥ argv.length then .ret start (some "Missing 'expanding' for select") templates
      else
        match argv[i + 1]? with
        | none => .panic
        | some expand =>
          .ret (i + 2) none
            (templates ++ [{ TemplateName := "command line",
                             TemplateString := selectTemplate (stringsJoin txt " ") expand,
                             Outname := "stdout" }])

/-- The pieces of `regexp.MustCompile("[ \n]+").Split(s, -1)`: `cur` is the
piece being read, `inSep` tells that the last character was a separator. -/
def splitWordsAux : List Char → List Char → Bool → List String
  | [], cur, _ => [String.mk cur]
  | c :: rest, cur, inSep =>
    if c == ' ' || c == '\n' then
      if inSep then splitWordsAux rest [] true
      else String.mk cur :: splitWordsAux rest [] true
    else splitWordsAux rest (cur ++ [c]) false

/-- The words of an ini file: the text split at runs of spaces and newlines. -/
def splitWords (s : String) : List String :=
  splitWordsAux s.data [] false

/-- Go `ArgIni`. -/
def ArgIni (os : Os) (argv : List String) (start : Nat) (basedir : String)
    (parts : List argpart) : Outcome (List argpart) :=
  if start ≥ argv.length ∨
      (argv[start]? ≠ some "ini" ∧ argv[start]? ≠ some "-ini" ∧ argv[start]? ≠ some "-defini") then
    .ret start none parts
  else
    match argv[start + 1]? with
    | none => .panic
    | some name =>
      let ininame := getPath os basedir name
      match os.readFile ininame with
      | .error e =>
        if argv[start]? = some "-defini" then .ret (start + 2) none parts
        else .ret (start + 2) (some e) parts
      | .ok dat =>
        .ret (start + 2) none (parts ++ [{ basedir := os.dir ininame, argv := splitWords dat }])

/-- Go `ArgIgnoreEmpty`. -/
def ArgIgnoreEmpty (argv : List String) (i : Nat) (_basedir : String) : Nat × Option String :=
  if argv[i]? = some "" then (i + 1, none) else (i, none)

/-- The loop of `ArgIgnoreComment`: skip up to the closing token. -/
def commentLoop : List String → Nat → Nat
  | [], i => i
  | a :: rest, i => if a == "*/" then i else commentLoop rest (i + 1)

/-- Go `ArgIgnoreComment`. -/
def ArgIgnoreComment (argv : List String) (start : Nat) (_basedir : String) :
    Nat × Option String :=
  if start ≥ argv.length ∨ argv[start]? ≠ some "/*" then (start, none)
  else
    let i := commentLoop (argv.drop (start + 1)) (start + 1)
    if i ≥ argv.length then
      (i, some ("Missing closing '*/' for comment '" ++ stringsJoin (argv.drop start) " " ++ "'"))
    else (i + 1, none)

/-- Go `ArgDB`; `i < len(argv)-1` on Go integers is `i + 1 < len(argv)`. -/
def ArgDB (os : Os) (argv : List String) (i : Nat) (basedir : String) (s : String) :
    Outcome String :=
  if i + 1 < argv.length ∧ argv[i]? = some "db" then
    match argv[i + 1]? with
    | none => .panic
    | some name => .ret (i + 2) none (getPath os basedir name)
  else .ret i none s

/-- Go `ArgAttach`. -/
def ArgAttach (os : Os) (argv : List String) (i : Nat) (basedir : String) (a : GoMap) :
    Outcome GoMap :=
  if i ≥ argv.length ∨ argv[i]? ≠ some "attach" then .ret i none a
  else
    match argv[i + 1]? with
    | none => .ret (i + 1) (some "Missing filename of sqlite db") a
    | some f =>
      let fname := getPath os basedir f
      if argv[i + 2]? ≠ some "as" then .ret (i + 2) (some "Missing 'as' for sqlite db") a
      else
        match argv[i + 3]? with
        | none => .ret (i + 3) (some "Missing name for attached sqlite db") a
        | some name => .ret (i + 4) none (a.set fname name)

/-- Go `ArgParam`; `i < len(argv)-2` on Go integers is `i + 2 < len(argv)`. -/
def ArgParam (argv : List String) (i : Nat) (_basedir : String) (p : GoMap) : Outcome GoMap :=
  if i + 2 < argv.length ∧ argv[i]? = some "set" then
    match argv[i + 1]?, argv[i + 2]? with
    | some key, some val => .ret (i + 3) none (p.set key val)
    | _, _ => .panic
  else .ret i none p

/-- Go `ArgSql`. -/
def ArgSql (os : Os) (argv : List String) (i : Nat) (basedir : String) (p : List String) :
    Outcome (List String) :=
  if i ≥ argv.length ∨ argv[i]? ≠ some "sql" then .ret i none p
  else
    match argv[i + 1]? with
    | none => .ret (i + 1) (some "Missing sql filename") p
    | some f => .ret (i + 2) none (p ++ [getPath os basedir f])

/-! ## Directive parser: `Config.Parse` -/

/-- The ten closures that `Config.Init` registers, by the sub-parser each
one calls. -/
inductive Parser where
  | source
  | template
  | select
  | param
  | sql
  | attach
  | ini
  | db
  | comment
  | empty
  deriving DecidableEq, Repr

/-- Go `Config`; `allargs` is `allargs.parts`. -/
structure Config where
  tabinfos : List tabinfo
  templates : List templinfo
  sqls : List String
  dbname : String
  params : GoMap
  dbs : GoMap
  parsers : List Parser
  parsersready : Bool
  allargs : List argpart
  deriving DecidableEq, Repr

/-- The zero value `&Config{}`. -/
def Config.zero : Config :=
  { tabinfos := [], templates := [], sqls := [], dbname := "", params := [], dbs := [],
    parsers := [], parsersready := false, allargs := [] }

/-- Go `Config.Init`: fresh maps, and the ten sub-parsers appended in order. -/
def Config.Init (c : Config) : Config :=
  { c with
    params := []
    dbs := []
    parsers := c.parsers ++ [.source, .template, .select, .param, .sql, .attach, .ini, .db,
      .comment, .empty] }

/-- One registered closure called on `(argv, i, basedir)`: the sub-parser
works on its part of the `Config`. -/
def Parser.run (os : Os) (p : Parser) (c : Config) (argv : List String) (i : Nat)
    (basedir : String) : Outcome Config :=
  match p with
  | .source =>
    match ArgSource os argv i basedir c.tabinfos with
    | .panic => .panic
    | .ret j err x => .ret j err { c with tabinfos := x }
  | .template =>
    match ArgTemplate os argv i basedir c.templates with
    | .panic => .panic
    | .ret j err x => .ret j err { c with templates := x }
  | .select =>
    match ArgSelect argv i basedir c.templates with
    | .panic => .panic
    | .ret j err x => .ret j err { c with templates := x }
  | .param =>
    match ArgParam argv i basedir c.params with
    | .panic => .panic
    | .ret j err x => .ret j err { c with params := x }
  | .sql =>
    match ArgSql os argv i basedir c.sqls with
    | .panic => .panic
    | .ret j err x => .ret j err { c with sqls := x }
  | .attach =>
    match ArgAttach os argv i basedir c.dbs with
    | .panic => .panic
    | .ret j err x => .ret j err { c with dbs := x }
  | .ini =>
    match ArgIni os argv i basedir c.allargs with
    | .panic => .panic
    | .ret j err x => .ret j err { c with allargs := x }
  | .db =>
    match ArgDB os argv i basedir c.dbname with
    | .panic => .panic
    | .ret j err x => .ret j err { c with dbname := x }
  | .comment =>
    match ArgIgnoreComment argv i basedir with
    | (j, err) => .ret j err c
  | .empty =>
    match ArgIgnoreEmpty argv i basedir with
    | (j, err) => .ret j err c

/-- The range loop of `Parse` over `c.parsers` at the cursor `curr`: it stops
at the first sub-parser that returns an error or moves the cursor. -/
def tryParsers (os : Os) (argv : List String) (curr : Nat) (basedir : String) :
    List Parser → Config → Outcome Config
  | [], c => .ret curr none c
  | p :: rest, c =>
    match p.run os c argv curr basedir with
    | .panic => .panic
    | .ret i err c1 =>
      if err.isSome || i != curr then .ret i err c1
      else tryParsers os argv curr basedir rest c1

/-- How `Config.Parse` ends: it returns nil, it returns the error
`fmt.Errorf("%d args left: %v", n, rest)`, it returns the error of a
sub-parser, the program panics, or the given number of rounds is used up
(an ini file that includes itself never ends). -/
inductive ParseResult where
  | ok (c : Config)
  | argsLeft (n : Nat) (rest : List String) (c : Config)
  | failed (err : String) (c : Config)
  | panic
  | outOfFuel
  deriving DecidableEq, Repr

/-- The two nested loops of `Parse` as one: `pi` is the index of the part
being parsed, `i` the cursor in it; every round tries the sub-parsers once. -/
def parseLoop (os : Os) : Nat → Config → Nat → Nat → ParseResult
  | 0, _, _, _ => .outOfFuel
  | fuel + 1, c, pi, i =>
    match c.allargs[pi]? with
    | none => .ok c
    | some part =>
      match tryParsers os part.argv i part.basedir c.parsers c with
      | .panic => .panic
      | .ret _ (some err) c1 => .failed err c1
      | .ret i1 none c1 =>
        if i == i1 then
          if i1 < part.argv.length then
            .argsLeft (part.argv.length - i1) (part.argv.drop i1) c1
          else parseLoop os fuel c1 (pi + 1) 0
        else parseLoop os fuel c1 pi i1

/-- How the inner `for` loop of `Parse` over one part ends: with `break` at
the cursor `i` (the part is finished), with one of the two error returns, with
a panic, or with the rounds used up. -/
inductive PartResult where
  | done (i : Nat) (c : Config)
  | argsLeft (n : Nat) (rest : List String) (c : Config)
  | failed (err : String) (c : Config)
  | panic
  | outOfFuel
  deriving DecidableEq, Repr

/-- The inner `for` loop of `Parse` for the part `part` (`av` and `bd` are
read once, before the loop), from the cursor `i` on. -/
def partLoop (os : Os) (part : argpart) : Nat → Config → Nat → PartResult
  | 0, _, _ => .outOfFuel
  | fuel + 1, c, i =>
    match tryParsers os part.argv i part.basedir c.parsers c with
    | .panic => .panic
    | .ret _ (some err) c1 => .failed err c1
    | .ret i1 none c1 =>
      if i == i1 then
        if i1 < part.argv.length then
          .argsLeft (part.argv.length - i1) (part.argv.drop i1) c1
        else .done i1 c1
      else partLoop os part fuel c1 i1

/-- Go `Config.Parse`, run for at most `fuel` rounds. -/
def Config.Parse (os : Os) (fuel : Nat) (c : Config) (argv : List String) : ParseResult :=
  let c1 := if c.parsersready == false then c.Init else c
  parseLoop os fuel { c1 with allargs := [{ basedir := ".", argv := argv }] } 0 0

/-- The Go error value that a `ParseResult` stands for, when `Parse` returns. -/
def ParseResult.error? : ParseResult → Option (Option String)
  | .ok _ => some none
  | .argsLeft n rest _ =>
    some (some (toString n ++ " args left: [" ++ stringsJoin rest " " ++ "]"))
  | .failed err _ => some (some err)
  | .panic => none
  | .outOfFuel => none

/-- The `Config` as `Parse` leaves it, when `Parse` returns. -/
def ParseResult.config? : ParseResult → Option Config
  | .ok c => some c
  | .argsLeft _ _ c => some c
  | .failed _ c => some c
  | .panic => none
  | .outOfFuel => none

/-! ## Regular expressions

The `sql` lambda recognizes the shape of a statement with four regular
expressions. `regexp.FindStringSubmatch` returns the leftmost match, and
among the matches that start there the one a backtracking search finds first;
`Regex.find` below is that search. -/

/-- The regular expressions that the four patterns are built from. -/
inductive Regex where
  | lit (c : Char)
  | set (cs : List Char)
  | notSet (cs : List Char)
  | any
  | seq (a b : Regex)
  | alt (a b : Regex)
  | star (a : Regex)
  | plus (a : Regex)
  | group (n : Nat) (a : Regex)
  | eot
  | empty
  deriving DecidableEq, Repr

/-- The submatches found so far, by group number, the latest first. -/
abbrev Caps := List (Nat × List Char)

/-- The continuation of a match: what is left of the text, and the groups. -/
abbrev Cont := List Char → Caps → Option Caps

/-- A greedy repetition: `step` matches the repeated expression once. One more
round is tried first, then the continuation; a round that consumes nothing is
not repeated, and a text of `n` characters allows at most `n` rounds. -/
def starK (step : List Char → Caps → Cont → Option Caps) : Nat → List Char → Caps → Cont → Option Caps
  | 0, s, caps, k => k s caps
  | n + 1, s, caps, k =>
    (step s caps (fun s1 caps1 =>
      if s1.length < s.length then starK step n s1 caps1 k else none)).orElse
      (fun _ => k s caps)

/-- A backtracking match of `r` at the start of `s`, followed by `k`. -/
def Regex.matchK : Regex → List Char → Caps → Cont → Option Caps
  | .lit c, s, caps, k =>
    match s with
    | x :: rest => if x == c then k rest caps else none
    | [] => none
  | .set cs, s, caps, k =>
    match s with
    | x :: rest => if cs.contains x then k rest caps else none
    | [] => none
  | .notSet cs, s, caps, k =>
    match s with
    | x :: rest => if cs.contains x then none else k rest caps
    | [] => none
  | .any, s, caps, k =>
    match s with
    | _ :: rest => k rest caps
    | [] => none
  | .seq a b, s, caps, k => a.matchK s caps (fun s1 caps1 => b.matchK s1 caps1 k)
  | .alt a b, s, caps, k => (a.matchK s caps k).orElse (fun _ => b.matchK s caps k)
  | .star a, s, caps, k => starK (fun s1 caps1 k1 => a.matchK s1 caps1 k1) s.length s caps k
  | .plus a, s, caps, k =>
    a.matchK s caps (fun s1 caps1 =>
      starK (fun s2 caps2 k2 => a.matchK s2 caps2 k2) s1.length s1 caps1 k)
  | .group n a, s, caps, k =>
    a.matchK s caps (fun s1 caps1 => k s1 ((n, s.take (s.length - s1.length)) :: caps1))
  | .eot, s, caps, k => if s.isEmpty then k s caps else none
  | .empty, s, caps, k => k s caps

/-- A match of `r` that starts at the start of `s`. -/
def Regex.matchAt (r : Regex) (s : List Char) : Option Caps :=
  r.matchK s [] (fun _ caps => some caps)

/-- The leftmost match of `r` in `s`. -/
def Regex.find (r : Regex) : List Char → Option Caps
  | [] => r.matchAt []
  | c :: rest => (r.matchAt (c :: rest)).orElse (fun _ => Regex.find r rest)

/-- The text of group `n` of a match, empty when the group did not take part. -/
def Caps.group (caps : Caps) (n : Nat) : String :=
  String.mk ((caps.lookup n).getD [])

/-- The expression that matches the characters of `w` one after the other. -/
def Regex.str (w : List Char) : Regex → Regex :=
  fun r => w.foldr (fun c acc => Regex.seq (Regex.lit c) acc) r

/-- Go `regexp.FindStringSubmatch`, without the whole match at index 0. -/
def FindStringSubmatch (r : Regex) (s : String) : Option Caps :=
  r.find s.data

/-- The pattern `create *(view|table) *([^ ]*) as`. -/
def reCreate : Regex :=
  Regex.str "create".data <| .seq (.star (.lit ' ')) <|
    .seq (.group 1 (.alt (Regex.str "view".data .empty) (Regex.str "table".data .empty))) <|
    .seq (.star (.lit ' ')) <| .seq (.group 2 (.star (.notSet [' ']))) <|
    Regex.str " as".data .empty

/-- The pattern `insert into`. -/
def reInsert : Regex :=
  Regex.str "insert into".data .empty

/-- The pattern `create *var *([^ ]*) *as *((?s).*)$`. -/
def reVar : Regex :=
  Regex.str "create".data <| .seq (.star (.lit ' ')) <| Regex.str "var".data <|
    .seq (.star (.lit ' ')) <| .seq (.group 1 (.star (.notSet [' ']))) <|
    .seq (.star (.lit ' ')) <| Regex.str "as".data <| .seq (.star (.lit ' ')) <|
    .seq (.group 2 (.star .any)) .eot

/-- The end `[\r\n]+$` of the fragment pattern. -/
def fragTail : Regex :=
  .seq (.plus (.set ['\r', '\n'])) .eot

/-- The part `((?s).*)[\r\n]+$` of the fragment pattern. -/
def fragBody : Regex :=
  .seq (.group 2 (.star .any)) fragTail

/-- The part `[ \r\n]*((?s).*)[\r\n]+$` of the fragment pattern. -/
def fragBlank : Regex :=
  .seq (.star (.set [' ', '\r', '\n'])) fragBody

/-- The pattern `with *fragment *([^ ]*) as[ \r\n]*((?s).*)[\r\n]+$`. -/
def reFragment : Regex :=
  Regex.str "with".data <| .seq (.star (.lit ' ')) <| Regex.str "fragment".data <|
    .seq (.star (.lit ' ')) <| .seq (.group 1 (.star (.notSet [' ']))) <|
    Regex.str " as".data fragBlank

/-! ## The `sql` lambda -/

/-- A value that the store hands to `rows.Scan`; `bytes` is a `[]uint8`. -/
inductive SqlValue where
  | null
  | int (n : Int)
  | text (s : String)
  | bytes (s : String)
  deriving DecidableEq, Repr

/-- A value of the template context `map[string]interface{}`. -/
inductive CtxValue where
  | text (s : String)
  | rows (rs : List (List (String × SqlValue)))
  | bool (b : Bool)
  | lambda (name : String)
  deriving DecidableEq, Repr

/-- The template context. -/
abbrev Context := List (String × CtxValue)

/-- Go `m[k] = v` on a map with values of type `β`. -/
def mapSet {β : Type} : List (String × β) → String → β → List (String × β)
  | [], k, v => [(k, v)]
  | (k1, v1) :: rest, k, v => if k1 == k then (k1, v) :: rest else (k1, v1) :: mapSet rest k v

/-- The SQL engine behind `db.Exec` and `db.Query`, on statement texts: a
query answers with the column names and the rows. -/
structure SqlEngine (σ : Type) where
  exec : σ → String → Except String σ
  query : σ → String → Except String ((List String × List (List SqlValue)) × σ)

/-- What `addData` keeps of a scanned value: a byte slice becomes a string,
any other value stays as it is. -/
def scanValue : SqlValue → SqlValue
  | .bytes s => .text s
  | other => other

/-- The loop of `addData` over the columns of one row, in column order: the
name is set to the scanned value, so a later column replaces an earlier
column of the same name. -/
def rowToMapFrom :
    List String → List SqlValue → List (String × SqlValue) → List (String × SqlValue)
  | name :: names, v :: vs, m => rowToMapFrom names vs (mapSet m name (scanValue v))
  | _, _, m => m

/-- The map that `addData` builds for one row. The store answers with one
value per column. -/
def rowToMap (columns : List String) (vals : List SqlValue) : List (String × SqlValue) :=
  rowToMapFrom columns vals []

/-- What the `sql` lambda works on: the store, the template context, and the
statements handed to the store so far. -/
structure LambdaState (σ : Type) where
  db : σ
  mdata : Context
  issued : List String

/-- Go `Musql.addData`. -/
def addData {σ : Type} (eng : SqlEngine σ) (st : LambdaState σ) (resultvar stmt : String) :
    Option String × LambdaState σ :=
  match eng.query st.db stmt with
  | .error e => (some e, { st with issued := st.issued ++ [stmt] })
  | .ok ((columns, rows), db1) =>
    let res := rows.map (rowToMap columns)
    let mdata1 := mapSet st.mdata resultvar (.rows res)
    (none, { db := db1, mdata := mapSet mdata1 (resultvar ++ "?") (.bool (decide (res.length > 0))),
             issued := st.issued ++ [stmt] })

/-- The shape of a statement, as the `if` chain of the lambda tells it from the
four matches: `create` holds `sm[1]` and `sm[2]`, `createVar` holds `vm[1]`
and `vm[2]`, `fragment` holds `wm[1]` and `wm[2]`. -/
inductive Shape where
  | create (kind name : String)
  | createVar (name body : String)
  | insert
  | fragment (name body : String)
  | query
  deriving DecidableEq, Repr

/-- The four `FindStringSubmatch` calls of the lambda and its `if` chain. -/
def sqlShape (stmt : String) : Shape :=
  let sm := FindStringSubmatch reCreate stmt
  let im := FindStringSubmatch reInsert stmt
  let vm := FindStringSubmatch reVar stmt
  let wm := FindStringSubmatch reFragment stmt
  match sm with
  | some sm => .create (sm.group 1) (sm.group 2)
  | none =>
    match vm with
    | some vm => .createVar (vm.group 1) (vm.group 2)
    | none =>
      match im with
      | some _ => .insert
      | none =>
        match wm with
        | some wm => .fragment (wm.group 1) (wm.group 2)
        | none => .query

/-- The `sql` lambda after `render(rawstmt)` gave `stmt`: the returned text and
error, and the state afterwards. -/
def sqlStatement {σ : Type} (eng : SqlEngine σ) (stmt : String) (st : LambdaState σ) :
    (String × Option String) × LambdaState σ :=
  if stmt == "" then (("", none), st)
  else
    match sqlShape stmt with
    | .create kind name =>
      let drop := "drop " ++ kind ++ " if exists \"" ++ name ++ "\""
      match eng.exec st.db drop with
      | .error e => (("", some e), { st with issued := st.issued ++ [drop] })
      | .ok db1 =>
        match eng.exec db1 stmt with
        | .error e => (("", some e), { st with db := db1, issued := st.issued ++ [drop, stmt] })
        | .ok db2 =>
          match addData eng { st with db := db2, issued := st.issued ++ [drop, stmt] } name
              ("select * from " ++ name) with
          | (some e, st1) => (("", some e), st1)
          | (none, st1) => (("", none), st1)
    | .createVar name body =>
      match addData eng st name body with
      | (some e, st1) => (("", some e), st1)
      | (none, st1) => (("", none), st1)
    | .insert =>
      match eng.exec st.db stmt with
      | .error e => (("", some e), { st with issued := st.issued ++ [stmt] })
      | .ok db1 => (("", none), { st with db := db1, issued := st.issued ++ [stmt] })
    | .fragment name body => (("", none), { st with mdata := mapSet st.mdata name (.text body) })
    | .query =>
      match addData eng st "result" stmt with
      | (some e, st1) => (("", some e), st1)
      | (none, st1) => (("", none), st1)

/-- The `sql` lambda: `render` is the template engine's callback, which
expands the interpolations of the raw section text in the current context. -/
def sqlLambda {σ : Type} (eng : SqlEngine σ) (render : Context → String → Except String String)
    (rawstmt : String) (st : LambdaState σ) : (String × Option String) × LambdaState σ :=
  match render st.mdata rawstmt with
  | .error e => (("", some e), st)
  | .ok stmt => sqlStatement eng stmt st

/-! ## The attach phase of `Config.Apply` -/

/-- The statement text of `Musql.AddDatabase`. -/
def attachStatement (fname name : String) : String :=
  "attach '" ++ fname ++ "' as " ++ name

/-- Go `Musql.AddDatabase`. -/
def AddDatabase {σ : Type} (eng : SqlEngine σ) (db : σ) (fname name : String) :
    Option String × σ :=
  match eng.exec db (attachStatement fname name) with
  | .error e => (some e, db)
  | .ok db1 => (none, db1)

/-- The loop `for fname, name := range c.dbs` of `Config.Apply`. Go yields the
entries of a map once each, in an order it leaves open; `order` is that order.
The result is the error, the store, and the statements handed to the store. -/
def applyAttach {σ : Type} (eng : SqlEngine σ) :
    List (String × String) → σ → List String → Option String × σ × List String
  | [], db, issued => (none, db, issued)
  | (fname, name) :: rest, db, issued =>
    match AddDatabase eng db fname name with
    | (some e, db1) => (some e, db1, issued ++ [attachStatement fname name])
    | (none, db1) => applyAttach eng rest db1 (issued ++ [attachStatement fname name])

/-! ## Tree files: flattening and `readTreeFile`

The XML and JSON parsers and the XPath engine are external. A document is a
tree of `XNode`s; an `XNode` is what a `NodeNavigator` stands on. -/

/-- A node of a parsed document. An `element` has a local name, attributes
(local name and value, none in JSON) and children; the document root is an
element with the empty name. A `text` child holds its text. An `attribute` is
what a selection that ends in an attribute yields. `other` stands for the
children that are neither text nor element (comments and the like). -/
inductive XNode where
  | element (name : String) (attrs : List (String × String)) (children : List XNode)
  | text (value : String)
  | attribute (name value : String)
  | other (value : String)
  deriving Repr

/-- The navigator's `LocalName()`. -/
def XNode.LocalName : XNode → String
  | .element name _ _ => name
  | .text value => value
  | .attribute name _ => name
  | .other value => value

/-- The `header` maps of the code: field name to the size of the map when the
name was set. -/
abbrev Header := List (String × Nat)

/-- The loop of `recFlattenNode` over the attributes of the node: each one
sets the field `pfx + name` in both maps, without a test for an earlier field
of that name. -/
def flattenAttrs (pfx : String) : List (String × String) → Header → TreeRow → Header × TreeRow
  | [], header, data => (header, data)
  | (name, value) :: rest, header, data =>
    flattenAttrs pfx rest (mapSet header (pfx ++ name) header.length)
      (mapSet data (pfx ++ name) value)

mutual
/-- Go `recFlattenNode`; `pfx` is its parameter `prefix`. Only an element has
attributes and children to visit. (`readTreeFile` never passes an attribute
node.) -/
def recFlattenNode (pfx : String) :
    XNode → Header → TreeRow → String → Except String (Header × TreeRow)
  | .element name attrs children, header, data, usename =>
    recFlattenChildren (if pfx != "" then pfx ++ "/" else pfx)
      (if usename != "" then usename else name) children
      (flattenAttrs (if pfx != "" then pfx ++ "/" else pfx) attrs header data).1
      (flattenAttrs (if pfx != "" then pfx ++ "/" else pfx) attrs header data).2
  | .text _, header, data, _ => .ok (header, data)
  | .attribute _ _, header, data, _ => .ok (header, data)
  | .other _, header, data, _ => .ok (header, data)
/-- The loop of `recFlattenNode` over the children: `pfx` is the prefix with
its slash, `nodeData` the name for the text of this node. A text child must
not hit a field that is there already; an element child is flattened with the
prefix extended by its local name and without a name override. -/
def recFlattenChildren (pfx nodeData : String) :
    List XNode → Header → TreeRow → Except String (Header × TreeRow)
  | [], header, data => .ok (header, data)
  | .text value :: rest, header, data =>
    if (header.lookup nodeData).isSome then
      .error ("duplicate entry " ++ nodeData ++ " (" ++ pfx ++ ")")
    else
      recFlattenChildren pfx nodeData rest (mapSet header nodeData header.length)
        (mapSet data nodeData value)
  | .element name attrs children :: rest, header, data =>
    match recFlattenNode (pfx ++ name) (.element name attrs children) header data "" with
    | .error e => .error e
    | .ok (header1, data1) => recFlattenChildren pfx nodeData rest header1 data1
  | .attribute _ _ :: rest, header, data => recFlattenChildren pfx nodeData rest header data
  | .other _ :: rest, header, data => recFlattenChildren pfx nodeData rest header data
end

/-- Go `mergemap`: every key of `src` that `dest` does not have is added. The
range over `src` runs in an order Go leaves open; here it is the list order,
which only changes the numbers stored, not the keys. -/
def mergemap (dest : Header) : Header → Header
  | [] => dest
  | (k, _) :: rest =>
    mergemap (if (dest.lookup k).isSome then dest else mapSet dest k dest.length) rest

/-- The order of Go strings on the code points of two texts, character by
character; Go compares the bytes, and on UTF-8 that is the same order. -/
def charsLt : List Char → List Char → Bool
  | _, [] => false
  | [], _ :: _ => true
  | a :: as, b :: bs =>
    if a.toNat < b.toNat then true
    else if b.toNat < a.toNat then false
    else charsLt as bs

/-- Go `a < b` on strings. -/
def stringLt (a b : String) : Bool :=
  charsLt a.data b.data

/-- Put `a` into a sorted list, after the entries that are smaller. -/
def insertString (a : String) : List String → List String
  | [] => [a]
  | b :: rest => if stringLt b a then b :: insertString a rest else a :: b :: rest

/-- Go `sort.Strings`: the names in increasing order. -/
def sortStrings : List String → List String
  | [] => []
  | a :: rest => insertString a (sortStrings rest)

/-- What `readTreeFile` needs from outside, for file contents of type `α`:
the XML and the JSON parser, which give the document root, and the XPath
engine: `xpathCompile` is `xpath.Compile`, and the compiled expression applied
to a node gives the nodes that `Select` iterates over, in order. -/
structure TreeEnv (α : Type) where
  parseXml : α → Except String XNode
  parseJson : α → Except String XNode
  xpathCompile : String → Except String (XNode → List XNode)

/-- Go `strings.HasSuffix(sel, "?")`. -/
def hasQuestionSuffix (sel : String) : Bool :=
  sel.data.getLast? == some '?'

/-- What `readTreeFile` does with the first node `curr` that a Select matched:
an attribute node gives one field, named by the Select or by the attribute;
any other node is flattened with the Select's name as override. -/
def selectCurrent (xsel : Select) (curr : XNode) (nheader : Header) (d : TreeRow) :
    Except String (Header × TreeRow) :=
  match curr with
  | .attribute name value =>
    .ok (mapSet nheader (if xsel.Name != "" then xsel.Name else name) nheader.length,
         mapSet d (if xsel.Name != "" then xsel.Name else name) value)
  | other => recFlattenNode "" other nheader d xsel.Name

/-- The loop of `readTreeFile` over the Selects for one row node: `nheader`
and `d` are the maps of the row. -/
def selectFields {α : Type} (env : TreeEnv α) (node : XNode) :
    List Select → Header → TreeRow → Except String (Header × TreeRow)
  | [], nheader, d => .ok (nheader, d)
  | xsel :: rest, nheader, d =>
    let err_if_mis := !hasQuestionSuffix xsel.Path
    let sel := if hasQuestionSuffix xsel.Path then String.mk xsel.Path.data.dropLast else xsel.Path
    match env.xpathCompile sel with
    | .error e => .error e
    | .ok exp =>
      match exp node with
      | [] =>
        if err_if_mis then
          .error ("no element found for " ++ sel ++ " in " ++
            (if node.LocalName == "" then "nameless node" else node.LocalName))
        else selectFields env node rest nheader d
      | curr :: more =>
        match selectCurrent xsel curr nheader d with
        | .error e => .error e
        | .ok (nheader1, d1) =>
          if more.length > 0 then
            .error ("more than one element found for " ++ sel ++ " in " ++ node.LocalName)
          else selectFields env node rest nheader1 d1

/-- The loop of `readTreeFile` over the row nodes: `mheader` is the union of
the field names so far, `data` the rows. Without Selects, `.` is the one
Select. -/
def readRows {α : Type} (env : TreeEnv α) (xselects : List Select) :
    List XNode → Header → List TreeRow → Except String (Header × List TreeRow)
  | [], mheader, data => .ok (mheader, data)
  | node :: rest, mheader, data =>
    match selectFields env node
        (if xselects.length == 0 then [{ Path := ".", Name := "" }] else xselects) [] [] with
    | .error e => .error e
    | .ok (nheader, d) => readRows env xselects rest (mergemap mheader nheader) (data ++ [d])

/-- Go `readTreeFile`. -/
def readTreeFile {α : Type} (fs : FileSys α) (env : TreeEnv α) (path : FileInfo)
    (xpathstr : String) (xselects : List Select) (kind : String) :
    Except String (List String × List TreeRow) :=
  match opencontainer fs path with
  | .error e => .error (errorfW (some e) (" reading header of " ++ path.Path))
  | .ok f =>
    match (if kind == "xml" then env.parseXml f else env.parseJson f) with
    | .error e => .error e
    | .ok docnode =>
      match env.xpathCompile xpathstr with
      | .error e => .error e
      | .ok rexp =>
        match readRows env xselects (rexp docnode) [] [] with
        | .error e => .error e
        | .ok (mheader, data) => .ok (sortStrings (mheader.map Prod.fst), data)

/-! ## The rows an ingest inserts before it fails

The ingest reads its files in order and stops at the first failure. The
functions of this section say, without a store, which rows have been inserted
by then; the flag of each result tells whether nothing failed. -/

/-- The records of an opened file that go into a table with the columns `H`:
those before the first record whose length is not that of `H`. -/
def recordsInserted (H : List String) : List (List String) → List (List String) × Bool
  | [] => ([], true)
  | r :: more =>
    if r.length = H.length then (r :: (recordsInserted H more).1, (recordsInserted H more).2)
    else ([], false)

/-- The rows that one delimited file contributes: none when it cannot be
opened, when it is empty although it should start with the header, or when
its first record is not the header `H`. -/
def fileInserted {α : Type} (fs : FileSys α) (sep : Char) (csvheader : Bool) (H : List String)
    (f : FileInfo) : List (List String) × Bool :=
  match opencontainer fs f with
  | .error _ => ([], false)
  | .ok c =>
    if csvheader then
      match fs.csvRecords c sep with
      | [] => ([], false)
      | h :: more => if h = H then recordsInserted H more else ([], false)
    else recordsInserted H (fs.csvRecords c sep)

/-- The rows that the files matched by one pattern contribute, up to the
first failure. -/
def namesInserted {α : Type} (fs : FileSys α) (sep : Char) (csvheader : Bool) (H : List String)
    (container : String) : List String → List (List String) × Bool
  | [] => ([], true)
  | fname :: rest =>
    if (fileInserted fs sep csvheader H { Path := fname, Container := container }).2 then
      ((fileInserted fs sep csvheader H { Path := fname, Container := container }).1 ++
        (namesInserted fs sep csvheader H container rest).1,
       (namesInserted fs sep csvheader H container rest).2)
    else ((fileInserted fs sep csvheader H { Path := fname, Container := container }).1, false)

/-- The rows that a list of file entries contributes, up to the first
failure; a pattern that cannot be expanded or matches nothing is a failure. -/
def entriesInserted {α : Type} (fs : FileSys α) (sep : Char) (csvheader : Bool) (H : List String) :
    List FileInfo → List (List String) × Bool
  | [] => ([], true)
  | entry :: rest =>
    match fs.glob (globPattern entry) with
    | .error _ => ([], false)
    | .ok flist =>
      if flist.length == 0 then ([], false)
      else if (namesInserted fs sep csvheader H entry.Container flist).2 then
        ((namesInserted fs sep csvheader H entry.Container flist).1 ++
          (entriesInserted fs sep csvheader H rest).1,
         (entriesInserted fs sep csvheader H rest).2)
      else ((namesInserted fs sep csvheader H entry.Container flist).1, false)

/-- The rows that a list of tree files contributes to a table with the columns
`H`, up to the first failure: a file that cannot be read or whose header is
not `H` is a failure; every flattened row gives its cells in header order. -/
def treeInserted (readTreeFile : TreeReader) (H : List String) (xpathstr : String)
    (xselects : List Select) (kind : String) : List FileInfo → List (List String) × Bool
  | [] => ([], true)
  | f :: rest =>
    match readTreeFile f xpathstr xselects kind with
    | .error _ => ([], false)
    | .ok (nheader, data) =>
      if nheader = H then
        (data.map (fun d => H.map d.get) ++
          (treeInserted readTreeFile H xpathstr xselects kind rest).1,
         (treeInserted readTreeFile H xpathstr xselects kind rest).2)
      else ([], false)

/-- The store `db` is inside a transaction whose working copy holds the table
`T` with the columns `H` and the rows `rows`, and every other table as in
`other`; `committed` are the committed tables. -/
def InTransaction (db : Store) (committed other : Tables) (T : String) (H : List String)
    (rows : List (List String)) : Prop :=
  db.tables = committed ∧
    ∃ w, db.pending = some w ∧ w.lookup T = some { columns := H, rows := rows } ∧
      ∀ name : String, name ≠ T → w.lookup name = other.lookup name

/-- No transaction is open in `db`, and its committed tables hold the table
`T` with the columns `H` and the rows `rows`, and every other table as in
`other`. -/
def Committed (db : Store) (other : Tables) (T : String) (H : List String)
    (rows : List (List String)) : Prop :=
  db.pending = none ∧ db.tables.lookup T = some { columns := H, rows := rows } ∧
    ∀ name : String, name ≠ T → db.tables.lookup name = other.lookup name

/-! ## Predicates used in the statements -/

/-- The file entry `p` names one plain file (no archive, the pattern matches
exactly that name) whose records are the header `H` followed by the data rows
`d`, every data row as long as the header. -/
def IsCsvFileOf {α : Type} (fs : FileSys α) (sep : Char) (H : List String) (p : FileInfo)
    (d : List (List String)) : Prop :=
  p.Container = "" ∧ fs.glob p.Path = .ok [p.Path] ∧
    (∃ c, fs.osOpen p.Path = .ok c ∧ fs.csvRecords c (defaultSep sep) = H :: d) ∧
    ∀ r ∈ d, r.length = H.length

/-- The working copy of the open transaction has a table `T` with columns `H`. -/
def PendingCols (db : Store) (T : String) (H : List String) : Prop :=
  ∃ ts t, db.pending = some ts ∧ ts.lookup T = some t ∧ t.columns = H

/-- The files that the loops of `addCsvFiles` open, in order, when nothing
fails: for every entry, each name its pattern matches, with the entry's
container. -/
def expandPaths {α : Type} (fs : FileSys α) : List FileInfo → List FileInfo
  | [] => []
  | fileinfo :: rest =>
    (match fs.glob (globPattern fileinfo) with
     | .ok flist => flist.map (fun fname => { Path := fname, Container := fileinfo.Container })
     | .error _ => []) ++ expandPaths fs rest

/-- The plan lists of `c1` start with those of `c`, and the registered
sub-parsers are the same: nothing was removed. -/
def Config.Extends (c c1 : Config) : Prop :=
  c.tabinfos <+: c1.tabinfos ∧ c.templates <+: c1.templates ∧ c.sqls <+: c1.sqls ∧
    c.allargs <+: c1.allargs ∧ c1.parsers = c.parsers

/-- The sub-parsers in the order in which `Config.Init` registers them. -/
def initParsers : List Parser :=
  [.source, .template, .select, .param, .sql, .attach, .ini, .db, .comment, .empty]

/-- No sub-parser recognizes a directive at the cursor `i` of `argv`: there is
a token at `i`, it is none of the keywords that start a directive, a comment
or an empty token, and when it is `set` or `db` too few tokens follow it. -/
def NoDirectiveAt (argv : List String) (i : Nat) : Prop :=
  ∃ tok, argv[i]? = some tok ∧
    tok ∉ ["insert", "-insert", "expand", "-expand", "select", "-select", "sql", "attach",
      "ini", "-ini", "-defini", "/*", ""] ∧
    (tok = "set" → argv.length ≤ i + 2) ∧ (tok = "db" → argv.length ≤ i + 1)

/-- The characters that the class `[ \r\n]` of the fragment pattern matches. -/
def isBlank (ch : Char) : Bool :=
  [' ', '\r', '\n'].contains ch

/-- The text `B` without its leading spaces, carriage returns and newlines. -/
def stripLeading (B : String) : String :=
  String.mk (B.data.dropWhile isBlank)

/-- The tokens of the directives `attach <file> as <alias>`, one after the
other. -/
def attachTokens : List (String × String) → List String
  | [] => []
  | (file, name) :: rest => "attach" :: file :: "as" :: name :: attachTokens rest

/-- The map of attached databases after the directives `ds`, starting from
`m`: each directive sets its resolved file to its alias. -/
def attachMap (os : Os) (basedir : String) : List (String × String) → GoMap → GoMap
  | [], m => m
  | (file, name) :: rest, m => attachMap os basedir rest (m.set (getPath os basedir file) name)

/-- The map of attached databases after the entries `ds` (resolved file and
alias), starting from `m`: each entry sets its file to its alias. -/
def attachEntries : List (String × String) → GoMap → GoMap
  | [], m => m
  | (file, name) :: rest, m => attachEntries rest (m.set file name)

/-- The directive `attach <file> as <alias>` that starts at the token `i` of
`argv`, if one does: its file resolved against the base directory, and its
alias. -/
def attachAt (os : Os) (argv : List String) (i : Nat) (basedir : String) :
    Option (String × String) :=
  if argv[i]? = some "attach" ∧ argv[i + 2]? = some "as" then
    match argv[i + 1]?, argv[i + 3]? with
    | some file, some name => some (getPath os basedir file, name)
    | _, _ => none
  else none

/-- The attach directives of a run of the parse loop, in the order in which
the loop comes to them: the rounds are those of `parseLoop`, and a round that
moves the cursor contributes the attach directive that starts at its cursor,
if one does. -/
def attachTrace (os : Os) : Nat → Config → Nat → Nat → List (String × String)
  | 0, _, _, _ => []
  | fuel + 1, c, pi, i =>
    match c.allargs[pi]? with
    | none => []
    | some part =>
      match tryParsers os part.argv i part.basedir c.parsers c with
      | .panic => []
      | .ret _ (some _) _ => []
      | .ret i1 none c1 =>
        if i == i1 then
          if i1 < part.argv.length then []
          else attachTrace os fuel c1 (pi + 1) 0
        else (attachAt os part.argv i part.basedir).toList ++ attachTrace os fuel c1 pi i1

/-! ## A small file system for the examples -/

/-- Three delimited files, already tokenized: `t.csv` and `t2.csv` share the
header `Name;Wert`, `other_t.csv` has another header. No other file exists. -/
def exampleFs : FileSys (List (List String)) where
  glob := fun p =>
    if p == "t.csv" || p == "t2.csv" || p == "other_t.csv" then .ok [p] else .ok []
  osOpen := fun p =>
    if p == "t.csv" then .ok [["Name", "Wert"], ["a", "15000"], ["b", "30000"], ["c", "17000"]]
    else if p == "t2.csv" then .ok [["Name", "Wert"], ["d", "1"]]
    else if p == "other_t.csv" then .ok [["Key", "Value", "Note"], ["k", "v", "n"]]
    else .error ("open " ++ p ++ ": no such file or directory")
  zipOpen := fun p => .error ("open " ++ p ++ ": no such file or directory")
  csvRecords := fun recs _ => recs

/-- A store without tables and without an open transaction. -/
def emptyStore : Store := { tables := [], pending := none }

/-- Two tree files, already read and flattened: `a.xml` yields the header
`id` and two rows, `b.xml` the header `name`. -/
def exampleTreeReader : TreeReader := fun info _ _ _ =>
  if info.Path == "a.xml" then .ok (["id"], [[("id", "1")], [("id", "2")]])
  else if info.Path == "b.xml" then .ok (["name"], [[("name", "x")]])
  else .error ("open " ++ info.Path ++ ": no such file or directory")

/-- An `Os` without files: `path.Join` of a base directory and a plain
relative name, and every read fails. -/
def exampleOs : Os where
  pathJoin := fun basedir fname => if basedir == "." then fname else basedir ++ "/" ++ fname
  dir := fun _ => "."
  readFile := fun p => .error ("open " ++ p ++ ": no such file or directory")

/-- The `Config` of a first `Parse` call on `argv` when its loop starts. -/
def startConfig (argv : List String) : Config :=
  { Config.zero.Init with allargs := [{ basedir := ".", argv := argv }] }

/-- The TableSpec of `insert a.csv into t`. -/
def exampleTabinfo : tabinfo :=
  { Tablename := "t", Files := [{ Path := "a.csv", Container := "" }], FileType := "",
    Sep := Char.ofNat 0, Header := [], Content := false, XPath := "", XSelect := [] }

/-- An engine without tables: every statement fails. -/
def noEngine : SqlEngine Unit where
  exec := fun _ stmt => .error ("no such table (" ++ stmt ++ ")")
  query := fun _ stmt => .error ("no such table (" ++ stmt ++ ")")

/-- The lambda state at the start of a render with an empty context. -/
def emptyLambdaState : LambdaState Unit :=
  { db := (), mdata := [], issued := [] }

/-- An engine that knows one query, the one of `TestMustache`: the column
`Wert` with three rows, the values arriving as byte slices. -/
def exampleEngine : SqlEngine Unit where
  exec := fun _ stmt => .error ("no such table (" ++ stmt ++ ")")
  query := fun _ stmt =>
    if stmt == "select Wert from must" then
      .ok ((["Wert"], [[.bytes "15000"], [.bytes "30000"], [.bytes "17000"]]), ())
    else .error ("no such table (" ++ stmt ++ ")")

/-- A file system with one archive, `a.zip`, whose only member is `data.csv`
(a header and one row). -/
def exampleZipFs : FileSys (List (List String)) where
  glob := fun p => if p == "a.zip" then .ok [p] else .ok []
  osOpen := fun p => .error ("open " ++ p ++ ": no such file or directory")
  zipOpen := fun p =>
    if p == "a.zip" then .ok [("data.csv", .ok [["Name", "Wert"], ["a", "1"]])]
    else .error ("open " ++ p ++ ": no such file or directory")
  csvRecords := fun recs _ => recs

/-- The child elements of `node` that are named `name`. -/
def childrenNamed (name : String) : XNode → List XNode
  | .element _ _ children =>
    children.filter (fun c =>
      match c with
      | .element n _ _ => n == name
      | _ => false)
  | _ => []

/-- The document `items.xml`: two `item` elements below the root `items`, the
first with the attributes `kind` and `id` and a child `name`, the second with
an `id` and a child `price`. -/
def itemsDocument : XNode :=
  .element "" [] [
    .element "items" [] [
      .element "item" [("kind", "a"), ("id", "1")] [.element "name" [] [.text "x"]],
      .element "item" [("id", "2")] [.element "price" [] [.text "3"]]]]

/-- A file system with the one tree file `items.xml`. -/
def exampleTreeFs : FileSys XNode where
  glob := fun p => if p == "items.xml" then .ok [p] else .ok []
  osOpen := fun p =>
    if p == "items.xml" then .ok itemsDocument
    else .error ("open " ++ p ++ ": no such file or directory")
  zipOpen := fun p => .error ("open " ++ p ++ ": no such file or directory")
  csvRecords := fun _ _ => []

/-- A parser that takes the file's content as the document, and the three
path expressions `.`, `/items/item` and `item`. -/
def exampleTreeEnv : TreeEnv XNode where
  parseXml := fun doc => .ok doc
  parseJson := fun _ => .error "invalid character '<' looking for beginning of value"
  xpathCompile := fun expr =>
    if expr == "." then .ok (fun node => [node])
    else if expr == "/items/item" then
      .ok (fun doc => ((childrenNamed "items" doc).map (childrenNamed "item")).flatten)
    else if expr == "item" then .ok (childrenNamed "item")
    else .error ("expression must evaluate to a node-set: " ++ expr)

/-- The file entry of `items.xml`. -/
def itemsFile : FileInfo := { Path := "items.xml", Container := "" }

/-- The row `<r><c id="1"/><c id="2"/></r>`: two children of the same name,
each with an attribute `id`. -/
def repeatedAttrRow : XNode :=
  .element "r" [] [.element "c" [("id", "1")] [], .element "c" [("id", "2")] []]

/-- The row `<r><c>1</c><c>2</c></r>`: two children of the same name, each with
a text. -/
def repeatedTextRow : XNode :=
  .element "r" [] [.element "c" [] [.text "1"], .element "c" [] [.text "2"]]

/-- A file system with the one delimited file `dup.csv`, whose header names
the column `a` twice. -/
def repeatedHeaderFs : FileSys (List (List String)) where
  glob := fun p => if p == "dup.csv" then .ok [p] else .ok []
  osOpen := fun p =>
    if p == "dup.csv" then .ok [["a", "a"], ["1", "2"]]
    else .error ("open " ++ p ++ ": no such file or directory")
  zipOpen := fun p => .error ("open " ++ p ++ ": no such file or directory")
  csvRecords := fun recs _ => recs

/-- A file system with the one delimited file `ragged.csv` without a header
line: its second record has one field, the others two. -/
def raggedFs : FileSys (List (List String)) where
  glob := fun p => if p == "ragged.csv" then .ok [p] else .ok []
  osOpen := fun p =>
    if p == "ragged.csv" then .ok [["a", "1"], ["b"], ["c", "3"]]
    else .error ("open " ++ p ++ ": no such file or directory")
  zipOpen := fun p => .error ("open " ++ p ++ ": no such file or directory")
  csvRecords := fun recs _ => recs

/-- Five directives, three of them attach directives, two of these for the
same file. -/
def mixedTokens : List String :=
  ["insert", "a.csv", "into", "t", "attach", "f", "as", "a", "set", "k", "v",
   "attach", "f", "as", "b", "attach", "g", "as", "c"]

end Musql

/-! # Theorems -/

namespace Musql

/-! ## Header verification -/

theorem verifyHeaderLoop_none_iff (c1 c2 : List String) (names : List String) (i : Nat) :
    verifyHeaderLoop c1 c2 names i = none ↔ names <+: c2.drop i := by
  induction names generalizing i with
  | nil => simp [verifyHeaderLoop]
  | cons name rest ih =>
    rw [verifyHeaderLoop]
    by_cases h : c2[i]? = some name
    · have hd : c2.drop i = name :: c2.drop (i + 1) := by
        obtain ⟨hi, hv⟩ := List.getElem?_eq_some_iff.mp h
        rw [List.drop_eq_getElem_cons hi, hv]
      simp [h, ih, hd, List.cons_prefix_cons]
    · have hne : (some name != c2[i]?) = true := by
        simp only [bne_iff_ne, ne_eq]
        exact fun e => h e.symm
      simp only [hne, if_true]
      constructor
      · intro hh; cases hh
      · intro hp
        exfalso
        obtain ⟨t, ht⟩ := hp
        apply h
        have : (c2.drop i)[0]? = some name := by rw [← ht]; simp
        simpa using this

theorem verifyHeader_none_iff (a b : List String) : verifyHeader a b = none ↔ a = b := by
  unfold verifyHeader
  by_cases hl : a.length = b.length
  · simp only [bne_iff_ne, ne_eq, hl, not_true_eq_false, if_false, verifyHeaderLoop_none_iff,
      List.drop_zero]
    constructor
    · intro hp; exact hp.eq_of_length hl
    · intro e; rw [e]
  · have : a ≠ b := fun e => hl (by rw [e])
    simp [hl, this]

end Musql

namespace Musql

/-! ## Tables -/

theorem lookup_append_new (ts : Tables) (name : String) (t : Table)
    (h : ts.lookup name = none) : (ts ++ [(name, t)]).lookup name = some t := by
  induction ts with
  | nil => simp [List.lookup]
  | cons p rest ih =>
    obtain ⟨k, v⟩ := p
    simp only [List.lookup] at h
    simp only [List.cons_append, List.lookup]
    cases hk : name == k with
    | true => simp [hk] at h
    | false => simp only [hk] at h; exact ih h

theorem update_append_new (ts : Tables) (name : String) (t t1 : Table)
    (h : ts.lookup name = none) :
    Tables.update (ts ++ [(name, t)]) name t1 = ts ++ [(name, t1)] := by
  induction ts with
  | nil => simp [Tables.update]
  | cons p rest ih =>
    obtain ⟨k, v⟩ := p
    simp only [List.lookup] at h
    cases hk : name == k with
    | true => simp [hk] at h
    | false =>
      simp only [hk] at h
      have hk2 : (k == name) = false := by
        rw [beq_eq_false_iff_ne] at hk ⊢
        exact fun e => hk e.symm
      have := ih h
      simp only [Tables.update] at this
      simp only [Tables.update, List.cons_append, List.map_cons, hk2, Bool.false_eq_true,
        if_false, this]

theorem lookup_filter_ne (ts : Tables) (name : String) :
    (ts.filter (fun p => !(p.1 == name))).lookup name = none := by
  induction ts with
  | nil => simp [List.lookup]
  | cons p rest ih =>
    obtain ⟨k, v⟩ := p
    cases hk : k == name with
    | true => simp [List.filter, hk, ih]
    | false =>
      have hk2 : (name == k) = false := by
        rw [beq_eq_false_iff_ne] at hk ⊢
        exact fun e => hk e.symm
      simp [List.filter, hk, List.lookup, hk2, ih]

end Musql

namespace Musql

/-! ## ensureTable on a table with other columns -/

theorem haveTable_bad (db : Store) (T : String) (H : List String) (t : Table)
    (hT : db.tables.lookup T = some t) (hne : t.columns ≠ H) :
    haveTable db T H = (.bad_table, none) := by
  have hv : verifyHeader t.columns H ≠ none := fun e => hne ((verifyHeader_none_iff _ _).mp e)
  unfold haveTable Store.query Store.rowsColumns
  simp only [hT]
  cases hvv : verifyHeader t.columns H with
  | none => exact absurd hvv hv
  | some e => rfl

/-- C1, as the code behaves: when the store holds a table `T` whose columns
differ from the non-empty header `H`, `ensureTable` drops `T`, then returns the
non-nil error that `dropTable` builds around the nil result of the drop, and
does not create the table again: afterwards the store has no table `T`. -/
theorem ensureTable_mismatch_returns_error (db : Store) (T : String) (H : List String)
    (t : Table) (hT : db.tables.lookup T = some t) (hne : t.columns ≠ H) (hH : H ≠ []) :
    (ensureTable db T H).1 = some (errorfW none (": dropping table " ++ T)) ∧
      (ensureTable db T H).2.tables.lookup T = none := by
  have hlen : ¬ H.length ≤ 0 := by
    cases H with
    | nil => exact absurd rfl hH
    | cons a r => simp
  unfold ensureTable
  rw [if_neg hlen, haveTable_bad db T H t hT hne]
  simp only [dropTable, Store.execDrop, hT]
  refine ⟨by simp, ?_⟩
  simpa using lookup_filter_ne db.tables T

/-- Witness of `ensureTable_mismatch_returns_error`: a store whose table `t`
has the column `a`, asked for the header `b`. -/
theorem ensureTable_mismatch_returns_error_witness :
    (ensureTable { tables := [("t", { columns := ["a"], rows := [["1"]] })], pending := none }
        "t" ["b"]).1 = some (errorfW none (": dropping table " ++ "t")) ∧
      (ensureTable { tables := [("t", { columns := ["a"], rows := [["1"]] })], pending := none }
        "t" ["b"]).2.tables.lookup "t" = none :=
  ensureTable_mismatch_returns_error
    { tables := [("t", { columns := ["a"], rows := [["1"]] })], pending := none } "t" ["b"]
    { columns := ["a"], rows := [["1"]] } (by decide) (by decide) (by decide)

end Musql

namespace Musql

/-! ## Delimited ingest: one well-formed file -/

theorem length_ne_zero_of_ne_nil {H : List String} (hH : H ≠ []) : H.length ≠ 0 := by
  cases H with
  | nil => exact absurd rfl hH
  | cons a r => simp

theorem insertLoop_good (path T : String) (H : List String) (committed base : Tables)
    (hbase : base.lookup T = none) (hH : H ≠ []) (d : List (List String)) :
    ∀ acc : List (List String), (∀ r ∈ d, r.length = H.length) →
      insertLoop path { table := T, arity := H.length } d H.length
          { tables := committed, pending := some (base ++ [(T, { columns := H, rows := acc })]) } =
        (none, { tables := committed,
                 pending := some (base ++ [(T, { columns := H, rows := acc ++ d })]) }) := by
  have hn := length_ne_zero_of_ne_nil hH
  induction d with
  | nil => intro acc _; simp [insertLoop]
  | cons row more ih =>
    intro acc hd
    have hrow : row.length = H.length := hd row (by simp)
    have hmore : ∀ r ∈ more, r.length = H.length := fun r hr => hd r (by simp [hr])
    rw [insertLoop]
    simp only [csvRead, hn, if_false, hrow, if_true, Store.execInsert,
      lookup_append_new base T _ hbase, update_append_new base T _ _ hbase]
    rw [ih (acc ++ [row]) hmore]
    simp

theorem opencontainer_plain {α : Type} (fs : FileSys α) (p : String) (c : α)
    (ho : fs.osOpen p = .ok c) : opencontainer fs { Path := p, Container := "" } = .ok c := by
  simp [opencontainer, ho]

theorem addCsvFileToTable_good {α : Type} (fs : FileSys α) (info : FileInfo) (c : α) (sep : Char)
    (T : String) (H : List String) (committed base : Tables) (hbase : base.lookup T = none)
    (hH : H ≠ []) (d acc : List (List String)) (ho : opencontainer fs info = .ok c)
    (hr : fs.csvRecords c sep = H :: d) (hd : ∀ r ∈ d, r.length = H.length) :
    addCsvFileToTable fs
        { tables := committed, pending := some (base ++ [(T, { columns := H, rows := acc })]) }
        info { table := T, arity := H.length } H sep true =
      (none, { tables := committed,
               pending := some (base ++ [(T, { columns := H, rows := acc ++ d })]) }) := by
  unfold addCsvFileToTable
  simp only [ho, hr, if_true, csvRead, (verifyHeader_none_iff H H).mpr rfl]
  exact insertLoop_good info.Path T H committed base hbase hH d acc hd

theorem ensureTable_absent (db : Store) (T : String) (H : List String)
    (hT : db.tables.lookup T = none) (hH : H ≠ []) (hR : repeatedColumn H [] = none) :
    ensureTable db T H =
      (none, { db with tables := db.tables ++ [(T, { columns := H, rows := [] })] }) := by
  have hlen : ¬ H.length ≤ 0 := by
    have := length_ne_zero_of_ne_nil hH
    omega
  unfold ensureTable
  rw [if_neg hlen]
  simp [haveTable, Store.query, hT, createTable, Store.execCreate, hR]

end Musql

namespace Musql

/-! ## Delimited ingest: the loops over well-formed files -/

theorem addCsvOne_first {α : Type} (fs : FileSys α) (T : String) (sep : Char) (cont fname : String)
    (db : Store) (c : α) (H : List String) (d : List (List String))
    (hT : db.tables.lookup T = none) (hH : H ≠ []) (hR : repeatedColumn H [] = none)
    (ho : opencontainer fs { Path := fname, Container := cont } = .ok c)
    (hr : fs.csvRecords c sep = H :: d) (hd : ∀ r ∈ d, r.length = H.length) :
    addCsvOne fs T sep true cont { header := [], insert := none, deferred := false, db := db }
        fname =
      (none, { header := H, insert := some { table := T, arity := H.length }, deferred := true,
               db := { tables := db.tables ++ [(T, { columns := H, rows := [] })],
                       pending := some (db.tables ++ [(T, { columns := H, rows := d })]) } }) := by
  unfold addCsvOne
  simp only [List.length_nil, beq_self_eq_true, if_true, readHeaderCsv, ho, hr,
    ensureTable_absent db T H hT hH hR, Store.begin, makeInsert, Store.prepareInsert,
    lookup_append_new db.tables T _ hT]
  have := addCsvFileToTable_good fs { Path := fname, Container := cont } c sep T H
    (db.tables ++ [(T, { columns := H, rows := [] })]) db.tables hT hH d [] ho hr hd
  simp only [List.nil_append] at this
  simp [this]

theorem addCsvOne_next {α : Type} (fs : FileSys α) (T : String) (sep : Char) (cont fname : String)
    (committed base : Tables) (c : α) (H : List String) (d acc : List (List String))
    (hbase : base.lookup T = none) (hH : H ≠ [])
    (ho : opencontainer fs { Path := fname, Container := cont } = .ok c)
    (hr : fs.csvRecords c sep = H :: d) (hd : ∀ r ∈ d, r.length = H.length) :
    addCsvOne fs T sep true cont
        { header := H, insert := some { table := T, arity := H.length }, deferred := true,
          db := { tables := committed,
                  pending := some (base ++ [(T, { columns := H, rows := acc })]) } } fname =
      (none, { header := H, insert := some { table := T, arity := H.length }, deferred := true,
               db := { tables := committed,
                       pending := some (base ++ [(T, { columns := H, rows := acc ++ d })]) } }) := by
  have hn := length_ne_zero_of_ne_nil hH
  unfold addCsvOne
  simp only [beq_iff_eq, hn, if_false,
    addCsvFileToTable_good fs { Path := fname, Container := cont } c sep T H committed base
      hbase hH d acc ho hr hd]

theorem addCsvPaths_good {α : Type} (fs : FileSys α) (T : String) (sep : Char)
    (committed base : Tables) (H : List String) (hbase : base.lookup T = none) (hH : H ≠ [])
    (paths : List FileInfo) (datas : List (List (List String)))
    (hf : List.Forall₂ (IsCsvFileOf fs sep H) paths datas) :
    ∀ acc : List (List String),
      addCsvPaths fs T (defaultSep sep) true paths
          { header := H, insert := some { table := T, arity := H.length }, deferred := true,
            db := { tables := committed,
                    pending := some (base ++ [(T, { columns := H, rows := acc })]) } } =
        (none, { header := H, insert := some { table := T, arity := H.length }, deferred := true,
                 db := { tables := committed,
                         pending := some (base ++ [(T, { columns := H,
                                                         rows := acc ++ datas.flatten })]) } }) := by
  induction hf with
  | nil => intro acc; simp [addCsvPaths]
  | @cons p d ps ds hp _ ih =>
    intro acc
    obtain ⟨hc, hg, ⟨c, ho, hr⟩, hd⟩ := hp
    have hoc : opencontainer fs { Path := p.Path, Container := p.Container } = .ok c := by
      rw [hc]; exact opencontainer_plain fs p.Path c ho
    rw [addCsvPaths]
    simp only [globPattern, hc, bne_self_eq_false, Bool.false_eq_true, if_false, hg,
      List.length_singleton, Nat.reduceBEq, addCsvFlist]
    have h1 := addCsvOne_next fs T (defaultSep sep) p.Container p.Path committed base c H d acc
      hbase hH hoc hr hd
    rw [hc] at h1
    rw [h1]
    simp only [List.flatten_cons, ← List.append_assoc]
    exact ih (acc ++ d)

end Musql

namespace Musql

/-- C2, counterexample: the file `dup.csv` has the header `a;a` and the row
`1;2`, as long as the header, and the store has no table `t`; the store
refuses the `create table` with the repeated column, so `AddCsv` returns
`duplicate column name: a: creating t` and the store stays empty. -/
theorem AddCsv_repeated_column_is_refused :
    IsCsvFileOf repeatedHeaderFs ';' ["a", "a"] { Path := "dup.csv", Container := "" }
        [["1", "2"]] ∧
      emptyStore.tables.lookup "t" = none ∧
      AddCsv repeatedHeaderFs emptyStore "t" [{ Path := "dup.csv", Container := "" }] ';' =
        (some "duplicate column name: a: creating t", emptyStore) :=
  ⟨⟨rfl, rfl, ⟨_, rfl, rfl⟩, by decide⟩, by decide, by decide⟩

/-- C2, as the code behaves: header-from-file ingest of well-formed files into
a store without the table. For a non-empty list of files whose records all
start with the same non-empty header `H`, in which no name comes twice (the
store compares column names without regard to case), and whose data rows are
as long as `H`, `AddCsv` returns no error, leaves the other tables as they
were, and the table `T` has the columns `H` and, as rows, the data rows of the
files concatenated in file order; the row count is the sum of the files'
data-row counts. -/
theorem AddCsv_rows_in_file_order {α : Type} (fs : FileSys α) (db : Store) (T : String)
    (sep : Char) (H : List String) (paths : List FileInfo) (datas : List (List (List String)))
    (hne : paths ≠ []) (hT : db.tables.lookup T = none) (hH : H ≠ [])
    (hR : repeatedColumn H [] = none)
    (hf : List.Forall₂ (IsCsvFileOf fs sep H) paths datas) :
    AddCsv fs db T paths sep =
        (none, { tables := db.tables ++ [(T, { columns := H, rows := datas.flatten })],
                 pending := none }) ∧
      (AddCsv fs db T paths sep).2.tables.lookup T =
        some { columns := H, rows := datas.flatten } ∧
      datas.flatten.length = (datas.map List.length).sum := by
  have main : AddCsv fs db T paths sep =
      (none, { tables := db.tables ++ [(T, { columns := H, rows := datas.flatten })],
               pending := none }) := by
    cases hf with
    | nil => exact absurd rfl hne
    | @cons p d ps ds hp hrest =>
      obtain ⟨hc, hg, ⟨c, ho, hr⟩, hd⟩ := hp
      have hoc : opencontainer fs { Path := p.Path, Container := "" } = .ok c :=
        opencontainer_plain fs p.Path c ho
      have h1 := addCsvOne_first fs T (defaultSep sep) "" p.Path db c H d hT hH hR hoc hr hd
      have h2 := addCsvPaths_good fs T sep (db.tables ++ [(T, { columns := H, rows := [] })])
        db.tables H hT hH ps ds hrest d
      unfold AddCsv addCsvFiles
      simp only [addCsvPaths, globPattern, hc, bne_self_eq_false, Bool.false_eq_true, if_false, hg,
        List.length_singleton, Nat.reduceBEq, addCsvFlist, h1, h2, runDeferred, if_true,
        Store.commit, List.flatten_cons]
  refine ⟨main, ?_, by simp [List.length_flatten]⟩
  rw [main]
  exact lookup_append_new db.tables T _ hT

end Musql

namespace Musql

/-- Witness of `AddCsv_rows_in_file_order`: `t.csv` and `t2.csv` into `mytable`. -/
theorem AddCsv_rows_in_file_order_witness :
    AddCsv exampleFs emptyStore "mytable"
          [{ Path := "t.csv", Container := "" }, { Path := "t2.csv", Container := "" }] ';' =
        (none, { tables := emptyStore.tables ++ [("mytable", Table.mk ["Name", "Wert"]
                   [[["a", "15000"], ["b", "30000"], ["c", "17000"]], [["d", "1"]]].flatten)],
                 pending := none }) ∧
      (AddCsv exampleFs emptyStore "mytable"
          [{ Path := "t.csv", Container := "" }, { Path := "t2.csv", Container := "" }]
          ';').2.tables.lookup "mytable" =
        some (Table.mk ["Name", "Wert"]
          [[["a", "15000"], ["b", "30000"], ["c", "17000"]], [["d", "1"]]].flatten) ∧
      [[["a", "15000"], ["b", "30000"], ["c", "17000"]], [["d", "1"]]].flatten.length =
        ([[["a", "15000"], ["b", "30000"], ["c", "17000"]], [["d", "1"]]].map List.length).sum :=
  AddCsv_rows_in_file_order exampleFs emptyStore "mytable" ';' ["Name", "Wert"]
    [{ Path := "t.csv", Container := "" }, { Path := "t2.csv", Container := "" }]
    [[["a", "15000"], ["b", "30000"], ["c", "17000"]], [["d", "1"]]]
    (by decide) (by decide) (by decide) (by decide)
    (List.Forall₂.cons ⟨rfl, rfl, ⟨_, rfl, rfl⟩, by decide⟩
      (List.Forall₂.cons ⟨rfl, rfl, ⟨_, rfl, rfl⟩, by decide⟩ List.Forall₂.nil))

end Musql

namespace Musql

/-! ## Delimited ingest: a later file with another header -/

theorem ensureTable_ok_header (db : Store) (T : String) (H : List String)
    (h : (ensureTable db T H).1 = none) : H.length ≠ 0 := by
  intro h0
  unfold ensureTable at h
  simp [h0] at h

theorem addCsvOne_keeps_header {α : Type} (fs : FileSys α) (T : String) (sep : Char)
    (csvheader : Bool) (cont : String) (st st1 : CsvIngest) (fname : String)
    (hh : st.header.length ≠ 0)
    (h : addCsvOne fs T sep csvheader cont st fname = (none, st1)) :
    st1.header = st.header := by
  unfold addCsvOne at h
  simp only [beq_iff_eq, hh, if_false] at h
  cases hi : st.insert with
  | none => simp [hi] at h
  | some ins =>
    simp only [hi] at h
    rcases hx : addCsvFileToTable fs st.db { Path := fname, Container := cont } ins st.header
      sep csvheader with ⟨err, db1⟩
    simp only [hx, Prod.mk.injEq] at h
    rw [← h.2]

theorem addCsvOne_sets_header {α : Type} (fs : FileSys α) (T : String) (sep : Char)
    (csvheader : Bool) (cont : String) (st st1 : CsvIngest) (fname : String) (c : α)
    (H : List String) (more : List (List String)) (hh : st.header = [])
    (ho : opencontainer fs { Path := fname, Container := cont } = .ok c)
    (hr : fs.csvRecords c sep = H :: more)
    (h : addCsvOne fs T sep csvheader cont st fname = (none, st1)) :
    st1.header = H ∧ H.length ≠ 0 := by
  unfold addCsvOne at h
  simp only [hh, List.length_nil, beq_self_eq_true, if_true, readHeaderCsv, ho, hr] at h
  rcases he : ensureTable st.db T H with ⟨e1, db1⟩
  have hlen : e1 = none → H.length ≠ 0 := by
    intro e; apply ensureTable_ok_header st.db T H; rw [he]; exact e
  cases e1 with
  | some e => simp [he] at h
  | none =>
    refine ⟨?_, hlen rfl⟩
    simp only [he, Store.begin] at h
    cases hm : makeInsert { tables := db1.tables, pending := some db1.tables } T H with
    | error e => simp [hm] at h
    | ok ins =>
      simp only [hm] at h
      rcases hx : addCsvFileToTable fs { tables := db1.tables, pending := some db1.tables }
        { Path := fname, Container := cont } ins H sep csvheader with ⟨err, db3⟩
      simp only [hx, Prod.mk.injEq] at h
      rw [← h.2]

theorem addCsvOne_mismatch {α : Type} (fs : FileSys α) (T : String) (sep : Char)
    (cont : String) (st : CsvIngest) (fname : String) (c : α)
    (R : List String) (more : List (List String)) (hh : st.header.length ≠ 0)
    (ho : opencontainer fs { Path := fname, Container := cont } = .ok c)
    (hr : fs.csvRecords c sep = R :: more) (hne : R ≠ st.header) :
    (addCsvOne fs T sep true cont st fname).1 ≠ none := by
  unfold addCsvOne
  simp only [beq_iff_eq, hh, if_false]
  cases hi : st.insert with
  | none => simp
  | some ins =>
    have hv : verifyHeader st.header R ≠ none :=
      fun e => hne ((verifyHeader_none_iff _ _).mp e).symm
    cases hvv : verifyHeader st.header R with
    | none => exact absurd hvv hv
    | some e => simp [addCsvFileToTable, ho, hr, csvRead, hvv]

end Musql

namespace Musql

theorem addCsvFlist_keeps_header {α : Type} (fs : FileSys α) (T : String) (sep : Char)
    (csvheader : Bool) (cont : String) (flist : List String) :
    ∀ (st st1 : CsvIngest), st.header.length ≠ 0 →
      addCsvFlist fs T sep csvheader cont flist st = (none, st1) → st1.header = st.header := by
  induction flist with
  | nil => intro st st1 _ h; simp only [addCsvFlist, Prod.mk.injEq, true_and] at h; rw [h]
  | cons fname rest ih =>
    intro st st1 hh h
    rw [addCsvFlist] at h
    rcases hx : addCsvOne fs T sep csvheader cont st fname with ⟨err, st2⟩
    cases err with
    | some e => simp [hx] at h
    | none =>
      simp only [hx] at h
      have h2 := addCsvOne_keeps_header fs T sep csvheader cont st st2 fname hh hx
      have h3 := ih st2 st1 (by rw [h2]; exact hh) h
      rw [h3, h2]

theorem addCsvFlist_mismatch {α : Type} (fs : FileSys α) (T : String) (sep : Char)
    (cont : String) (bad : FileInfo) (c : α) (R : List String) (more : List (List String))
    (ho : opencontainer fs bad = .ok c) (hr : fs.csvRecords c sep = R :: more)
    (flist : List String) :
    ∀ st : CsvIngest, st.header.length ≠ 0 → R ≠ st.header →
      bad ∈ flist.map (fun fname => ({ Path := fname, Container := cont } : FileInfo)) →
      (addCsvFlist fs T sep true cont flist st).1 ≠ none := by
  induction flist with
  | nil => intro st _ _ hm; simp at hm
  | cons fname rest ih =>
    intro st hh hne hm
    rw [addCsvFlist]
    rcases hx : addCsvOne fs T sep true cont st fname with ⟨err, st2⟩
    cases err with
    | some e => simp
    | none =>
      simp only
      have h2 := addCsvOne_keeps_header fs T sep true cont st st2 fname hh hx
      simp only [List.map_cons, List.mem_cons] at hm
      rcases hm with hb | hm
      · exfalso
        have := addCsvOne_mismatch fs T sep cont st fname c R more hh (by rw [← hb]; exact ho)
          hr hne
        rw [hx] at this
        exact this rfl
      · exact ih st2 (by rw [h2]; exact hh) (by rw [h2]; exact hne) hm

theorem addCsvPaths_mismatch {α : Type} (fs : FileSys α) (T : String) (sep : Char)
    (bad : FileInfo) (c : α) (R : List String) (more : List (List String))
    (ho : opencontainer fs bad = .ok c) (hr : fs.csvRecords c sep = R :: more)
    (paths : List FileInfo) :
    ∀ st : CsvIngest, st.header.length ≠ 0 → R ≠ st.header → bad ∈ expandPaths fs paths →
      (addCsvPaths fs T sep true paths st).1 ≠ none := by
  induction paths with
  | nil => intro st _ _ hm; simp [expandPaths] at hm
  | cons e rest ih =>
    intro st hh hne hm
    rw [addCsvPaths]
    simp only [expandPaths] at hm
    cases hg : fs.glob (globPattern e) with
    | error err => simp
    | ok flist =>
      simp only [hg, List.mem_append] at hm
      simp only
      by_cases hl : (flist.length == 0) = true
      · simp [hl]
      · simp only [hl, Bool.false_eq_true, if_false]
        rcases hx : addCsvFlist fs T sep true e.Container flist st with ⟨err, st2⟩
        cases err with
        | some e => simp
        | none =>
          simp only
          have h2 := addCsvFlist_keeps_header fs T sep true e.Container flist st st2 hh hx
          rcases hm with hb | hm
          · exfalso
            have := addCsvFlist_mismatch fs T sep e.Container bad c R more ho hr flist st hh
              hne hb
            rw [hx] at this
            exact this rfl
          · exact ih st2 (by rw [h2]; exact hh) (by rw [h2]; exact hne) hm

end Musql

namespace Musql

theorem addCsvPaths_later_mismatch {α : Type} (fs : FileSys α) (db : Store) (T : String)
    (sep : Char) (paths : List FileInfo) (first bad : FileInfo) (others : List FileInfo)
    (c0 c : α) (H R : List String) (more0 more : List (List String))
    (hx : expandPaths fs paths = first :: others) (hb : bad ∈ others)
    (ho0 : opencontainer fs first = .ok c0) (hr0 : fs.csvRecords c0 sep = H :: more0)
    (ho : opencontainer fs bad = .ok c) (hr : fs.csvRecords c sep = R :: more)
    (hne : R ≠ H) :
    (addCsvPaths fs T sep true paths
      { header := [], insert := none, deferred := false, db := db }).1 ≠ none := by
  cases paths with
  | nil => simp [expandPaths] at hx
  | cons e rest =>
    rw [addCsvPaths]
    simp only [expandPaths] at hx
    cases hg : fs.glob (globPattern e) with
    | error err => simp
    | ok flist =>
      simp only [hg] at hx
      cases flist with
      | nil => simp
      | cons f0 fl =>
        simp only [List.map_cons, List.cons_append, List.cons.injEq] at hx
        obtain ⟨hfirst, hothers⟩ := hx
        simp only [List.length_cons, Nat.add_one_ne_zero, beq_iff_eq, if_false, addCsvFlist]
        rcases h1 : addCsvOne fs T sep true e.Container
          { header := [], insert := none, deferred := false, db := db } f0 with ⟨err1, st1⟩
        cases err1 with
        | some e1 => simp
        | none =>
          simp only
          obtain ⟨hh1, hlen⟩ := addCsvOne_sets_header fs T sep true e.Container _ st1 f0 c0 H
            more0 rfl (by rw [hfirst]; exact ho0) hr0 h1
          rw [← hothers, List.mem_append] at hb
          rcases h2 : addCsvFlist fs T sep true e.Container fl st1 with ⟨err2, st2⟩
          cases err2 with
          | some e2 => simp
          | none =>
            simp only
            have hk := addCsvFlist_keeps_header fs T sep true e.Container fl st1 st2
              (by rw [hh1]; exact hlen) h2
            rcases hb with hb | hb
            · exfalso
              have := addCsvFlist_mismatch fs T sep e.Container bad c R more ho hr fl st1
                (by rw [hh1]; exact hlen) (by rw [hh1]; exact hne) hb
              rw [h2] at this
              exact this rfl
            · exact addCsvPaths_mismatch fs T sep bad c R more ho hr rest st2
                (by rw [hk, hh1]; exact hlen) (by rw [hk, hh1]; exact hne) hb

/-- C3: `verifyHeader` returns no error exactly for equal lists (same length,
same name at every position); and `AddCsv` without an explicit header returns
an error whenever a file after the first one starts with a record other than
the first record of the first file. The files are those the ingest opens in
order (`expandPaths`). -/
theorem verifyHeader_strict_and_AddCsv_rejects_mismatch :
    (∀ a b : List String, verifyHeader a b = none ↔ a = b) ∧
      ∀ {α : Type} (fs : FileSys α) (db : Store) (T : String) (sep : Char)
        (paths : List FileInfo) (first bad : FileInfo) (others : List FileInfo) (c0 c : α)
        (H R : List String) (more0 more : List (List String)),
        expandPaths fs paths = first :: others → bad ∈ others →
        opencontainer fs first = .ok c0 → fs.csvRecords c0 (defaultSep sep) = H :: more0 →
        opencontainer fs bad = .ok c → fs.csvRecords c (defaultSep sep) = R :: more →
        R ≠ H → (AddCsv fs db T paths sep).1 ≠ none := by
  refine ⟨verifyHeader_none_iff, ?_⟩
  intro α fs db T sep paths first bad others c0 c H R more0 more hx hb ho0 hr0 ho hr hne
  have := addCsvPaths_later_mismatch fs db T (defaultSep sep) paths first bad others c0 c H R
    more0 more hx hb ho0 hr0 ho hr hne
  unfold AddCsv addCsvFiles
  simp only
  rcases h : addCsvPaths fs T (defaultSep sep) true paths
    { header := [], insert := none, deferred := false, db := db } with ⟨err, st⟩
  rw [h] at this
  exact this

/-- Witness of `verifyHeader_strict_and_AddCsv_rejects_mismatch`: `t.csv`
followed by `other_t.csv`, as in `TestTableMismatch`. -/
theorem verifyHeader_strict_and_AddCsv_rejects_mismatch_witness :
    (verifyHeader ["a", "b"] ["a", "b"] = none ↔ ["a", "b"] = ["a", "b"]) ∧
      (AddCsv exampleFs emptyStore "mytable_2"
        [{ Path := "t.csv", Container := "" }, { Path := "other_t.csv", Container := "" }]
        ';').1 ≠ none :=
  ⟨verifyHeader_strict_and_AddCsv_rejects_mismatch.1 ["a", "b"] ["a", "b"],
   verifyHeader_strict_and_AddCsv_rejects_mismatch.2 exampleFs emptyStore "mytable_2" ';'
    [{ Path := "t.csv", Container := "" }, { Path := "other_t.csv", Container := "" }]
    { Path := "t.csv", Container := "" } { Path := "other_t.csv", Container := "" }
    [{ Path := "other_t.csv", Container := "" }]
    [["Name", "Wert"], ["a", "15000"], ["b", "30000"], ["c", "17000"]]
    [["Key", "Value", "Note"], ["k", "v", "n"]]
    ["Name", "Wert"] ["Key", "Value", "Note"]
    [["a", "15000"], ["b", "30000"], ["c", "17000"]] [["k", "v", "n"]]
    rfl (by decide) rfl rfl rfl rfl (by decide)⟩

end Musql

namespace Musql

/-! ## The transaction of an ingest that fails -/

theorem verifyHeaderLoop_cases (c1 c2 : List String) (names : List String) (i : Nat) :
    verifyHeaderLoop c1 c2 names i = none ∨
      verifyHeaderLoop c1 c2 names i = some (headerMismatch c1 c2) := by
  induction names generalizing i with
  | nil => left; rfl
  | cons name rest ih =>
    rw [verifyHeaderLoop]
    split
    · right; rfl
    · exact ih (i + 1)

theorem verifyHeader_ne (a b : List String) (h : a ≠ b) :
    verifyHeader a b = some (headerMismatch a b) := by
  have hv : verifyHeader a b ≠ none := fun e => h ((verifyHeader_none_iff _ _).mp e)
  unfold verifyHeader at hv ⊢
  split
  · rfl
  · rename_i hl
    rw [if_neg hl] at hv
    rcases verifyHeaderLoop_cases a b a 0 with h0 | h1
    · exact absurd h0 hv
    · exact h1

theorem insertTreeRows_good (T : String) (H : List String) (committed base : Tables)
    (hbase : base.lookup T = none) (data : List TreeRow) :
    ∀ acc : List (List String),
      insertTreeRows { table := T, arity := H.length } H data
          { tables := committed, pending := some (base ++ [(T, { columns := H, rows := acc })]) } =
        (none, { tables := committed,
                 pending := some (base ++
                   [(T, Table.mk H (acc ++ data.map (fun d => H.map d.get)))]) }) := by
  induction data with
  | nil => intro acc; simp [insertTreeRows]
  | cons d rest ih =>
    intro acc
    rw [insertTreeRows]
    simp only [Store.execInsert, List.length_map, if_true,
      lookup_append_new base T _ hbase, update_append_new base T _ _ hbase]
    rw [ih (acc ++ [H.map d.get])]
    simp

/-- C4, counterexample: `t.csv` followed by `other_t.csv` fails with the
header mismatch of the second file, yet the transaction is committed: the
three rows of `t.csv` are in the table and no transaction is left open. -/
theorem AddCsv_failed_ingest_keeps_rows :
    AddCsv exampleFs emptyStore "mytable_2"
        [{ Path := "t.csv", Container := "" }, { Path := "other_t.csv", Container := "" }] ';' =
      (some (headerMismatch ["Name", "Wert"] ["Key", "Value", "Note"]),
       { tables := [("mytable_2", Table.mk ["Name", "Wert"]
                      [["a", "15000"], ["b", "30000"], ["c", "17000"]])],
         pending := none }) := by
  decide

end Musql

namespace Musql

theorem AddCsv_second_file_mismatch {α : Type} (fs : FileSys α) (db : Store) (T : String)
    (sep : Char) (H R : List String) (p1 p2 : FileInfo) (d1 more : List (List String)) (c : α)
    (hT : db.tables.lookup T = none) (hH : H ≠ []) (hR : repeatedColumn H [] = none)
    (h1 : IsCsvFileOf fs sep H p1 d1)
    (hc2 : p2.Container = "") (hg2 : fs.glob p2.Path = .ok [p2.Path])
    (ho2 : fs.osOpen p2.Path = .ok c) (hr2 : fs.csvRecords c (defaultSep sep) = R :: more)
    (hne : R ≠ H) :
    AddCsv fs db T [p1, p2] sep =
      (some (headerMismatch H R),
       { tables := db.tables ++ [(T, { columns := H, rows := d1 })], pending := none }) := by
  obtain ⟨hc, hg, ⟨c1, ho, hr⟩, hd⟩ := h1
  have hoc : opencontainer fs { Path := p1.Path, Container := "" } = .ok c1 :=
    opencontainer_plain fs p1.Path c1 ho
  have hoc2 : opencontainer fs { Path := p2.Path, Container := "" } = .ok c :=
    opencontainer_plain fs p2.Path c ho2
  have hf1 := addCsvOne_first fs T (defaultSep sep) "" p1.Path db c1 H d1 hT hH hR hoc hr hd
  have hn := length_ne_zero_of_ne_nil hH
  unfold AddCsv addCsvFiles
  simp only [addCsvPaths, globPattern, hc, hc2, bne_self_eq_false, Bool.false_eq_true, if_false,
    hg, hg2, List.length_singleton, Nat.reduceBEq, addCsvFlist, hf1]
  simp only [addCsvOne, beq_iff_eq, hn, if_false, addCsvFileToTable, hoc2, hr2, if_true, csvRead,
    verifyHeader_ne H R (fun e => hne e.symm), runDeferred, Store.commit]

theorem AddFromTreeFile_second_file_mismatch (readTreeFile : TreeReader) (db : Store)
    (T : String) (p1 p2 : FileInfo) (xpathstr : String) (xselects : List Select)
    (kind : String) (H H2 : List String) (data1 data2 : List TreeRow)
    (hT : db.tables.lookup T = none) (hH : H ≠ []) (hR : repeatedColumn H [] = none)
    (h1 : readTreeFile p1 xpathstr xselects kind = .ok (H, data1))
    (h2 : readTreeFile p2 xpathstr xselects kind = .ok (H2, data2)) (hne : H2 ≠ H) :
    AddFromTreeFile readTreeFile db T [p1, p2] xpathstr xselects kind =
      some (some (headerMismatch H H2),
        { tables := db.tables ++ [(T, Table.mk H (data1.map (fun d => H.map d.get)))],
          pending := none }) := by
  have hi := insertTreeRows_good T H (db.tables ++ [(T, { columns := H, rows := [] })])
    db.tables hT data1 []
  simp only [List.nil_append] at hi
  unfold AddFromTreeFile
  simp only [h1, ensureTable_absent db T H hT hH hR, Store.begin, makeInsert, Store.prepareInsert,
    lookup_append_new db.tables T _ hT, if_true, addTreeFiles, addTreeFileToTable,
    (verifyHeader_none_iff H H).mpr rfl, hi, h2, verifyHeader_ne H H2 (fun e => hne e.symm),
    Store.commit]

end Musql

namespace Musql

/-! ## Directive parser: nothing is removed -/

theorem ArgSource_grows (os : Os) (argv : List String) (start : Nat) (basedir : String)
    (tables x : List tabinfo) (j : Nat) (err : Option String)
    (h : ArgSource os argv start basedir tables = .ret j err x) : tables <+: x := by
  unfold ArgSource at h
  split at h
  · cases h; exact List.prefix_rfl
  · split at h
    · cases h
    · cases h; exact List.prefix_rfl
    · cases h; exact List.prefix_append _ _

theorem ArgTemplate_grows (os : Os) (argv : List String) (start : Nat) (basedir : String)
    (templates x : List templinfo) (j : Nat) (err : Option String)
    (h : ArgTemplate os argv start basedir templates = .ret j err x) : templates <+: x := by
  unfold ArgTemplate at h
  split at h
  · cases h; exact List.prefix_rfl
  · split at h
    · cases h; exact List.prefix_rfl
    · simp only at h
      split at h
      · cases h
      · cases h; exact List.prefix_rfl
      · split at h
        · cases h; exact List.prefix_rfl
        · cases h; exact List.prefix_append _ _

theorem ArgSelect_grows (argv : List String) (start : Nat) (basedir : String)
    (templates x : List templinfo) (j : Nat) (err : Option String)
    (h : ArgSelect argv start basedir templates = .ret j err x) : templates <+: x := by
  unfold ArgSelect at h
  split at h
  · cases h; exact List.prefix_rfl
  · split at h
    split at h
    · cases h; exact List.prefix_rfl
    · split at h
      · cases h
      · cases h; exact List.prefix_append _ _

theorem ArgSql_grows (os : Os) (argv : List String) (i : Nat) (basedir : String)
    (p x : List String) (j : Nat) (err : Option String)
    (h : ArgSql os argv i basedir p = .ret j err x) : p <+: x := by
  unfold ArgSql at h
  split at h
  · cases h; exact List.prefix_rfl
  · split at h
    · cases h; exact List.prefix_rfl
    · cases h; exact List.prefix_append _ _

theorem ArgIni_grows (os : Os) (argv : List String) (start : Nat) (basedir : String)
    (parts x : List argpart) (j : Nat) (err : Option String)
    (h : ArgIni os argv start basedir parts = .ret j err x) : parts <+: x := by
  unfold ArgIni at h
  split at h
  · cases h; exact List.prefix_rfl
  · split at h
    · cases h
    · simp only at h
      split at h
      · split at h
        · cases h; exact List.prefix_rfl
        · cases h; exact List.prefix_rfl
      · cases h; exact List.prefix_append _ _

theorem Config.Extends.refl (c : Config) : c.Extends c :=
  ⟨List.prefix_rfl, List.prefix_rfl, List.prefix_rfl, List.prefix_rfl, rfl⟩

theorem Config.Extends.trans {a b c : Config} (h1 : a.Extends b) (h2 : b.Extends c) :
    a.Extends c :=
  ⟨h1.1.trans h2.1, h1.2.1.trans h2.2.1, h1.2.2.1.trans h2.2.2.1,
   h1.2.2.2.1.trans h2.2.2.2.1, h2.2.2.2.2.trans h1.2.2.2.2⟩

theorem Parser.run_extends (os : Os) (p : Parser) (c c1 : Config) (argv : List String)
    (i j : Nat) (basedir : String) (err : Option String)
    (h : p.run os c argv i basedir = .ret j err c1) : c.Extends c1 := by
  cases p <;> simp only [Parser.run] at h
  · cases hx : ArgSource os argv i basedir c.tabinfos with
    | panic => simp [hx] at h
    | ret j1 e1 x =>
      simp only [hx, Outcome.ret.injEq] at h
      rw [← h.2.2]
      exact ⟨ArgSource_grows _ _ _ _ _ _ _ _ hx, List.prefix_rfl, List.prefix_rfl,
        List.prefix_rfl, rfl⟩
  · cases hx : ArgTemplate os argv i basedir c.templates with
    | panic => simp [hx] at h
    | ret j1 e1 x =>
      simp only [hx, Outcome.ret.injEq] at h
      rw [← h.2.2]
      exact ⟨List.prefix_rfl, ArgTemplate_grows _ _ _ _ _ _ _ _ hx, List.prefix_rfl,
        List.prefix_rfl, rfl⟩
  · cases hx : ArgSelect argv i basedir c.templates with
    | panic => simp [hx] at h
    | ret j1 e1 x =>
      simp only [hx, Outcome.ret.injEq] at h
      rw [← h.2.2]
      exact ⟨List.prefix_rfl, ArgSelect_grows _ _ _ _ _ _ _ hx, List.prefix_rfl,
        List.prefix_rfl, rfl⟩
  · cases hx : ArgParam argv i basedir c.params with
    | panic => simp [hx] at h
    | ret j1 e1 x =>
      simp only [hx, Outcome.ret.injEq] at h
      rw [← h.2.2]
      exact Config.Extends.refl c
  · cases hx : ArgSql os argv i basedir c.sqls with
    | panic => simp [hx] at h
    | ret j1 e1 x =>
      simp only [hx, Outcome.ret.injEq] at h
      rw [← h.2.2]
      exact ⟨List.prefix_rfl, List.prefix_rfl, ArgSql_grows _ _ _ _ _ _ _ _ hx,
        List.prefix_rfl, rfl⟩
  · cases hx : ArgAttach os argv i basedir c.dbs with
    | panic => simp [hx] at h
    | ret j1 e1 x =>
      simp only [hx, Outcome.ret.injEq] at h
      rw [← h.2.2]
      exact Config.Extends.refl c
  · cases hx : ArgIni os argv i basedir c.allargs with
    | panic => simp [hx] at h
    | ret j1 e1 x =>
      simp only [hx, Outcome.ret.injEq] at h
      rw [← h.2.2]
      exact ⟨List.prefix_rfl, List.prefix_rfl, List.prefix_rfl,
        ArgIni_grows _ _ _ _ _ _ _ _ hx, rfl⟩
  · cases hx : ArgDB os argv i basedir c.dbname with
    | panic => simp [hx] at h
    | ret j1 e1 x =>
      simp only [hx, Outcome.ret.injEq] at h
      rw [← h.2.2]
      exact Config.Extends.refl c
  · rw [← (Outcome.ret.inj h).2.2]; exact Config.Extends.refl c
  · rw [← (Outcome.ret.inj h).2.2]; exact Config.Extends.refl c

end Musql

namespace Musql

theorem tryParsers_extends (os : Os) (argv : List String) (curr : Nat) (basedir : String)
    (ps : List Parser) :
    ∀ (c c1 : Config) (j : Nat) (err : Option String),
      tryParsers os argv curr basedir ps c = .ret j err c1 → c.Extends c1 := by
  induction ps with
  | nil =>
    intro c c1 j err h
    rw [tryParsers] at h
    rw [← (Outcome.ret.inj h).2.2]
    exact Config.Extends.refl c
  | cons p rest ih =>
    intro c c1 j err h
    rw [tryParsers] at h
    cases hx : p.run os c argv curr basedir with
    | panic => simp [hx] at h
    | ret i e c2 =>
      have h2 := Parser.run_extends os p c c2 argv curr i basedir e hx
      simp only [hx] at h
      split at h
      · rw [← (Outcome.ret.inj h).2.2]; exact h2
      · exact h2.trans (ih c2 c1 j err h)

theorem parseLoop_extends (os : Os) (fuel : Nat) :
    ∀ (c : Config) (pi i : Nat) (c1 : Config),
      (parseLoop os fuel c pi i).config? = some c1 → c.Extends c1 := by
  induction fuel with
  | zero => intro c pi i c1 h; simp [parseLoop, ParseResult.config?] at h
  | succ fuel ih =>
    intro c pi i c1 h
    rw [parseLoop] at h
    cases hp : c.allargs[pi]? with
    | none =>
      simp only [hp, ParseResult.config?, Option.some.injEq] at h
      rw [← h]; exact Config.Extends.refl c
    | some part =>
      simp only [hp] at h
      cases hx : tryParsers os part.argv i part.basedir c.parsers c with
      | panic => simp [hx, ParseResult.config?] at h
      | ret i1 err c2 =>
        have h2 := tryParsers_extends os part.argv i part.basedir c.parsers c c2 i1 err hx
        cases err with
        | some e =>
          simp only [hx, ParseResult.config?, Option.some.injEq] at h
          rw [← h]; exact h2
        | none =>
          simp only [hx] at h
          split at h
          · split at h
            · simp only [ParseResult.config?, Option.some.injEq] at h
              rw [← h]; exact h2
            · exact h2.trans (ih c2 (pi + 1) 0 c1 h)
          · exact h2.trans (ih c2 pi i1 c1 h)

theorem getElem?_of_grows {α : Type} {l1 l2 : List α} (h : l1 <+: l2) (n : Nat) (a : α)
    (ha : l1[n]? = some a) : l2[n]? = some a := by
  obtain ⟨t, rfl⟩ := h
  obtain ⟨hn, _⟩ := List.getElem?_eq_some_iff.mp ha
  rw [List.getElem?_append_left hn]
  exact ha

end Musql

namespace Musql

/-! ## Directive parser: leftover tokens -/

theorem tryParsers_stuck (os : Os) (argv : List String) (i : Nat) (basedir : String)
    (c : Config) (h : NoDirectiveAt argv i) :
    tryParsers os argv i basedir initParsers c = .ret i none c := by
  obtain ⟨tok, ht, hk, hset, hdb⟩ := h
  simp only [List.mem_cons, List.mem_singleton, not_or, List.mem_nil_iff, not_false_eq_true,
    and_true] at hk
  obtain ⟨k1, k2, k3, k4, k5, k6, k7, k8, k9, k10, k11, k12, k13⟩ := hk
  have hparam : ¬ (i + 2 < argv.length ∧ tok = "set") := by
    rintro ⟨hl, he⟩
    have := hset he
    omega
  have hdb2 : ¬ (i + 1 < argv.length ∧ tok = "db") := by
    rintro ⟨hl, he⟩
    have := hdb he
    omega
  simp [initParsers, tryParsers, Parser.run, ArgSource, ArgTemplate, ArgSelect, ArgParam, ArgSql,
    ArgAttach, ArgIni, ArgDB, ArgIgnoreComment, ArgIgnoreEmpty, ht, k1, k2, k3, k4, k5, k6, k7,
    k8, k9, k10, k11, k12, k13, hparam, hdb2]

end Musql

namespace Musql

theorem parseLoop_argsLeft (os : Os) (fuel : Nat) :
    ∀ (c : Config) (pi i n : Nat) (rest : List String) (c1 : Config),
      parseLoop os fuel c pi i = .argsLeft n rest c1 →
      ∃ (part : argpart) (j : Nat) (c0 : Config), part ∈ c1.allargs ∧ j < part.argv.length ∧
        n = part.argv.length - j ∧ rest = part.argv.drop j ∧
        tryParsers os part.argv j part.basedir c0.parsers c0 = .ret j none c1 := by
  induction fuel with
  | zero => intro c pi i n rest c1 h; simp [parseLoop] at h
  | succ fuel ih =>
    intro c pi i n rest c1 h
    rw [parseLoop] at h
    cases hp : c.allargs[pi]? with
    | none => simp [hp] at h
    | some part =>
      simp only [hp] at h
      cases hx : tryParsers os part.argv i part.basedir c.parsers c with
      | panic => simp [hx] at h
      | ret i1 err c2 =>
        cases err with
        | some e => simp [hx] at h
        | none =>
          simp only [hx] at h
          split at h
          · rename_i hi
            split at h
            · rename_i hlt
              simp only [ParseResult.argsLeft.injEq] at h
              obtain ⟨hn, hr, hc⟩ := h
              subst hc
              have hext := tryParsers_extends os part.argv i part.basedir c.parsers c c2 i1 none hx
              have hmem : part ∈ c2.allargs :=
                List.getElem?_mem (getElem?_of_grows hext.2.2.2.1 pi part hp)
              have hi1 : i = i1 := by simpa using hi
              refine ⟨part, i1, c, hmem, hlt, hn.symm, hr.symm, ?_⟩
              rw [← hi1] at hx ⊢; exact hx
            · exact ih c2 (pi + 1) 0 n rest c1 h
          · exact ih c2 pi i1 n rest c1 h

theorem parseLoop_stuck (os : Os) (fuel : Nat) (c c1 : Config) (pi i : Nat) (part : argpart)
    (hp : c.allargs[pi]? = some part) (hi : i < part.argv.length)
    (hs : tryParsers os part.argv i part.basedir c.parsers c = .ret i none c1) :
    parseLoop os (fuel + 1) c pi i =
      .argsLeft (part.argv.length - i) (part.argv.drop i) c1 := by
  rw [parseLoop]
  simp [hp, hs, hi]

theorem partLoop_done (os : Os) (part : argpart) (fuel : Nat) :
    ∀ (c : Config) (i j : Nat) (c2 : Config), partLoop os part fuel c i = .done j c2 →
      part.argv.length ≤ j ∧
        ∃ c0 : Config, tryParsers os part.argv j part.basedir c0.parsers c0 = .ret j none c2 := by
  induction fuel with
  | zero => intro c i j c2 h; simp [partLoop] at h
  | succ fuel ih =>
    intro c i j c2 h
    rw [partLoop] at h
    cases hx : tryParsers os part.argv i part.basedir c.parsers c with
    | panic => simp [hx] at h
    | ret i1 err c1 =>
      cases err with
      | some e => simp [hx] at h
      | none =>
        simp only [hx] at h
        split at h
        · rename_i hi
          split at h
          · cases h
          · rename_i hlt
            simp only [PartResult.done.injEq] at h
            obtain ⟨hj, hc⟩ := h
            have hi1 : i = i1 := by simpa using hi
            subst hj; subst hc
            refine ⟨by omega, c, ?_⟩
            rw [← hi1] at hx ⊢; exact hx
        · exact ih c1 i1 j c2 h

theorem parseLoop_ok_part (os : Os) (fuel : Nat) :
    ∀ (c : Config) (pi i : Nat) (c1 : Config) (part : argpart),
      parseLoop os fuel c pi i = .ok c1 → c.allargs[pi]? = some part →
      ∃ (n m j : Nat) (c0 c2 : Config), partLoop os part n c i = .done j c2 ∧
        part.argv.length ≤ j ∧
        tryParsers os part.argv j part.basedir c0.parsers c0 = .ret j none c2 ∧
        parseLoop os m c2 (pi + 1) 0 = .ok c1 := by
  induction fuel with
  | zero => intro c pi i c1 part h; simp [parseLoop] at h
  | succ fuel ih =>
    intro c pi i c1 part h hp
    rw [parseLoop] at h
    simp only [hp] at h
    cases hx : tryParsers os part.argv i part.basedir c.parsers c with
    | panic => simp [hx] at h
    | ret i1 err c2 =>
      cases err with
      | some e => simp [hx] at h
      | none =>
        simp only [hx] at h
        split at h
        · rename_i hi
          split at h
          · cases h
          · rename_i hlt
            have hi1 : i = i1 := by simpa using hi
            refine ⟨1, fuel, i1, c, c2, ?_, by omega, ?_, h⟩
            · rw [partLoop, hx]
              simp [hi1, hlt]
            · rw [← hi1] at hx ⊢; exact hx
        · rename_i hi
          have hext := tryParsers_extends os part.argv i part.basedir c.parsers c c2 i1 none hx
          have hp2 := getElem?_of_grows hext.2.2.2.1 pi part hp
          obtain ⟨n, m, j, c0, c3, hd, hl, ht, hm⟩ := ih c2 pi i1 c1 part h hp2
          refine ⟨n + 1, m, j, c0, c3, ?_, hl, ht, hm⟩
          rw [partLoop, hx]
          simp only [hi, Bool.false_eq_true, if_false]
          exact hd

end Musql

namespace Musql

theorem Parse_no_directive (os : Os) (fuel : Nat) (argv : List String)
    (h : NoDirectiveAt argv 0) :
    Config.Parse os (fuel + 1) Config.zero argv =
      .argsLeft argv.length argv
        { Config.zero.Init with allargs := [{ basedir := ".", argv := argv }] } := by
  have hlen : 0 < argv.length := by
    obtain ⟨tok, ht, _⟩ := h
    exact (List.getElem?_eq_some_iff.mp ht).1
  have hs := tryParsers_stuck os argv 0 "."
    { Config.zero.Init with allargs := [{ basedir := ".", argv := argv }] } h
  have := parseLoop_stuck os fuel
    { Config.zero.Init with allargs := [{ basedir := ".", argv := argv }] }
    { Config.zero.Init with allargs := [{ basedir := ".", argv := argv }] } 0 0
    { basedir := ".", argv := argv } rfl hlen hs
  simpa [Config.Parse, Config.zero] using this

/-- C5: the `args left` error of `Config.Parse`. (1) When the loop returns
`n args left: rest`, it does so at a cursor `j` of one of the parts with
tokens remaining (`j < len`), at which the sub-parsers, tried in order, left
the cursor where it was without an error, and `n = len - j`, `rest` the tokens
from `j` on. (2) Conversely, at such a cursor the loop returns exactly that
error. (3) The inner loop over a part ends with `break` only at a cursor `j`
at or past the end of the part's tokens at which the sub-parsers left the
cursor where it was; and when the whole loop returns nil, the inner loop over
the part it was in ended so, at such a cursor, and the nil is that of the loop
continued with the next part. (4) At a cursor whose token starts no
directive (or is `db` or `set` with too few tokens after it) the loop returns
the error; (5) so a fresh `Config` rejects every token list that starts
like that. -/
theorem Parse_args_left_exactly_when_stuck :
    (∀ (os : Os) (fuel : Nat) (c : Config) (pi i n : Nat) (rest : List String) (c1 : Config),
        parseLoop os fuel c pi i = .argsLeft n rest c1 →
        ∃ (part : argpart) (j : Nat) (c0 : Config), part ∈ c1.allargs ∧ j < part.argv.length ∧
          n = part.argv.length - j ∧ rest = part.argv.drop j ∧
          tryParsers os part.argv j part.basedir c0.parsers c0 = .ret j none c1) ∧
    (∀ (os : Os) (fuel : Nat) (c c1 : Config) (pi i : Nat) (part : argpart),
        c.allargs[pi]? = some part → i < part.argv.length →
        tryParsers os part.argv i part.basedir c.parsers c = .ret i none c1 →
        parseLoop os (fuel + 1) c pi i =
          .argsLeft (part.argv.length - i) (part.argv.drop i) c1) ∧
    ((∀ (os : Os) (part : argpart) (fuel : Nat) (c : Config) (i j : Nat) (c2 : Config),
        partLoop os part fuel c i = .done j c2 →
        part.argv.length ≤ j ∧
          ∃ c0 : Config, tryParsers os part.argv j part.basedir c0.parsers c0 = .ret j none c2) ∧
      ∀ (os : Os) (fuel : Nat) (c : Config) (pi i : Nat) (c1 : Config) (part : argpart),
        parseLoop os fuel c pi i = .ok c1 → c.allargs[pi]? = some part →
        ∃ (n m j : Nat) (c0 c2 : Config), partLoop os part n c i = .done j c2 ∧
          part.argv.length ≤ j ∧
          tryParsers os part.argv j part.basedir c0.parsers c0 = .ret j none c2 ∧
          parseLoop os m c2 (pi + 1) 0 = .ok c1) ∧
    (∀ (os : Os) (fuel : Nat) (c : Config) (pi i : Nat) (part : argpart),
        c.parsers = initParsers → c.allargs[pi]? = some part → NoDirectiveAt part.argv i →
        parseLoop os (fuel + 1) c pi i =
          .argsLeft (part.argv.length - i) (part.argv.drop i) c) ∧
    (∀ (os : Os) (fuel : Nat) (argv : List String), NoDirectiveAt argv 0 →
        Config.Parse os (fuel + 1) Config.zero argv =
          .argsLeft argv.length argv
            { Config.zero.Init with allargs := [{ basedir := ".", argv := argv }] }) := by
  refine ⟨fun os fuel => parseLoop_argsLeft os fuel, ?_,
    ⟨fun os part fuel => partLoop_done os part fuel, fun os fuel => parseLoop_ok_part os fuel⟩,
    ?_, Parse_no_directive⟩
  · intro os fuel c c1 pi i part hp hi hs
    exact parseLoop_stuck os fuel c c1 pi i part hp hi hs
  · intro os fuel c pi i part hps hp hn
    have hi : i < part.argv.length := by
      obtain ⟨tok, ht, _⟩ := hn
      exact (List.getElem?_eq_some_iff.mp ht).1
    have hs := tryParsers_stuck os part.argv i part.basedir c hn
    rw [← hps] at hs
    exact parseLoop_stuck os fuel c c pi i part hp hi hs

/-- Witness of `Parse_args_left_exactly_when_stuck`: the token lists
`frobnicate`, `db` and `set k` are rejected with all their tokens left. -/
theorem Parse_args_left_exactly_when_stuck_witness :
    Config.Parse exampleOs (0 + 1) Config.zero ["frobnicate"] =
        .argsLeft ["frobnicate"].length ["frobnicate"]
          { Config.zero.Init with allargs := [{ basedir := ".", argv := ["frobnicate"] }] } ∧
      Config.Parse exampleOs (0 + 1) Config.zero ["db"] =
        .argsLeft ["db"].length ["db"]
          { Config.zero.Init with allargs := [{ basedir := ".", argv := ["db"] }] } ∧
      Config.Parse exampleOs (0 + 1) Config.zero ["set", "k"] =
        .argsLeft ["set", "k"].length ["set", "k"]
          { Config.zero.Init with allargs := [{ basedir := ".", argv := ["set", "k"] }] } :=
  ⟨Parse_args_left_exactly_when_stuck.2.2.2.2 exampleOs 0 ["frobnicate"]
      ⟨"frobnicate", rfl, by decide, by decide, by decide⟩,
   Parse_args_left_exactly_when_stuck.2.2.2.2 exampleOs 0 ["db"]
      ⟨"db", rfl, by decide, by decide, by decide⟩,
   Parse_args_left_exactly_when_stuck.2.2.2.2 exampleOs 0 ["set", "k"]
      ⟨"set", rfl, by decide, by decide, by decide⟩⟩

end Musql

namespace Musql

/-! ## Directive parser: the plan after a failed parse -/

/-- C6, counterexample: the tokens `insert a.csv into t bogus` make `Parse`
return the error `1 args left: [bogus]`, and the `Config` then holds the
TableSpec recognized before the failure. -/
theorem Parse_failure_keeps_tabinfo :
    (Config.Parse exampleOs 3 Config.zero ["insert", "a.csv", "into", "t", "bogus"]).error? =
        some (some "1 args left: [bogus]") ∧
      (Config.Parse exampleOs 3 Config.zero
          ["insert", "a.csv", "into", "t", "bogus"]).config?.map Config.tabinfos =
        some [{ Tablename := "t", Files := [{ Path := "a.csv", Container := "" }],
                FileType := "", Sep := Char.ofNat 0, Header := [], Content := false,
                XPath := "", XSelect := [] }] := by
  decide

/-- C6, as the code behaves: `Parse` works on the `Config` in place and never
takes an entry back. Whatever state the parse loop is in, the `Config` it
ends with (on an error return as on a nil return) extends that state: the
TableSpec, TemplateSpec, SqlFile and parse-part lists of the state are
prefixes of the final ones. So the entries recognized before a failure are
still in the plan after it. -/
theorem Parse_failure_discards_nothing (os : Os) (fuel : Nat) (c : Config) (pi i : Nat)
    (c1 : Config) (h : (parseLoop os fuel c pi i).config? = some c1) :
    c.tabinfos <+: c1.tabinfos ∧ c.templates <+: c1.templates ∧ c.sqls <+: c1.sqls ∧
      c.allargs <+: c1.allargs := by
  have := parseLoop_extends os fuel c pi i c1 h
  exact ⟨this.1, this.2.1, this.2.2.1, this.2.2.2.1⟩

end Musql

namespace Musql

/-- Witness of `Parse_failure_discards_nothing`: the loop on
`insert a.csv into t bogus`, started after the `insert` directive has been
recognized, fails and keeps its TableSpec. -/
theorem Parse_failure_discards_nothing_witness :
    [exampleTabinfo] <+: [exampleTabinfo] ∧
      ([] : List templinfo) <+: [] ∧ ([] : List String) <+: [] ∧
      [({ basedir := ".", argv := ["insert", "a.csv", "into", "t", "bogus"] } : argpart)] <+:
        [{ basedir := ".", argv := ["insert", "a.csv", "into", "t", "bogus"] }] :=
  Parse_failure_discards_nothing exampleOs 2
    { startConfig ["insert", "a.csv", "into", "t", "bogus"] with tabinfos := [exampleTabinfo] }
    0 4
    { startConfig ["insert", "a.csv", "into", "t", "bogus"] with tabinfos := [exampleTabinfo] }
    (by decide)

end Musql

namespace Musql

/-! ## `ArgSelect` -/

theorem selectLoop_until (xs rest : List String) (h : "expanding" ∉ xs) :
    ∀ (i : Nat) (acc : List String),
      selectLoop (xs ++ "expanding" :: rest) i acc = (i + xs.length, acc ++ xs) := by
  induction xs with
  | nil => intro i acc; simp [selectLoop]
  | cons a more ih =>
    intro i acc
    have ha : a ≠ "expanding" := fun e => h (by simp [e])
    have hm : "expanding" ∉ more := fun e => h (by simp [e])
    rw [List.cons_append, selectLoop]
    simp only [beq_iff_eq, ha, if_false]
    rw [ih hm (i + 1) (acc ++ [a])]
    simp only [List.length_cons, List.append_assoc, List.singleton_append, Prod.mk.injEq,
      and_true]
    omega

theorem ArgSelect_directive (pre ts post : List String) (K s basedir : String)
    (templates : List templinfo) (hK : K = "select" ∨ K = "-select")
    (hts : "expanding" ∉ ts) :
    ArgSelect (pre ++ K :: ts ++ "expanding" :: s :: post) pre.length basedir templates =
      .ret (pre.length + ts.length + 3) none
        (templates ++ [{ TemplateName := "command line",
                         TemplateString := selectTemplate (stringsJoin (K :: ts) " ") s,
                         Outname := "stdout" }]) := by
  have hKe : K ≠ "expanding" := by rcases hK with h | h <;> rw [h] <;> decide
  have hmem : "expanding" ∉ K :: ts := by
    intro h
    rcases List.mem_cons.mp h with h | h
    · exact hKe h.symm
    · exact hts h
  have h0 : (pre ++ K :: ts ++ "expanding" :: s :: post)[pre.length]? = some K := by
    rw [List.append_assoc, List.getElem?_append_right (Nat.le_refl _)]
    simp
  have hd : (pre ++ K :: ts ++ "expanding" :: s :: post).drop pre.length =
      (K :: ts) ++ "expanding" :: s :: post := by
    simp [List.append_assoc]
  have hs : (pre ++ K :: ts ++ "expanding" :: s :: post)[pre.length + (ts.length + 1) + 1]? =
      some s := by
    have : pre ++ K :: ts ++ "expanding" :: s :: post =
        (pre ++ (K :: ts) ++ ["expanding"]) ++ s :: post := by simp [List.append_assoc]
    rw [this]
    have hl : (pre ++ (K :: ts) ++ ["expanding"]).length = pre.length + (ts.length + 1) + 1 := by
      simp only [List.length_append, List.length_cons, List.length_nil]
    rw [← hl, List.getElem?_append_right (Nat.le_refl _)]
    simp
  have hlen : ¬ (pre.length + (ts.length + 1) ≥
      (pre ++ K :: ts ++ "expanding" :: s :: post).length) := by
    simp only [List.length_append, List.length_cons]
    omega
  have hguard : ¬ (pre.length ≥ (pre ++ K :: ts ++ "expanding" :: s :: post).length ∨
      ((pre ++ K :: ts ++ "expanding" :: s :: post)[pre.length]? ≠ some "select" ∧
        (pre ++ K :: ts ++ "expanding" :: s :: post)[pre.length]? ≠ some "-select")) := by
    rw [h0]
    simp only [List.length_append, List.length_cons]
    rcases hK with h | h <;> simp [h] <;> omega
  unfold ArgSelect
  rw [if_neg hguard, hd, selectLoop_until (K :: ts) (s :: post) hmem pre.length []]
  simp only [if_neg hlen, hs, List.nil_append, List.length_cons]
  congr 1

end Musql

namespace Musql

/-- C7, as the code behaves: for a directive `K t1 … tn expanding s` at the
cursor, `K` being `select` or `-select` and no `ti` being `expanding`,
`ArgSelect` appends exactly one TemplateSpec with output `stdout` and returns
the cursor just past `s`; its loop starts at the keyword, so the query between
the `sql` tags is the keyword as it was written followed by the `ti`, joined
by single spaces: `select t1 … tn` for `select`, but `-select t1 … tn` for
`-select`. -/
theorem ArgSelect_query_starts_with_keyword_as_written (pre ts post : List String)
    (K s basedir : String) (templates : List templinfo) (hK : K = "select" ∨ K = "-select")
    (hts : "expanding" ∉ ts) :
    ArgSelect (pre ++ K :: ts ++ "expanding" :: s :: post) pre.length basedir templates =
      .ret (pre.length + ts.length + 3) none
        (templates ++ [{ TemplateName := "command line",
                         TemplateString := selectTemplate (stringsJoin (K :: ts) " ") s,
                         Outname := "stdout" }]) :=
  ArgSelect_directive pre ts post K s basedir templates hK hts

/-- Witness of `ArgSelect_query_starts_with_keyword_as_written`, at the
failing input `-select 1 expanding x`: the template text is
`{{#sql}}-select 1{{/sql}}x`. -/
theorem ArgSelect_query_starts_with_keyword_as_written_witness :
    ArgSelect ([] ++ "-select" :: ["1"] ++ "expanding" :: "x" :: []) ([] : List String).length
        "." [] =
      .ret (([] : List String).length + ["1"].length + 3) none
        ([] ++ [{ TemplateName := "command line",
                  TemplateString := selectTemplate (stringsJoin ("-select" :: ["1"]) " ") "x",
                  Outname := "stdout" }]) ∧
      selectTemplate (stringsJoin ("-select" :: ["1"]) " ") "x" =
        "\x7b\x7b#sql\x7d\x7d-select 1\x7b\x7b/sql\x7d\x7dx" :=
  ⟨ArgSelect_query_starts_with_keyword_as_written [] ["1"] [] "-select" "x" "." []
      (Or.inr rfl) (by decide), by decide⟩

end Musql

namespace Musql

/-! ## The shape dispatch of the `sql` lambda and letter case -/

theorem matchK_str_none (w : List Char) (r : Regex) :
    ∀ (s : List Char) (caps : Caps) (k : Cont), ¬ w <+: s →
      (Regex.str w r).matchK s caps k = none := by
  induction w with
  | nil => intro s caps k h; exact absurd (List.nil_prefix) h
  | cons c w ih =>
    intro s caps k h
    show (Regex.seq (Regex.lit c) (Regex.str w r)).matchK s caps k = none
    simp only [Regex.matchK]
    cases s with
    | nil => rfl
    | cons x rest =>
      simp only
      by_cases hx : x = c
      · subst hx
        simp only [beq_self_eq_true, if_true]
        apply ih
        intro hp
        exact h ((List.cons_prefix_cons).mpr ⟨rfl, hp⟩)
      · simp [hx]

theorem find_str_none (w : List Char) (r : Regex) :
    ∀ s : List Char, ¬ w <:+: s → (Regex.str w r).find s = none := by
  intro s
  induction s with
  | nil =>
    intro h
    simp only [Regex.find, Regex.matchAt]
    exact matchK_str_none w r [] [] _ (fun hp => h hp.isInfix)
  | cons c rest ih =>
    intro h
    simp only [Regex.find, Regex.matchAt]
    rw [matchK_str_none w r (c :: rest) [] _ (fun hp => h hp.isInfix)]
    simp only [Option.orElse]
    apply ih
    intro hi
    exact h (hi.trans (List.suffix_cons c rest).isInfix)

/-- C8, counterexample: the statement with lower-case keywords is a
`create var` that binds the rows of `select 1` under `n`; the same statement
with its keywords in upper case matches no pattern and is run as it stands, as
a plain query bound under `result`. -/
theorem sqlShape_depends_on_case :
    sqlShape "create var n as select 1" = .createVar "n" "select 1" ∧
      sqlShape "CREATE VAR n AS select 1" = .query := by
  decide

/-- C8, as the code behaves: the shape dispatch is case-sensitive. The
patterns spell their keywords in lower case, and a statement that contains
none of `create`, `insert into` and `with` in lower case (so every statement
whose shape keywords are written in upper case) is run as a plain query with
the result variable `result`. -/
theorem sqlShape_uppercase_is_plain_query (stmt : String)
    (h1 : ¬ "create".data <:+: stmt.data) (h2 : ¬ "insert into".data <:+: stmt.data)
    (h3 : ¬ "with".data <:+: stmt.data) : sqlShape stmt = .query := by
  have e1 : FindStringSubmatch reCreate stmt = none := find_str_none _ _ _ h1
  have e2 : FindStringSubmatch reInsert stmt = none := find_str_none _ _ _ h2
  have e3 : FindStringSubmatch reVar stmt = none := find_str_none _ _ _ h1
  have e4 : FindStringSubmatch reFragment stmt = none := find_str_none _ _ _ h3
  simp only [sqlShape, e1, e2, e3, e4]

/-- Witness of `sqlShape_uppercase_is_plain_query`: `CREATE VAR n AS select 1`. -/
theorem sqlShape_uppercase_is_plain_query_witness :
    sqlShape "CREATE VAR n AS select 1" = .query :=
  sqlShape_uppercase_is_plain_query "CREATE VAR n AS select 1" (by decide) (by decide)
    (by decide)

end Musql

namespace Musql

/-! ## The fragment pattern -/

theorem matchK_str (w : List Char) (r : Regex) :
    ∀ (s : List Char) (caps : Caps) (k : Cont),
      (Regex.str w r).matchK (w ++ s) caps k = r.matchK s caps k := by
  induction w with
  | nil => intro s caps k; rfl
  | cons c w ih =>
    intro s caps k
    show (Regex.seq (Regex.lit c) (Regex.str w r)).matchK (c :: (w ++ s)) caps k = _
    simp only [Regex.matchK, beq_self_eq_true, if_true]
    exact ih s caps k

theorem starK_class (a : Regex) (p : Char → Bool)
    (hstep : ∀ (x : Char) (rest : List Char) (caps : Caps) (k : Cont),
      a.matchK (x :: rest) caps k = if p x = true then k rest caps else none)
    (hnil : ∀ (caps : Caps) (k : Cont), a.matchK [] caps k = none)
    (T : List Char) (caps : Caps) (k : Cont) (r : Caps)
    (hT : ∀ (y : Char) (T1 : List Char), T = y :: T1 → p y = false) (hk : k T caps = some r)
    (W : List Char) :
    (∀ x ∈ W, p x = true) → ∀ fuel : Nat, W.length ≤ fuel →
      starK (fun s1 caps1 k1 => a.matchK s1 caps1 k1) fuel (W ++ T) caps k = some r := by
  induction W with
  | nil =>
    intro _ fuel _
    cases fuel with
    | zero => simpa [starK] using hk
    | succ n =>
      simp only [List.nil_append, starK]
      cases T with
      | nil => simp [hnil, Option.orElse, hk]
      | cons y T1 => simp [hstep, hT y T1 rfl, Option.orElse, hk]
  | cons w W ih =>
    intro hW fuel hf
    cases fuel with
    | zero => simp at hf
    | succ n =>
      have hw : p w = true := hW w (by simp)
      have hW2 : ∀ x ∈ W, p x = true := fun x hx => hW x (by simp [hx])
      have hlen : W.length ≤ n := by simpa using hf
      simp only [List.cons_append, starK, hstep, hw, if_true, List.length_cons,
        Nat.lt_succ_self, ih hW2 n hlen, Option.orElse]

end Musql

namespace Musql

theorem fragTail_nl (caps : Caps) :
    fragTail.matchK ['\n'] caps (fun _ c => some c) = some caps := by
  simp [fragTail, Regex.matchK, starK]

theorem fragTail_nil (caps : Caps) :
    fragTail.matchK [] caps (fun _ c => some c) = none := by
  simp [fragTail, Regex.matchK]

theorem any_matchK_cons (x : Char) (rest : List Char) (caps : Caps) (k : Cont) :
    Regex.any.matchK (x :: rest) caps k = k rest caps := rfl

theorem any_matchK_nil (caps : Caps) (k : Cont) : Regex.any.matchK [] caps k = none := rfl

theorem set_matchK_cons (cs : List Char) (x : Char) (rest : List Char) (caps : Caps)
    (k : Cont) :
    (Regex.set cs).matchK (x :: rest) caps k =
      if cs.contains x = true then k rest caps else none := rfl

theorem set_matchK_nil (cs : List Char) (caps : Caps) (k : Cont) :
    (Regex.set cs).matchK [] caps k = none := rfl

theorem starK_any_to_last (kk : Cont) (c r : Caps) (h0 : kk [] c = none)
    (h1 : kk ['\n'] c = some r) (X : List Char) :
    ∀ fuel : Nat, X.length + 1 ≤ fuel →
      starK (fun s1 caps1 k1 => Regex.any.matchK s1 caps1 k1) fuel (X ++ ['\n']) c kk =
        some r := by
  induction X with
  | nil =>
    intro fuel hf
    cases fuel with
    | zero => simp at hf
    | succ n =>
      cases n with
      | zero => simp [starK, any_matchK_cons, h0, h1, Option.orElse]
      | succ m => simp [starK, any_matchK_cons, any_matchK_nil, h0, h1, Option.orElse]
  | cons x X ih =>
    intro fuel hf
    cases fuel with
    | zero => simp at hf
    | succ n =>
      have hlen : X.length + 1 ≤ n := by simpa using hf
      simp only [List.cons_append, starK, any_matchK_cons, List.length_cons, Nat.lt_succ_self,
        if_true, ih n hlen, Option.orElse]

theorem fragBody_match (X : List Char) (c : Caps) :
    fragBody.matchK (X ++ ['\n']) c (fun _ c1 => some c1) = some ((2, X) :: c) := by
  show starK (fun s1 caps1 k1 => Regex.any.matchK s1 caps1 k1) (X ++ ['\n']).length
      (X ++ ['\n']) c
      (fun s1 c1 => fragTail.matchK s1
        ((2, (X ++ ['\n']).take ((X ++ ['\n']).length - s1.length)) :: c1)
        (fun _ c2 => some c2)) = some ((2, X) :: c)
  apply starK_any_to_last
  · exact fragTail_nil _
  · rw [fragTail_nl]
    simp
  · simp

theorem fragBody_nil (c : Caps) :
    fragBody.matchK [] c (fun _ c1 => some c1) = none := by
  show starK (fun s1 caps1 k1 => Regex.any.matchK s1 caps1 k1) 0 [] c
      (fun s1 c1 => fragTail.matchK s1 ((2, ([] : List Char).take (0 - s1.length)) :: c1)
        (fun _ c2 => some c2)) = none
  simp only [starK]
  exact fragTail_nil _

theorem starK_blank (X : List Char) :
    ∀ (c : Caps) (fuel : Nat), X.length + 1 ≤ fuel →
      starK (fun s1 caps1 k1 => (Regex.set [' ', '\r', '\n']).matchK s1 caps1 k1) fuel
          (X ++ ['\n']) c (fun s1 c1 => fragBody.matchK s1 c1 (fun _ c2 => some c2)) =
        some ((2, X.dropWhile isBlank) :: c) := by
  induction X with
  | nil =>
    intro c fuel hf
    have hb := fragBody_match [] c
    simp only [List.nil_append] at hb
    have hnl : [' ', '\r', '\n'].contains '\n' = true := by decide
    cases fuel with
    | zero => simp at hf
    | succ n =>
      cases n with
      | zero =>
        simp [starK, set_matchK_cons, hnl, fragBody_nil, hb, Option.orElse]
      | succ m =>
        simp [starK, set_matchK_cons, set_matchK_nil, hnl, fragBody_nil, hb, Option.orElse]
  | cons x X ih =>
    intro c fuel hf
    cases fuel with
    | zero => simp at hf
    | succ n =>
      have hlen : X.length + 1 ≤ n := by simpa using hf
      by_cases hx : isBlank x = true
      · have hx2 : [' ', '\r', '\n'].contains x = true := hx
        simp only [List.cons_append, starK, set_matchK_cons, hx2, if_true, List.length_cons,
          Nat.lt_succ_self, ih c n hlen, Option.orElse, List.dropWhile_cons, hx]
      · have hx2 : [' ', '\r', '\n'].contains x = false := by
          simpa [isBlank] using hx
        have hb := fragBody_match (x :: X) c
        simp only [List.cons_append] at hb
        simp only [List.cons_append, starK, set_matchK_cons, hx2, Bool.false_eq_true, if_false,
          Option.orElse, hb, List.dropWhile_cons, hx]

theorem fragBlank_match (X : List Char) (c : Caps) :
    fragBlank.matchK (X ++ ['\n']) c (fun _ c1 => some c1) =
      some ((2, X.dropWhile isBlank) :: c) :=
  starK_blank X c _ (by simp)

end Musql

namespace Musql

theorem lit_matchK_cons (ch x : Char) (rest : List Char) (caps : Caps) (k : Cont) :
    (Regex.lit ch).matchK (x :: rest) caps k =
      if (fun y : Char => y == ch) x = true then k rest caps else none := rfl

theorem lit_matchK_nil (ch : Char) (caps : Caps) (k : Cont) :
    (Regex.lit ch).matchK [] caps k = none := rfl

theorem notSet_matchK_cons (cs : List Char) (x : Char) (rest : List Char) (caps : Caps)
    (k : Cont) :
    (Regex.notSet cs).matchK (x :: rest) caps k =
      if (fun y : Char => !cs.contains y) x = true then k rest caps else none := by
  show (if cs.contains x = true then none else k rest caps) =
    if (!cs.contains x) = true then k rest caps else none
  cases cs.contains x <;> rfl

theorem notSet_matchK_nil (cs : List Char) (caps : Caps) (k : Cont) :
    (Regex.notSet cs).matchK [] caps k = none := rfl

/-- The text after the name in a fragment statement: ` as `, the body, and the
final newline. -/
theorem fragAs_match (B : List Char) (c : Caps) :
    (Regex.str " as".data fragBlank).matchK (" as".data ++ ((' ' :: B) ++ ['\n'])) c
        (fun _ c1 => some c1) =
      some ((2, B.dropWhile isBlank) :: c) := by
  rw [matchK_str, fragBlank_match]
  have : isBlank ' ' = true := by decide
  simp [List.dropWhile_cons, this]

theorem fragName_match (N B : List Char) (hsp : ' ' ∉ N) :
    (Regex.seq (.group 1 (.star (.notSet [' ']))) (Regex.str " as".data fragBlank)).matchK
        (N ++ (" as".data ++ ((' ' :: B) ++ ['\n']))) [] (fun _ c1 => some c1) =
      some [(2, B.dropWhile isBlank), (1, N)] := by
  show starK (fun s1 caps1 k1 => (Regex.notSet [' ']).matchK s1 caps1 k1)
      (N ++ (" as".data ++ ((' ' :: B) ++ ['\n']))).length
      (N ++ (" as".data ++ ((' ' :: B) ++ ['\n']))) []
      (fun s1 c1 => (Regex.str " as".data fragBlank).matchK s1
        ((1, (N ++ (" as".data ++ ((' ' :: B) ++ ['\n']))).take
          ((N ++ (" as".data ++ ((' ' :: B) ++ ['\n']))).length - s1.length)) :: c1)
        (fun _ c2 => some c2)) = _
  apply starK_class (Regex.notSet [' ']) (fun y : Char => !([' '].contains y))
    (notSet_matchK_cons [' ']) (notSet_matchK_nil [' '])
  · intro y T1 hT
    have : y = ' ' := by
      have h0 : (" as".data ++ ((' ' :: B) ++ ['\n'])).head? = some y := by rw [hT]; rfl
      have h1 : (" as".data ++ ((' ' :: B) ++ ['\n'])).head? = some ' ' := rfl
      rw [h1] at h0
      exact (Option.some.inj h0).symm
    rw [this]; decide
  · simp only
    rw [fragAs_match]
    simp
  · intro x hx
    have : x ≠ ' ' := fun e => hsp (e ▸ hx)
    simp [this]
  · simp

end Musql

namespace Musql

theorem reFragment_matchAt (N B : List Char) (hN : N ≠ []) (hsp : ' ' ∉ N) :
    reFragment.matchAt
        ("with".data ++ ([' '] ++ ("fragment".data ++ ([' '] ++
          (N ++ (" as".data ++ ((' ' :: B) ++ ['\n']))))))) =
      some [(2, B.dropWhile isBlank), (1, N)] := by
  have hspace : ∀ x ∈ [' '], (fun y : Char => y == ' ') x = true := by
    intro x hx
    simp only [List.mem_singleton] at hx
    simp [hx]
  have h3 : (Regex.seq (.star (.lit ' '))
      (Regex.seq (.group 1 (.star (.notSet [' ']))) (Regex.str " as".data fragBlank))).matchK
      ([' '] ++ (N ++ (" as".data ++ ((' ' :: B) ++ ['\n'])))) [] (fun _ c1 => some c1) =
      some [(2, B.dropWhile isBlank), (1, N)] := by
    show starK (fun s1 caps1 k1 => (Regex.lit ' ').matchK s1 caps1 k1)
      ([' '] ++ (N ++ (" as".data ++ ((' ' :: B) ++ ['\n'])))).length
      ([' '] ++ (N ++ (" as".data ++ ((' ' :: B) ++ ['\n'])))) []
      (fun s1 c1 => (Regex.seq (.group 1 (.star (.notSet [' '])))
        (Regex.str " as".data fragBlank)).matchK s1 c1 (fun _ c2 => some c2)) = _
    refine starK_class (Regex.lit ' ') (fun y : Char => y == ' ') (lit_matchK_cons ' ')
      (lit_matchK_nil ' ') _ [] _ _ ?_ (fragName_match N B hsp) [' '] hspace _ (by simp)
    intro y T1 hT
    cases N with
    | nil => exact absurd rfl hN
    | cons n N1 =>
      simp only [List.cons_append, List.cons.injEq] at hT
      have : y ≠ ' ' := fun e => hsp (by rw [← e, ← hT.1]; simp)
      simp [this]
  show (Regex.str "with".data _).matchK _ [] (fun _ c1 => some c1) = _
  rw [matchK_str]
  show starK (fun s1 caps1 k1 => (Regex.lit ' ').matchK s1 caps1 k1)
    ([' '] ++ ("fragment".data ++ ([' '] ++ (N ++ (" as".data ++ ((' ' :: B) ++ ['\n'])))))).length
    ([' '] ++ ("fragment".data ++ ([' '] ++ (N ++ (" as".data ++ ((' ' :: B) ++ ['\n'])))))) []
    (fun s1 c1 => (Regex.str "fragment".data (Regex.seq (.star (.lit ' '))
      (Regex.seq (.group 1 (.star (.notSet [' ']))) (Regex.str " as".data fragBlank)))).matchK
      s1 c1 (fun _ c2 => some c2)) = _
  refine starK_class (Regex.lit ' ') (fun y : Char => y == ' ') (lit_matchK_cons ' ')
    (lit_matchK_nil ' ') _ [] _ _ ?_ ?_ [' '] hspace _ (by simp)
  · intro y T1 hT
    have h0 : ("fragment".data ++ ([' '] ++ (N ++ (" as".data ++ ((' ' :: B) ++ ['\n']))))).head? =
        some y := by rw [hT]; rfl
    have h1 : ("fragment".data ++ ([' '] ++ (N ++ (" as".data ++ ((' ' :: B) ++ ['\n']))))).head? =
        some 'f' := rfl
    rw [h1] at h0
    rw [← Option.some.inj h0]; decide
  · simp only
    rw [matchK_str]
    exact h3

theorem find_of_matchAt (r : Regex) (s : List Char) (v : Caps) (h : r.matchAt s = some v) :
    r.find s = some v := by
  cases s with
  | nil => simpa [Regex.find] using h
  | cons c rest => simp [Regex.find, h, Option.orElse]

theorem lookup_mapSet_self {β : Type} (m : List (String × β)) (k : String) (v : β) :
    (mapSet m k v).lookup k = some v := by
  induction m with
  | nil => simp [mapSet, List.lookup]
  | cons p rest ih =>
    obtain ⟨k1, v1⟩ := p
    simp only [mapSet]
    by_cases h : k1 = k
    · subst h; simp [List.lookup]
    · have h2 : (k == k1) = false := by
        rw [beq_eq_false_iff_ne]; exact fun e => h e.symm
      simp [h, List.lookup, h2, ih]

theorem lookup_mapSet_other {β : Type} (m : List (String × β)) (k k2 : String) (v : β)
    (hk : k2 ≠ k) : (mapSet m k v).lookup k2 = m.lookup k2 := by
  induction m with
  | nil =>
    have h2 : (k2 == k) = false := by rw [beq_eq_false_iff_ne]; exact hk
    simp [mapSet, List.lookup, h2]
  | cons p rest ih =>
    obtain ⟨k1, v1⟩ := p
    simp only [mapSet]
    by_cases h : k1 = k
    · subst h
      have h2 : (k2 == k1) = false := by rw [beq_eq_false_iff_ne]; exact hk
      simp [List.lookup, h2]
    · simp only [beq_iff_eq, h, if_false, List.lookup, ih]

end Musql

namespace Musql

theorem fragment_statement_data (N B : String) :
    ("with fragment " ++ N ++ " as " ++ B ++ "\n").data =
      "with".data ++ ([' '] ++ ("fragment".data ++ ([' '] ++
        (N.data ++ (" as".data ++ ((' ' :: B.data) ++ ['\n'])))))) := by
  have e1 : "with fragment ".data = "with".data ++ ([' '] ++ ("fragment".data ++ [' '])) := by
    decide
  have e2 : " as ".data = " as".data ++ [' '] := by decide
  have e3 : "\n".data = ['\n'] := by decide
  simp only [String.data_append, e1, e2, e3, List.append_assoc]
  rfl

theorem sqlShape_fragment (N B : String) (hN : N ≠ "") (hsp : ' ' ∉ N.data)
    (h1 : FindStringSubmatch reCreate ("with fragment " ++ N ++ " as " ++ B ++ "\n") = none)
    (h2 : FindStringSubmatch reVar ("with fragment " ++ N ++ " as " ++ B ++ "\n") = none)
    (h3 : FindStringSubmatch reInsert ("with fragment " ++ N ++ " as " ++ B ++ "\n") = none) :
    sqlShape ("with fragment " ++ N ++ " as " ++ B ++ "\n") = .fragment N (stripLeading B) := by
  have hNd : N.data ≠ [] := by
    intro e
    apply hN
    cases N with
    | mk d => simp only at e; rw [e]
  have h4 : FindStringSubmatch reFragment ("with fragment " ++ N ++ " as " ++ B ++ "\n") =
      some [(2, B.data.dropWhile isBlank), (1, N.data)] := by
    unfold FindStringSubmatch
    rw [fragment_statement_data]
    exact find_of_matchAt _ _ _ (reFragment_matchAt N.data B.data hNd hsp)
  simp only [sqlShape, h1, h2, h3, h4, Caps.group, stripLeading]
  simp [List.lookup]

end Musql

namespace Musql

/-- C9, counterexample: in `with fragment f as  x` (the body starting with a
space) the name `f` is bound to `x`, not to the body ` x` as it was written:
the class `[ \r\n]*` after `as` takes the leading blanks of the body. -/
theorem sqlStatement_fragment_drops_leading_blank :
    (sqlStatement noEngine ("with fragment " ++ "f" ++ " as " ++ " x" ++ "\n")
        emptyLambdaState).2.mdata.lookup "f" = some (.text "x") ∧
      (sqlStatement noEngine ("with fragment " ++ "f" ++ " as " ++ " x" ++ "\n")
        emptyLambdaState).2.mdata.lookup "f" ≠ some (.text " x") := by
  decide

/-- C9, as the code behaves: for a statement `with fragment N as B` followed by
a newline, `N` a non-empty name without a space and `B` any text (several
lines allowed), which matches none of the create-view/table, create-var and
insert patterns, the `sql` lambda hands no statement to the store, binds the
context key `N` to `B` without its leading spaces, carriage returns and
newlines (to `B` itself when it starts with none of them; everything after
them, inner newlines included, is kept as written), changes no other key, and
returns the empty text without an error. -/
theorem sqlStatement_fragment_binds_body {σ : Type} (eng : SqlEngine σ) (st : LambdaState σ)
    (N B : String) (hN : N ≠ "") (hsp : ' ' ∉ N.data)
    (h1 : FindStringSubmatch reCreate ("with fragment " ++ N ++ " as " ++ B ++ "\n") = none)
    (h2 : FindStringSubmatch reVar ("with fragment " ++ N ++ " as " ++ B ++ "\n") = none)
    (h3 : FindStringSubmatch reInsert ("with fragment " ++ N ++ " as " ++ B ++ "\n") = none) :
    sqlStatement eng ("with fragment " ++ N ++ " as " ++ B ++ "\n") st =
        (("", none), { db := st.db, mdata := mapSet st.mdata N (.text (stripLeading B)),
                       issued := st.issued }) ∧
      (mapSet st.mdata N (.text (stripLeading B))).lookup N = some (.text (stripLeading B)) ∧
      (∀ k : String, k ≠ N →
        (mapSet st.mdata N (.text (stripLeading B))).lookup k = st.mdata.lookup k) ∧
      ((B.data.head?.all fun ch => !isBlank ch) = true → stripLeading B = B) := by
  have hshape := sqlShape_fragment N B hN hsp h1 h2 h3
  have hne : (("with fragment " ++ N ++ " as " ++ B ++ "\n") == "") = false := by
    rw [beq_eq_false_iff_ne]
    intro e
    have := congrArg String.data e
    rw [fragment_statement_data] at this
    exact absurd this (by simp [show "with".data = ['w', 'i', 't', 'h'] from rfl])
  refine ⟨?_, lookup_mapSet_self _ _ _, fun k hk => lookup_mapSet_other _ _ _ _ hk, ?_⟩
  · unfold sqlStatement
    simp only [hne, Bool.false_eq_true, if_false, hshape]
  · intro hb
    cases B with
    | mk d =>
      cases d with
      | nil => rfl
      | cons x rest =>
        simp only [List.head?_cons, Option.all_some, Bool.not_eq_true'] at hb
        simp [stripLeading, List.dropWhile_cons, hb]

/-- Witness of `sqlStatement_fragment_binds_body`: the fragment of `TestWith`. -/
theorem sqlStatement_fragment_binds_body_witness :
    sqlStatement noEngine ("with fragment " ++ "t_t" ++ " as " ++ "(\n  select * from tt\n)" ++ "\n")
          emptyLambdaState =
        (("", none), { db := emptyLambdaState.db,
                       mdata := mapSet emptyLambdaState.mdata "t_t"
                         (.text (stripLeading "(\n  select * from tt\n)")),
                       issued := emptyLambdaState.issued }) ∧
      (mapSet emptyLambdaState.mdata "t_t"
          (.text (stripLeading "(\n  select * from tt\n)"))).lookup "t_t" =
        some (.text (stripLeading "(\n  select * from tt\n)")) ∧
      (∀ k : String, k ≠ "t_t" →
        (mapSet emptyLambdaState.mdata "t_t"
          (.text (stripLeading "(\n  select * from tt\n)"))).lookup k =
          emptyLambdaState.mdata.lookup k) ∧
      (("(\n  select * from tt\n)".data.head?.all fun ch => !isBlank ch) = true →
        stripLeading "(\n  select * from tt\n)" = "(\n  select * from tt\n)") :=
  sqlStatement_fragment_binds_body noEngine emptyLambdaState "t_t" "(\n  select * from tt\n)"
    (by decide) (by decide) (by decide) (by decide) (by decide)

/-! ## The fragment of `TestWith` -/

/-- C10, as the code behaves: for the fragment statement of `TestWith` the
lambda runs no SQL and returns no error, and it binds `t_t` to the second
submatch, the body `(` … `)` after `as`; the text `t_t as (` … `)` that the
test expects from `{{t_t}}` is not what the context holds. -/
theorem sqlStatement_TestWith_binds_body_only :
    sqlStatement noEngine "\t\twith fragment t_t as (\n\t\t  select * from tt\n\t\t)\n"
          emptyLambdaState =
        (("", none), { db := (), issued := [],
                       mdata := [("t_t", .text "(\n\t\t  select * from tt\n\t\t)")] }) ∧
      (sqlStatement noEngine "\t\twith fragment t_t as (\n\t\t  select * from tt\n\t\t)\n"
          emptyLambdaState).2.mdata.lookup "t_t" ≠
        some (.text "t_t as (\n\t\t  select * from tt\n\t\t)") := by
  refine ⟨?_, by decide⟩
  have h : sqlShape "\t\twith fragment t_t as (\n\t\t  select * from tt\n\t\t)\n" =
      .fragment "t_t" "(\n\t\t  select * from tt\n\t\t)" := by decide
  unfold sqlStatement
  rw [h]
  rfl

end Musql

namespace Musql

/-! ## The loops of `ArgSource` end within the rounds they are given -/

theorem sourceFilesLoop_rounds (os : Os) (basedir : String) (argv : List String) (fuel : Nat) :
    ∀ (i : Nat) (files : List FileInfo), argv.length ≤ fuel + i →
      sourceFilesLoop os basedir argv (fuel + 1) i files =
        sourceFilesLoop os basedir argv fuel i files := by
  induction fuel with
  | zero =>
    intro i files h
    have hi : argv[i]? = none := List.getElem?_eq_none (by omega)
    simp [sourceFilesLoop, hi]
  | succ n ih =>
    intro i files h
    rw [sourceFilesLoop]
    conv_rhs => rw [sourceFilesLoop]
    cases hi : argv[i]? with
    | none => rfl
    | some a =>
      simp only
      split
      · rfl
      · split
        · cases argv[i + 2]? with
          | none => rfl
          | some cf => simp only; exact ih (i + 3) _ (by omega)
        · exact ih (i + 1) _ (by omega)

theorem sourceSelectLoop_rounds (argv : List String) (fuel : Nat) :
    ∀ (i : Nat) (sels : List Select), argv.length ≤ fuel + i →
      sourceSelectLoop argv (fuel + 1) i sels = sourceSelectLoop argv fuel i sels := by
  induction fuel with
  | zero =>
    intro i sels h
    have hi : argv[i]? = none := List.getElem?_eq_none (by omega)
    simp [sourceSelectLoop, hi]
  | succ n ih =>
    intro i sels h
    rw [sourceSelectLoop]
    conv_rhs => rw [sourceSelectLoop]
    cases hi : argv[i]? with
    | none => rfl
    | some a =>
      simp only
      split
      · rfl
      · split
        · cases argv[i + 2]? with
          | none => rfl
          | some nm => simp only; exact ih (i + 3) _ (by omega)
        · exact ih (i + 1) _ (by omega)

end Musql

namespace Musql

/-! ## `addData`: the rows of a plain query -/

theorem lookup_mapSet {β : Type} (m : List (String × β)) (k k2 : String) (v : β) :
    (mapSet m k v).lookup k2 = if k2 = k then some v else m.lookup k2 := by
  by_cases h : k2 = k
  · rw [if_pos h, h]; exact lookup_mapSet_self m k v
  · rw [if_neg h]; exact lookup_mapSet_other m k k2 v h

theorem rowToMapFrom_other (cols : List String) :
    ∀ (vals : List SqlValue) (m : List (String × SqlValue)) (name : String), name ∉ cols →
      (rowToMapFrom cols vals m).lookup name = m.lookup name := by
  induction cols with
  | nil => intro vals m name _; rfl
  | cons c cs ih =>
    intro vals m name h
    cases vals with
    | nil => rfl
    | cons v vs =>
      have hc : name ≠ c := fun e => h (by simp [e])
      have hcs : name ∉ cs := fun e => h (by simp [e])
      rw [rowToMapFrom, ih vs _ name hcs, lookup_mapSet_other _ _ _ _ hc]

theorem rowToMapFrom_last (cols : List String) :
    ∀ (vals : List SqlValue) (m : List (String × SqlValue)) (j : Nat) (c : String)
      (v : SqlValue), cols[j]? = some c → vals[j]? = some v →
      (∀ j2, j < j2 → cols[j2]? ≠ some c) →
      (rowToMapFrom cols vals m).lookup c = some (scanValue v) := by
  induction cols with
  | nil => intro vals m j c v hc; simp at hc
  | cons c0 cs ih =>
    intro vals m j c v hc hv hlast
    cases vals with
    | nil => simp at hv
    | cons v0 vs =>
      cases j with
      | zero =>
        simp only [List.getElem?_cons_zero, Option.some.injEq] at hc hv
        subst hc; subst hv
        have hnot : c0 ∉ cs := by
          intro hm
          obtain ⟨n, hn⟩ := List.mem_iff_getElem?.mp hm
          exact hlast (n + 1) (by omega) (by simpa using hn)
        rw [rowToMapFrom, rowToMapFrom_other cs vs _ c0 hnot, lookup_mapSet_self]
      | succ n =>
        simp only [List.getElem?_cons_succ] at hc hv
        rw [rowToMapFrom]
        apply ih vs _ n c v hc hv
        intro j2 hj2
        have := hlast (j2 + 1) (by omega)
        simpa using this

end Musql

namespace Musql

/-- C11: a statement that the `sql` lambda runs as a plain query (it is not
empty and has none of the create, insert and fragment shapes) and that the
store answers with the columns `columns` and the rows `rows`. The lambda
returns no error; afterwards `result` is bound to the list of the rows in the
store's order, each row as the map `rowToMap columns r`, and `result?` to the
truth of `rows.length > 0`; every other key is as before. In a row map a
column name holds the scanned value of the last column with that name (byte
slices as text), and names that are no column are not bound. -/
theorem sqlStatement_plain_query_binds_result {σ : Type} (eng : SqlEngine σ)
    (st : LambdaState σ) (stmt : String) (columns : List String)
    (rows : List (List SqlValue)) (db1 : σ) (hne : stmt ≠ "") (hshape : sqlShape stmt = .query)
    (hq : eng.query st.db stmt = .ok ((columns, rows), db1)) :
    sqlStatement eng stmt st =
        (("", none),
         { db := db1,
           mdata := mapSet (mapSet st.mdata "result" (.rows (rows.map (rowToMap columns))))
             "result?" (.bool (decide (rows.length > 0))),
           issued := st.issued ++ [stmt] }) ∧
      (mapSet (mapSet st.mdata "result" (.rows (rows.map (rowToMap columns))))
          "result?" (.bool (decide (rows.length > 0)))).lookup "result" =
        some (.rows (rows.map (rowToMap columns))) ∧
      (mapSet (mapSet st.mdata "result" (.rows (rows.map (rowToMap columns))))
          "result?" (.bool (decide (rows.length > 0)))).lookup "result?" =
        some (.bool (decide (rows.length > 0))) ∧
      (∀ k : String, k ≠ "result" → k ≠ "result?" →
        (mapSet (mapSet st.mdata "result" (.rows (rows.map (rowToMap columns))))
          "result?" (.bool (decide (rows.length > 0)))).lookup k = st.mdata.lookup k) ∧
      (∀ i : Nat, (rows.map (rowToMap columns))[i]? = (rows[i]?).map (rowToMap columns)) ∧
      (∀ (vals : List SqlValue) (j : Nat) (c : String) (v : SqlValue),
        columns[j]? = some c → vals[j]? = some v → (∀ j2, j < j2 → columns[j2]? ≠ some c) →
        (rowToMap columns vals).lookup c = some (scanValue v)) ∧
      (∀ (vals : List SqlValue) (name : String), name ∉ columns →
        (rowToMap columns vals).lookup name = none) := by
  have hb : (stmt == "") = false := by rw [beq_eq_false_iff_ne]; exact hne
  refine ⟨?_, ?_, lookup_mapSet_self _ _ _, ?_, ?_, ?_, ?_⟩
  · unfold sqlStatement
    simp only [hb, Bool.false_eq_true, if_false, hshape, addData, hq, List.length_map]
    rfl
  · rw [lookup_mapSet_other _ _ _ _ (by decide)]
    exact lookup_mapSet_self _ _ _
  · intro k h1 h2
    rw [lookup_mapSet_other _ _ _ _ h2, lookup_mapSet_other _ _ _ _ h1]
  · intro i
    simp
  · intro vals j c v hc hv hlast
    exact rowToMapFrom_last columns vals [] j c v hc hv hlast
  · intro vals name hn
    exact rowToMapFrom_other columns vals [] name hn

/-- Witness of `sqlStatement_plain_query_binds_result`: the query of
`TestMustache` with its three rows. -/
theorem sqlStatement_plain_query_binds_result_witness :
    (sqlStatement exampleEngine "select Wert from must" emptyLambdaState).1 = ("", none) ∧
      (sqlStatement exampleEngine "select Wert from must" emptyLambdaState).2.mdata =
        [("result", .rows [[("Wert", .text "15000")], [("Wert", .text "30000")],
                           [("Wert", .text "17000")]]),
         ("result?", .bool true)] :=
  ⟨congrArg Prod.fst
      (sqlStatement_plain_query_binds_result exampleEngine emptyLambdaState
        "select Wert from must" ["Wert"] [[.bytes "15000"], [.bytes "30000"], [.bytes "17000"]]
        () (by decide) (by decide) rfl).1,
   congrArg (fun r => r.2.mdata)
      (sqlStatement_plain_query_binds_result exampleEngine emptyLambdaState
        "select Wert from must" ["Wert"] [[.bytes "15000"], [.bytes "30000"], [.bytes "17000"]]
        () (by decide) (by decide) rfl).1⟩

end Musql

namespace Musql

/-! ## Delimited ingest: a pattern without a match -/

theorem addCsvPaths_no_match {α : Type} (fs : FileSys α) (T : String) (sep : Char)
    (csvheader : Bool) (e : FileInfo) (post : List FileInfo)
    (hg : fs.glob (globPattern e) = .ok []) (pre : List FileInfo) :
    ∀ st : CsvIngest, (addCsvPaths fs T sep csvheader (pre ++ e :: post) st).1 ≠ none := by
  induction pre with
  | nil =>
    intro st
    simp [addCsvPaths, hg]
  | cons p rest ih =>
    intro st
    rw [List.cons_append, addCsvPaths]
    cases hp : fs.glob (globPattern p) with
    | error err => simp
    | ok flist =>
      simp only
      split
      · simp
      · rcases hx : addCsvFlist fs T sep csvheader p.Container flist st with ⟨err, st1⟩
        cases err with
        | some e1 => simp
        | none => exact ih st1

theorem addCsvFiles_no_match {α : Type} (fs : FileSys α) (db : Store) (T : String) (sep : Char)
    (inheader : Option (List String)) (pre post : List FileInfo) (e : FileInfo)
    (hg : fs.glob (globPattern e) = .ok []) :
    (addCsvFiles fs db T (pre ++ e :: post) sep inheader).1 ≠ none := by
  unfold addCsvFiles
  cases inheader with
  | none =>
    simp only
    have := addCsvPaths_no_match fs T (defaultSep sep) true e post hg pre
      { header := [], insert := none, deferred := false, db := db }
    rcases hx : addCsvPaths fs T (defaultSep sep) true (pre ++ e :: post)
      { header := [], insert := none, deferred := false, db := db } with ⟨err, st⟩
    rw [hx] at this
    exact this
  | some header =>
    simp only
    rcases he : ensureTable db T header with ⟨e1, db1⟩
    cases e1 with
    | some x => simp
    | none =>
      simp only [Store.begin]
      cases hm : makeInsert { tables := db1.tables, pending := some db1.tables } T header with
      | error x => simp
      | ok ins =>
        simp only
        have := addCsvPaths_no_match fs T (defaultSep sep) false e post hg pre
          { header := header, insert := some ins, deferred := true,
            db := { tables := db1.tables, pending := some db1.tables } }
        rcases hx : addCsvPaths fs T (defaultSep sep) false (pre ++ e :: post)
          { header := header, insert := some ins, deferred := true,
            db := { tables := db1.tables, pending := some db1.tables } } with ⟨err, st⟩
        rw [hx] at this
        exact this

/-- C16: a delimited ingest whose file list has an entry whose pattern matches
no file. `AddCsv` and `AddCsvWithHeader` return an error, whatever the entries
before it do; and when the entry is the first one and no header was given, the
error is `file <pattern> not found` and the store is as it was: no table is
created and no transaction is begun. -/
theorem AddCsv_no_match_is_error {α : Type} (fs : FileSys α) (db : Store) (T : String)
    (sep : Char) (pre post : List FileInfo) (e : FileInfo)
    (hg : fs.glob (globPattern e) = .ok []) :
    (AddCsv fs db T (pre ++ e :: post) sep).1 ≠ none ∧
      (∀ header : List String, (AddCsvWithHeader fs db T (pre ++ e :: post) sep header).1 ≠ none) ∧
      AddCsv fs db T (e :: post) sep = (some ("file " ++ globPattern e ++ " not found"), db) := by
  refine ⟨addCsvFiles_no_match fs db T sep none pre post e hg,
    fun header => addCsvFiles_no_match fs db T sep (some header) pre post e hg, ?_⟩
  simp [AddCsv, addCsvFiles, addCsvPaths, hg, runDeferred]

/-- Witness of `AddCsv_no_match_is_error`: `no_file.csv`, as in
`TestFileNotFound`, alone and after `t.csv`. -/
theorem AddCsv_no_match_is_error_witness :
    (AddCsv exampleFs emptyStore "a"
        ([{ Path := "t.csv", Container := "" }] ++ { Path := "no_file.csv", Container := "" } :: [])
        ';').1 ≠ none ∧
      (∀ header : List String,
        (AddCsvWithHeader exampleFs emptyStore "a"
          ([{ Path := "t.csv", Container := "" }] ++
            { Path := "no_file.csv", Container := "" } :: []) ';' header).1 ≠ none) ∧
      AddCsv exampleFs emptyStore "a" ({ Path := "no_file.csv", Container := "" } :: []) ';' =
        (some ("file " ++ globPattern { Path := "no_file.csv", Container := "" } ++ " not found"),
         emptyStore) :=
  AddCsv_no_match_is_error exampleFs emptyStore "a" ';' [{ Path := "t.csv", Container := "" }] []
    { Path := "no_file.csv", Container := "" } rfl

end Musql

namespace Musql

/-! ## Delimited ingest: an entry with a container -/

theorem addCsvPaths_container_path {α : Type} (fs : FileSys α) (T : String) (sep : Char)
    (csvheader : Bool) (p p2 c : String) (hc : c ≠ "") (post pre : List FileInfo) :
    ∀ st : CsvIngest,
      addCsvPaths fs T sep csvheader (pre ++ { Path := p, Container := c } :: post) st =
        addCsvPaths fs T sep csvheader (pre ++ { Path := p2, Container := c } :: post) st := by
  have hb : (c != "") = true := by simpa using hc
  induction pre with
  | nil =>
    intro st
    simp only [List.nil_append, addCsvPaths, globPattern, hb, if_true]
  | cons q rest ih =>
    intro st
    simp only [List.cons_append, addCsvPaths]
    cases fs.glob (globPattern q) with
    | error err => rfl
    | ok flist =>
      simp only
      split
      · rfl
      · rcases addCsvFlist fs T sep csvheader q.Container flist st with ⟨err, st1⟩
        cases err with
        | some e1 => rfl
        | none => exact ih st1

/-- C15, as the code behaves: for a file entry with a container the ingest
globs the container, and for every matched archive name it opens `FileInfo`
with that archive name as `Path` and the container pattern as `Container`;
the entry's own path is never used. So the result of the ingest does not
depend on the path `p` of such an entry: any other path `p2` gives the same. -/
theorem addCsvFiles_container_entry_ignores_path {α : Type} (fs : FileSys α) (db : Store)
    (T : String) (sep : Char) (inheader : Option (List String)) (pre post : List FileInfo)
    (p p2 c : String) (hc : c ≠ "") :
    addCsvFiles fs db T (pre ++ { Path := p, Container := c } :: post) sep inheader =
      addCsvFiles fs db T (pre ++ { Path := p2, Container := c } :: post) sep inheader := by
  unfold addCsvFiles
  simp only [addCsvPaths_container_path fs T (defaultSep sep) _ p p2 c hc post pre]

/-- Witness of `addCsvFiles_container_entry_ignores_path`, at the failing
input: the member `data.csv` of `a.zip` exists, yet the ingest looks for a
member called `a.zip` and fails, as it does for any other path. -/
theorem addCsvFiles_container_entry_ignores_path_witness :
    addCsvFiles exampleZipFs emptyStore "t" ([] ++ { Path := "data.csv", Container := "a.zip" } :: [])
          ';' none =
        addCsvFiles exampleZipFs emptyStore "t"
          ([] ++ { Path := "no such member", Container := "a.zip" } :: []) ';' none ∧
      AddCsv exampleZipFs emptyStore "t" [{ Path := "data.csv", Container := "a.zip" }] ';' =
        (some "could not find a.zip in a.zip: reading header of a.zip", emptyStore) ∧
      opencontainer exampleZipFs { Path := "data.csv", Container := "a.zip" } =
        .ok [["Name", "Wert"], ["a", "1"]] :=
  ⟨addCsvFiles_container_entry_ignores_path exampleZipFs emptyStore "t" ';' none [] []
      "data.csv" "no such member" "a.zip" (by decide),
   by decide, rfl⟩

/-! ## Directives that end too early -/

/-- C17, as the code behaves: the four truncated directives read a token at an
index that is not there, which stops the program with a run-time panic; no
parse error is returned. -/
theorem truncated_directives_panic :
    ArgSource exampleOs ["insert", "f", "into"] 0 "." [] = .panic ∧
      ArgSource exampleOs ["insert", "f", "into", "t", "with", "a", "as"] 0 "." [] = .panic ∧
      ArgSelect ["select", "1", "expanding"] 0 "." [] = .panic ∧
      ArgIni exampleOs ["ini"] 0 "." [] = .panic ∧
      Config.Parse exampleOs 5 Config.zero ["insert", "f", "into"] = .panic ∧
      Config.Parse exampleOs 5 Config.zero ["insert", "f", "into", "t", "with", "a", "as"] =
        .panic ∧
      Config.Parse exampleOs 5 Config.zero ["select", "1", "expanding"] = .panic ∧
      Config.Parse exampleOs 5 Config.zero ["set", "k", "v", "ini"] = .panic := by
  decide

end Musql

namespace Musql

/-! ## `attach` directives -/

theorem tryParsers_attach (os : Os) (argv : List String) (i : Nat) (basedir : String)
    (c : Config) (f a : String) (h0 : argv[i]? = some "attach") (h1 : argv[i + 1]? = some f)
    (h2 : argv[i + 2]? = some "as") (h3 : argv[i + 3]? = some a) :
    tryParsers os argv i basedir initParsers c =
      .ret (i + 4) none { c with dbs := c.dbs.set (getPath os basedir f) a } := by
  have hi : i < argv.length := (List.getElem?_eq_some_iff.mp h0).1
  have hnot : ¬ argv.length ≤ i := by omega
  simp [initParsers, tryParsers, Parser.run, ArgSource, ArgTemplate, ArgSelect, ArgParam, ArgSql,
    ArgAttach, h0, h1, h2, h3, hnot]

theorem tryParsers_at_end (os : Os) (argv : List String) (basedir : String) (c : Config) :
    tryParsers os argv argv.length basedir initParsers c = .ret argv.length none c := by
  have h0 : argv[argv.length]? = none := List.getElem?_eq_none (Nat.le_refl _)
  simp [initParsers, tryParsers, Parser.run, ArgSource, ArgTemplate, ArgSelect, ArgParam, ArgSql,
    ArgAttach, ArgIni, ArgDB, ArgIgnoreComment, ArgIgnoreEmpty, h0]

end Musql

namespace Musql

theorem parseLoop_attach (os : Os) (basedir : String) (ds : List (String × String)) :
    ∀ (pre : List String) (c : Config) (fuel : Nat), c.parsers = initParsers →
      c.allargs = [{ basedir := basedir, argv := pre ++ attachTokens ds }] →
      ds.length + 2 ≤ fuel →
      parseLoop os fuel c 0 pre.length = .ok { c with dbs := attachMap os basedir ds c.dbs } := by
  induction ds with
  | nil =>
    intro pre c fuel hp ha hf
    obtain ⟨n, rfl⟩ : ∃ n, fuel = n + 2 := ⟨fuel - 2, by simp at hf; omega⟩
    obtain ⟨ti, te, sq, dn, pa, dbs, ps, pr, aa⟩ := c
    simp only [attachTokens, List.append_nil] at hp ha
    subst hp; subst ha
    have hend := tryParsers_at_end os pre basedir
      { tabinfos := ti, templates := te, sqls := sq, dbname := dn, params := pa, dbs := dbs,
        parsers := initParsers, parsersready := pr,
        allargs := [{ basedir := basedir, argv := pre }] }
    rw [parseLoop]
    simp only [List.getElem?_cons_zero, hend, beq_self_eq_true, if_true, Nat.lt_irrefl,
      if_false]
    rw [parseLoop]
    simp [attachMap]
  | cons d rest ih =>
    intro pre c fuel hp ha hf
    obtain ⟨f, a⟩ := d
    obtain ⟨n, rfl⟩ : ∃ n, fuel = n + 1 := ⟨fuel - 1, by simp at hf; omega⟩
    obtain ⟨ti, te, sq, dn, pa, dbs, ps, pr, aa⟩ := c
    simp only at hp ha
    subst hp; subst ha
    have hget : ∀ k : Nat, (pre ++ attachTokens ((f, a) :: rest))[pre.length + k]? =
        (attachTokens ((f, a) :: rest))[k]? := by
      intro k
      rw [List.getElem?_append_right (Nat.le_add_right _ _)]
      simp
    have h0 := hget 0
    have h1 := hget 1
    have h2 := hget 2
    have h3 := hget 3
    simp only [Nat.add_zero, attachTokens, List.getElem?_cons_zero, List.getElem?_cons_succ]
      at h0 h1 h2 h3
    have hstep := tryParsers_attach os (pre ++ attachTokens ((f, a) :: rest)) pre.length basedir
      { tabinfos := ti, templates := te, sqls := sq, dbname := dn, params := pa, dbs := dbs,
        parsers := initParsers, parsersready := pr,
        allargs := [{ basedir := basedir, argv := pre ++ attachTokens ((f, a) :: rest) }] }
      f a h0 h1 h2 h3
    have hne : (pre.length == pre.length + 4) = false := by simp
    have hlen : (pre ++ ["attach", f, "as", a]).length = pre.length + 4 := by simp
    have hih := ih (pre ++ ["attach", f, "as", a])
      { tabinfos := ti, templates := te, sqls := sq, dbname := dn, params := pa,
        dbs := GoMap.set dbs (getPath os basedir f) a,
        parsers := initParsers, parsersready := pr,
        allargs := [{ basedir := basedir, argv := pre ++ attachTokens ((f, a) :: rest) }] } n rfl
      (by simp [attachTokens]) (by simp at hf ⊢; omega)
    rw [hlen] at hih
    rw [parseLoop]
    simp only [List.getElem?_cons_zero, hstep, hne, Bool.false_eq_true, if_false, hih]
    rfl

theorem Parse_attach (os : Os) (ds : List (String × String)) (fuel : Nat)
    (hf : ds.length + 2 ≤ fuel) :
    Config.Parse os fuel Config.zero (attachTokens ds) =
      .ok { startConfig (attachTokens ds) with dbs := attachMap os "." ds [] } := by
  have := parseLoop_attach os "." ds [] (startConfig (attachTokens ds)) fuel rfl rfl hf
  simpa [Config.Parse, Config.zero, startConfig, Config.Init] using this

end Musql

namespace Musql

theorem GoMap.set_eq_mapSet (m : GoMap) (k v : String) : GoMap.set m k v = mapSet m k v := by
  induction m with
  | nil => rfl
  | cons p rest ih =>
    obtain ⟨k1, v1⟩ := p
    simp only [GoMap.set, mapSet, ih]

theorem mem_keys_mapSet {β : Type} (m : List (String × β)) (k x : String) (v : β) :
    x ∈ (mapSet m k v).map Prod.fst ↔ x = k ∨ x ∈ m.map Prod.fst := by
  induction m with
  | nil => simp [mapSet]
  | cons p rest ih =>
    obtain ⟨k1, v1⟩ := p
    simp only [mapSet]
    by_cases h : k1 = k
    · subst h
      simp
    · simp only [beq_iff_eq, h, if_false, List.map_cons, List.mem_cons, ih]
      constructor
      · rintro (h1 | h1 | h1)
        · exact Or.inr (Or.inl h1)
        · exact Or.inl h1
        · exact Or.inr (Or.inr h1)
      · rintro (h1 | h1 | h1)
        · exact Or.inr (Or.inl h1)
        · exact Or.inl h1
        · exact Or.inr (Or.inr h1)

theorem nodup_keys_mapSet {β : Type} (m : List (String × β)) (k : String) (v : β)
    (h : (m.map Prod.fst).Nodup) : ((mapSet m k v).map Prod.fst).Nodup := by
  induction m with
  | nil => simp [mapSet]
  | cons p rest ih =>
    obtain ⟨k1, v1⟩ := p
    simp only [List.map_cons, List.nodup_cons] at h
    simp only [mapSet]
    by_cases hk : k1 = k
    · subst hk
      simpa using h
    · simp only [beq_iff_eq, hk, if_false, List.map_cons, List.nodup_cons]
      refine ⟨?_, ih h.2⟩
      intro hm
      rcases (mem_keys_mapSet rest k k1 v).mp hm with h1 | h1
      · exact hk h1
      · exact h.1 h1

theorem attachMap_other (os : Os) (basedir : String) (ds : List (String × String)) :
    ∀ (m : GoMap) (key : String), (∀ d ∈ ds, getPath os basedir d.1 ≠ key) →
      (attachMap os basedir ds m).lookup key = m.lookup key := by
  induction ds with
  | nil => intro m key _; rfl
  | cons d rest ih =>
    intro m key h
    obtain ⟨f, a⟩ := d
    rw [attachMap, ih _ key (fun d hd => h d (by simp [hd])), GoMap.set_eq_mapSet,
      lookup_mapSet_other _ _ _ _ (fun e => h (f, a) (by simp) e.symm)]

theorem attachMap_last (os : Os) (basedir : String) (ds : List (String × String)) :
    ∀ (m : GoMap) (j : Nat) (f a : String), ds[j]? = some (f, a) →
      (∀ (j2 : Nat) (d : String × String), j < j2 → ds[j2]? = some d →
        getPath os basedir d.1 ≠ getPath os basedir f) →
      (attachMap os basedir ds m).lookup (getPath os basedir f) = some a := by
  induction ds with
  | nil => intro m j f a hj; simp at hj
  | cons d rest ih =>
    intro m j f a hj hlast
    obtain ⟨f0, a0⟩ := d
    cases j with
    | zero =>
      simp only [List.getElem?_cons_zero, Option.some.injEq, Prod.mk.injEq] at hj
      obtain ⟨rfl, rfl⟩ := hj
      rw [attachMap, attachMap_other os basedir rest _ _ ?_, GoMap.set_eq_mapSet,
        lookup_mapSet_self]
      intro d hd
      obtain ⟨n, hn⟩ := List.mem_iff_getElem?.mp hd
      exact hlast (n + 1) d (by omega) (by simpa using hn)
    | succ n =>
      simp only [List.getElem?_cons_succ] at hj
      rw [attachMap]
      apply ih _ n f a hj
      intro j2 d hj2 hd
      exact hlast (j2 + 1) d (by omega) (by simpa using hd)

theorem attachMap_keys (os : Os) (basedir : String) (ds : List (String × String)) :
    ∀ (m : GoMap) (key : String),
      key ∈ (attachMap os basedir ds m).map Prod.fst ↔
        key ∈ m.map Prod.fst ∨ ∃ d ∈ ds, getPath os basedir d.1 = key := by
  induction ds with
  | nil => intro m key; simp [attachMap]
  | cons d rest ih =>
    intro m key
    obtain ⟨f, a⟩ := d
    rw [attachMap, ih, GoMap.set_eq_mapSet, mem_keys_mapSet]
    simp only [List.mem_cons, exists_eq_or_imp]
    constructor
    · rintro ((h | h) | h)
      · exact Or.inr (Or.inl h.symm)
      · exact Or.inl h
      · exact Or.inr (Or.inr h)
    · rintro (h | h | h)
      · exact Or.inl (Or.inr h)
      · exact Or.inl (Or.inl h.symm)
      · exact Or.inr h

theorem attachMap_nodup (os : Os) (basedir : String) (ds : List (String × String)) :
    ∀ m : GoMap, (m.map Prod.fst).Nodup → ((attachMap os basedir ds m).map Prod.fst).Nodup := by
  induction ds with
  | nil => intro m h; exact h
  | cons d rest ih =>
    intro m h
    obtain ⟨f, a⟩ := d
    rw [attachMap]
    apply ih
    rw [GoMap.set_eq_mapSet]
    exact nodup_keys_mapSet m _ _ h

theorem applyAttach_issued {σ : Type} (eng : SqlEngine σ) (order : List (String × String)) :
    ∀ (db : σ) (issued : List String), (applyAttach eng order db issued).1 = none →
      (applyAttach eng order db issued).2.2 =
        issued ++ order.map (fun d => attachStatement d.1 d.2) := by
  induction order with
  | nil => intro db issued _; simp [applyAttach]
  | cons d rest ih =>
    intro db issued h
    obtain ⟨f, a⟩ := d
    rw [applyAttach] at h ⊢
    rcases hx : AddDatabase eng db f a with ⟨err, db1⟩
    cases err with
    | some e => simp [hx] at h
    | none =>
      simp only [hx] at h ⊢
      rw [ih db1 _ h]
      simp

end Musql

namespace Musql

/-- C14, counterexample: after the two directives `attach f as a` and
`attach f as b` the parse succeeds and the plan holds one attach entry, the
file `f` with the alias `b`, not two. -/
theorem Parse_attach_same_file_twice :
    (Config.Parse exampleOs 4 Config.zero
        ["attach", "f", "as", "a", "attach", "f", "as", "b"]).error? = some none ∧
      (Config.Parse exampleOs 4 Config.zero
        ["attach", "f", "as", "a", "attach", "f", "as", "b"]).config?.map Config.dbs =
        some [("f", "b")] := by
  decide

end Musql

namespace Musql

/-! ## `attach` directives among other directives -/

theorem Parser.run_dbs_other (os : Os) (p : Parser) (c c1 : Config) (argv : List String)
    (i j : Nat) (basedir : String) (err : Option String) (hp : p ≠ .attach)
    (h : p.run os c argv i basedir = .ret j err c1) : c1.dbs = c.dbs := by
  cases p <;> simp only [Parser.run] at h
  · cases hx : ArgSource os argv i basedir c.tabinfos with
    | panic => simp [hx] at h
    | ret j1 e1 x => simp only [hx, Outcome.ret.injEq] at h; rw [← h.2.2]
  · cases hx : ArgTemplate os argv i basedir c.templates with
    | panic => simp [hx] at h
    | ret j1 e1 x => simp only [hx, Outcome.ret.injEq] at h; rw [← h.2.2]
  · cases hx : ArgSelect argv i basedir c.templates with
    | panic => simp [hx] at h
    | ret j1 e1 x => simp only [hx, Outcome.ret.injEq] at h; rw [← h.2.2]
  · cases hx : ArgParam argv i basedir c.params with
    | panic => simp [hx] at h
    | ret j1 e1 x => simp only [hx, Outcome.ret.injEq] at h; rw [← h.2.2]
  · cases hx : ArgSql os argv i basedir c.sqls with
    | panic => simp [hx] at h
    | ret j1 e1 x => simp only [hx, Outcome.ret.injEq] at h; rw [← h.2.2]
  · exact absurd rfl hp
  · cases hx : ArgIni os argv i basedir c.allargs with
    | panic => simp [hx] at h
    | ret j1 e1 x => simp only [hx, Outcome.ret.injEq] at h; rw [← h.2.2]
  · cases hx : ArgDB os argv i basedir c.dbname with
    | panic => simp [hx] at h
    | ret j1 e1 x => simp only [hx, Outcome.ret.injEq] at h; rw [← h.2.2]
  · simp only [Outcome.ret.injEq] at h; rw [← h.2.2]
  · simp only [Outcome.ret.injEq] at h; rw [← h.2.2]

theorem ArgAttach_cases (os : Os) (argv : List String) (i : Nat) (basedir : String) (a x : GoMap)
    (j : Nat) (h : ArgAttach os argv i basedir a = .ret j none x) :
    (j = i ∧ x = a) ∨
      ∃ d, attachAt os argv i basedir = some d ∧ j = i + 4 ∧ x = a.set d.1 d.2 := by
  unfold ArgAttach at h
  split at h
  · simp only [Outcome.ret.injEq, true_and] at h
    exact Or.inl ⟨h.1.symm, h.2.symm⟩
  · rename_i hc
    simp only [ge_iff_le, not_or, not_le, ne_eq, Decidable.not_not] at hc
    cases h1 : argv[i + 1]? with
    | none => simp [h1] at h
    | some f =>
      simp only [h1] at h
      split at h
      · simp at h
      · rename_i h2
        simp only [ne_eq, Decidable.not_not] at h2
        cases h3 : argv[i + 3]? with
        | none => simp [h3] at h
        | some name =>
          simp only [h3, Outcome.ret.injEq, true_and] at h
          refine Or.inr ⟨(getPath os basedir f, name), ?_, h.1.symm, h.2.symm⟩
          simp [attachAt, hc.2, h1, h2, h3]

theorem tryParsers_dbs (os : Os) (argv : List String) (i : Nat) (basedir : String)
    (ps : List Parser) :
    ∀ (c c1 : Config) (i1 : Nat), tryParsers os argv i basedir ps c = .ret i1 none c1 →
      c1.dbs = c.dbs ∨
        ∃ d, attachAt os argv i basedir = some d ∧ i1 = i + 4 ∧ c1.dbs = c.dbs.set d.1 d.2 := by
  induction ps with
  | nil =>
    intro c c1 i1 h
    simp only [tryParsers, Outcome.ret.injEq, true_and] at h
    left; rw [← h.2]
  | cons p rest ih =>
    intro c c1 i1 h
    rw [tryParsers] at h
    cases hx : p.run os c argv i basedir with
    | panic => simp [hx] at h
    | ret j err c2 =>
      simp only [hx] at h
      have hstep : err = none → c2.dbs = c.dbs ∨
          ∃ d, attachAt os argv i basedir = some d ∧ j = i + 4 ∧ c2.dbs = c.dbs.set d.1 d.2 := by
        intro he
        subst he
        by_cases hp : p = .attach
        · subst hp
          simp only [Parser.run] at hx
          cases ha : ArgAttach os argv i basedir c.dbs with
          | panic => simp [ha] at hx
          | ret j1 e1 x =>
            simp only [ha, Outcome.ret.injEq] at hx
            obtain ⟨hj, he1, hc2⟩ := hx
            subst hj; subst he1
            rcases ArgAttach_cases os argv i basedir c.dbs x j1 ha with h0 | ⟨d, hd, hj, hxd⟩
            · left; rw [← hc2]; exact h0.2
            · right; exact ⟨d, hd, hj, by rw [← hc2]; exact hxd⟩
        · left; exact Parser.run_dbs_other os p c c2 argv i j basedir none hp hx
      split at h
      · simp only [Outcome.ret.injEq] at h
        obtain ⟨hj, he, hc⟩ := h
        subst hj; subst hc
        exact hstep he
      · rename_i hcont
        simp only [Bool.or_eq_true, Option.isSome_iff_ne_none, ne_eq, bne_iff_ne, not_or,
          Decidable.not_not] at hcont
        obtain ⟨he, hj⟩ := hcont
        rcases hstep he with h0 | ⟨d, hd, hj4, hset⟩
        · rcases ih c2 c1 i1 h with h1 | ⟨d, hd, hi1, hset⟩
          · left; rw [h1, h0]
          · right; exact ⟨d, hd, hi1, by rw [hset, h0]⟩
        · omega

theorem attachAt_some (os : Os) (argv : List String) (i : Nat) (basedir : String)
    (d : String × String) (h : attachAt os argv i basedir = some d) :
    ∃ f a, argv[i]? = some "attach" ∧ argv[i + 1]? = some f ∧ argv[i + 2]? = some "as" ∧
      argv[i + 3]? = some a ∧ d = (getPath os basedir f, a) := by
  unfold attachAt at h
  split at h
  · rename_i hc
    cases h1 : argv[i + 1]? with
    | none => simp [h1] at h
    | some f =>
      cases h3 : argv[i + 3]? with
      | none => simp [h1, h3] at h
      | some a =>
        simp only [h1, h3, Option.some.injEq] at h
        exact ⟨f, a, hc.1, rfl, hc.2, rfl, h.symm⟩
  · cases h

/-- One round of the sub-parsers that returns no error either leaves the map
of attached databases as it is, or the cursor is at an attach directive and
the round sets that directive's file to its alias. -/
theorem tryParsers_round_dbs (os : Os) (argv : List String) (i : Nat) (basedir : String)
    (c c1 : Config) (i1 : Nat)
    (h : tryParsers os argv i basedir initParsers c = .ret i1 none c1) :
    c1.dbs = attachEntries (if i = i1 then [] else (attachAt os argv i basedir).toList) c.dbs := by
  cases hd : attachAt os argv i basedir with
  | some d =>
    obtain ⟨f, a, h0, h1, h2, h3, hdf⟩ := attachAt_some os argv i basedir d hd
    rw [tryParsers_attach os argv i basedir c f a h0 h1 h2 h3] at h
    simp only [Outcome.ret.injEq, true_and] at h
    obtain ⟨hi, hc⟩ := h
    have hne : ¬ i = i1 := by omega
    rw [if_neg hne, ← hc, hdf]
    rfl
  | none =>
    rcases tryParsers_dbs os argv i basedir initParsers c c1 i1 h with h0 | ⟨d, hd2, _, _⟩
    · rw [h0]; split <;> rfl
    · rw [hd] at hd2; cases hd2

theorem attachEntries_append (ds1 ds2 : List (String × String)) :
    ∀ m : GoMap, attachEntries (ds1 ++ ds2) m = attachEntries ds2 (attachEntries ds1 m) := by
  induction ds1 with
  | nil => intro m; rfl
  | cons d rest ih =>
    intro m
    obtain ⟨f, a⟩ := d
    simp only [List.cons_append, attachEntries]
    exact ih _

theorem parseLoop_dbs (os : Os) (fuel : Nat) :
    ∀ (c : Config) (pi i : Nat) (cfin : Config), c.parsers = initParsers →
      parseLoop os fuel c pi i = .ok cfin →
      cfin.dbs = attachEntries (attachTrace os fuel c pi i) c.dbs := by
  induction fuel with
  | zero => intro c pi i cfin _ h; simp [parseLoop] at h
  | succ fuel ih =>
    intro c pi i cfin hps h
    rw [parseLoop] at h
    rw [attachTrace]
    cases hp : c.allargs[pi]? with
    | none =>
      simp only [hp, ParseResult.ok.injEq] at h
      rw [← h]; rfl
    | some part =>
      simp only [hp] at h ⊢
      cases hx : tryParsers os part.argv i part.basedir c.parsers c with
      | panic => simp [hx] at h
      | ret i1 err c1 =>
        cases err with
        | some e => simp [hx] at h
        | none =>
          simp only [hx] at h ⊢
          have hext := tryParsers_extends os part.argv i part.basedir c.parsers c c1 i1 none hx
          have hps1 : c1.parsers = initParsers := by rw [hext.2.2.2.2, hps]
          have hround := tryParsers_round_dbs os part.argv i part.basedir c c1 i1
            (by rw [← hps]; exact hx)
          by_cases hi : i = i1
          · simp only [hi, beq_self_eq_true, if_true] at h ⊢
            simp only [hi, if_true, attachEntries] at hround
            split at h
            · cases h
            · rename_i hlt
              rw [if_neg hlt, ih c1 (pi + 1) 0 cfin hps1 h, hround]
          · have hb : (i == i1) = false := by simpa using hi
            simp only [hb, Bool.false_eq_true, if_false] at h ⊢
            simp only [hi, if_false] at hround
            rw [ih c1 pi i1 cfin hps1 h, hround, attachEntries_append]

theorem Parse_dbs (os : Os) (fuel : Nat) (argv : List String) (cfin : Config)
    (h : Config.Parse os fuel Config.zero argv = .ok cfin) :
    cfin.dbs = attachEntries (attachTrace os fuel (startConfig argv) 0 0) [] := by
  have := parseLoop_dbs os fuel (startConfig argv) 0 0 cfin rfl
    (by simpa [Config.Parse, Config.zero, startConfig, Config.Init] using h)
  simpa [startConfig, Config.Init, Config.zero] using this

end Musql

namespace Musql

theorem attachMap_eq_attachEntries (os : Os) (basedir : String) (ds : List (String × String)) :
    ∀ m : GoMap, attachMap os basedir ds m =
      attachEntries (ds.map (fun d => (getPath os basedir d.1, d.2))) m := by
  induction ds with
  | nil => intro m; rfl
  | cons d rest ih =>
    intro m
    obtain ⟨f, a⟩ := d
    simp only [attachMap, List.map_cons, attachEntries]
    exact ih _

theorem attachEntries_other (ds : List (String × String)) :
    ∀ (m : GoMap) (key : String), (∀ d ∈ ds, d.1 ≠ key) →
      (attachEntries ds m).lookup key = m.lookup key := by
  induction ds with
  | nil => intro m key _; rfl
  | cons d rest ih =>
    intro m key h
    obtain ⟨f, a⟩ := d
    rw [attachEntries, ih _ key (fun d hd => h d (by simp [hd])), GoMap.set_eq_mapSet,
      lookup_mapSet_other _ _ _ _ (fun e => h (f, a) (by simp) e.symm)]

theorem attachEntries_last (ds : List (String × String)) :
    ∀ (m : GoMap) (j : Nat) (f a : String), ds[j]? = some (f, a) →
      (∀ (j2 : Nat) (d : String × String), j < j2 → ds[j2]? = some d → d.1 ≠ f) →
      (attachEntries ds m).lookup f = some a := by
  induction ds with
  | nil => intro m j f a hj; simp at hj
  | cons d rest ih =>
    intro m j f a hj hlast
    obtain ⟨f0, a0⟩ := d
    cases j with
    | zero =>
      simp only [List.getElem?_cons_zero, Option.some.injEq, Prod.mk.injEq] at hj
      obtain ⟨rfl, rfl⟩ := hj
      rw [attachEntries, attachEntries_other rest _ _ ?_, GoMap.set_eq_mapSet,
        lookup_mapSet_self]
      intro d hd
      obtain ⟨n, hn⟩ := List.mem_iff_getElem?.mp hd
      exact hlast (n + 1) d (by omega) (by simpa using hn)
    | succ n =>
      simp only [List.getElem?_cons_succ] at hj
      rw [attachEntries]
      apply ih _ n f a hj
      intro j2 d hj2 hd
      exact hlast (j2 + 1) d (by omega) (by simpa using hd)

theorem attachEntries_keys (ds : List (String × String)) :
    ∀ (m : GoMap) (key : String),
      key ∈ (attachEntries ds m).map Prod.fst ↔
        key ∈ m.map Prod.fst ∨ ∃ d ∈ ds, d.1 = key := by
  induction ds with
  | nil => intro m key; simp [attachEntries]
  | cons d rest ih =>
    intro m key
    obtain ⟨f, a⟩ := d
    rw [attachEntries, ih, GoMap.set_eq_mapSet, mem_keys_mapSet]
    simp only [List.mem_cons, exists_eq_or_imp]
    constructor
    · rintro ((h | h) | h)
      · exact Or.inr (Or.inl h.symm)
      · exact Or.inl h
      · exact Or.inr (Or.inr h)
    · rintro (h | h | h)
      · exact Or.inl (Or.inr h)
      · exact Or.inl (Or.inl h.symm)
      · exact Or.inr h

theorem attachEntries_nodup (ds : List (String × String)) :
    ∀ m : GoMap, (m.map Prod.fst).Nodup → ((attachEntries ds m).map Prod.fst).Nodup := by
  induction ds with
  | nil => intro m h; exact h
  | cons d rest ih =>
    intro m h
    obtain ⟨f, a⟩ := d
    rw [attachEntries]
    apply ih
    rw [GoMap.set_eq_mapSet]
    exact nodup_keys_mapSet m _ _ h

/-- C14, as the code behaves: the attach entries are a map from the resolved
file name to the alias, not a list. (1) After a successful parse of any token
list the map is what results from setting, for each directive
`attach <file> as <alias>` that the parse loop comes to (in any part, among
directives of any other kind), the file resolved against the base directory of
its part to the alias, in directive order. (2) In every round of the
sub-parsers that returns no error, the map is changed by an attach directive
at the cursor and by nothing else. (3) Such a map has one entry per distinct
resolved file name, the names being exactly those of the directives, each
with the alias of the last directive that names the file. (4) The executor
attaches every entry once, with the statement `attach '<file>' as <alias>`, in
the order in which the range over the map yields them (`order`), which Go
leaves open. (5) A token list made of attach directives alone is parsed
successfully, and the map is that of its directives. -/
theorem Parse_attach_keeps_one_alias_per_file :
    (∀ (os : Os) (fuel : Nat) (argv : List String) (cfin : Config),
        Config.Parse os fuel Config.zero argv = .ok cfin →
        cfin.dbs = attachEntries (attachTrace os fuel (startConfig argv) 0 0) []) ∧
    (∀ (os : Os) (argv : List String) (i : Nat) (basedir : String) (c c1 : Config) (i1 : Nat),
        tryParsers os argv i basedir initParsers c = .ret i1 none c1 →
        c1.dbs =
          attachEntries (if i = i1 then [] else (attachAt os argv i basedir).toList) c.dbs) ∧
    (∀ ds : List (String × String),
        ((attachEntries ds []).map Prod.fst).Nodup ∧
        (∀ key : String, key ∈ (attachEntries ds []).map Prod.fst ↔ ∃ d ∈ ds, d.1 = key) ∧
        (∀ (j : Nat) (f a : String), ds[j]? = some (f, a) →
          (∀ (j2 : Nat) (d : String × String), j < j2 → ds[j2]? = some d → d.1 ≠ f) →
          (attachEntries ds []).lookup f = some a)) ∧
    (∀ {σ : Type} (eng : SqlEngine σ) (ds order : List (String × String)) (db : σ),
        order.Perm (attachEntries ds []) → (applyAttach eng order db []).1 = none →
        (applyAttach eng order db []).2.2 = order.map (fun d => attachStatement d.1 d.2)) ∧
    (∀ (os : Os) (ds : List (String × String)) (fuel : Nat), ds.length + 2 ≤ fuel →
        Config.Parse os fuel Config.zero (attachTokens ds) =
          .ok { startConfig (attachTokens ds) with
                dbs := attachEntries (ds.map (fun d => (getPath os "." d.1, d.2))) [] }) := by
  refine ⟨Parse_dbs, tryParsers_round_dbs, ?_, ?_, ?_⟩
  · intro ds
    refine ⟨attachEntries_nodup ds [] (by simp), ?_,
      fun j f a hj hl => attachEntries_last ds [] j f a hj hl⟩
    intro key
    simpa using attachEntries_keys ds [] key
  · intro σ eng ds order db _ h
    simpa using applyAttach_issued eng order db [] h
  · intro os ds fuel hf
    rw [← attachMap_eq_attachEntries]
    exact Parse_attach os ds fuel hf

/-- Witness of `Parse_attach_keeps_one_alias_per_file`: the directives
`insert a.csv into t`, `attach f as a`, `set k v`, `attach f as b` and
`attach g as c` are parsed successfully; the loop comes to the three attach
directives in this order, and the map holds `f` with the alias `b` and `g`
with the alias `c`. -/
theorem Parse_attach_keeps_one_alias_per_file_witness :
    Config.Parse exampleOs 8 Config.zero mixedTokens =
        .ok { startConfig mixedTokens with
              tabinfos := [exampleTabinfo], params := [("k", "v")],
              dbs := [("f", "b"), ("g", "c")] } ∧
      attachTrace exampleOs 8 (startConfig mixedTokens) 0 0 =
        [("f", "a"), ("f", "b"), ("g", "c")] ∧
      ({ startConfig mixedTokens with
          tabinfos := [exampleTabinfo], params := [("k", "v")],
          dbs := [("f", "b"), ("g", "c")] } : Config).dbs =
        attachEntries (attachTrace exampleOs 8 (startConfig mixedTokens) 0 0) [] :=
  ⟨by decide, by decide,
    Parse_attach_keeps_one_alias_per_file.1 exampleOs 8 mixedTokens _ (by decide)⟩

end Musql

namespace Musql

/-! ## The order of strings and `sort.Strings` -/

theorem charsLt_trans (a : List Char) :
    ∀ b c : List Char, charsLt a b = true → charsLt b c = true → charsLt a c = true := by
  induction a with
  | nil =>
    intro b c h1 h2
    cases c with
    | nil => cases b <;> simp [charsLt] at h2
    | cons z cs => rfl
  | cons x as ih =>
    intro b c h1 h2
    cases b with
    | nil => simp [charsLt] at h1
    | cons y bs =>
      cases c with
      | nil => simp [charsLt] at h2
      | cons z cs =>
        simp only [charsLt] at h1 h2 ⊢
        by_cases hxy : x.toNat < y.toNat
        · by_cases hyz : y.toNat < z.toNat
          · have : x.toNat < z.toNat := by omega
            simp [this]
          · by_cases hzy : z.toNat < y.toNat
            · simp [hyz, hzy] at h2
            · have : x.toNat < z.toNat := by omega
              simp [this]
        · by_cases hyx : y.toNat < x.toNat
          · simp [hxy, hyx] at h1
          · simp only [hxy, hyx, if_false] at h1
            by_cases hyz : y.toNat < z.toNat
            · have : x.toNat < z.toNat := by omega
              simp [this]
            · by_cases hzy : z.toNat < y.toNat
              · simp [hyz, hzy] at h2
              · simp only [hyz, hzy, if_false] at h2
                have e1 : ¬ x.toNat < z.toNat := by omega
                have e2 : ¬ z.toNat < x.toNat := by omega
                simp only [e1, e2, if_false]
                exact ih bs cs h1 h2

theorem charToNat_inj (x y : Char) (h : x.toNat = y.toNat) : x = y := by
  apply Char.ext
  apply UInt32.ext
  exact h

theorem charsLt_total (a : List Char) :
    ∀ b : List Char, charsLt a b = false → charsLt b a = false → a = b := by
  induction a with
  | nil =>
    intro b h1 _
    cases b with
    | nil => rfl
    | cons y bs => simp [charsLt] at h1
  | cons x as ih =>
    intro b h1 h2
    cases b with
    | nil => simp [charsLt] at h2
    | cons y bs =>
      simp only [charsLt] at h1 h2
      by_cases hxy : x.toNat < y.toNat
      · simp [hxy] at h1
      · by_cases hyx : y.toNat < x.toNat
        · simp [hyx] at h2
        · simp only [hxy, hyx, if_false] at h1 h2
          have hx : x = y := charToNat_inj x y (by omega)
          rw [hx, ih bs h1 h2]

theorem stringLt_trans (a b c : String) (h1 : stringLt a b = true) (h2 : stringLt b c = true) :
    stringLt a c = true :=
  charsLt_trans a.data b.data c.data h1 h2

theorem stringLt_total (a b : String) (h1 : stringLt a b = false) (h2 : stringLt b a = false) :
    a = b := by
  have := charsLt_total a.data b.data h1 h2
  cases a; cases b; simp only at this; rw [this]

theorem mem_insertString (a x : String) (l : List String) :
    x ∈ insertString a l ↔ x = a ∨ x ∈ l := by
  induction l with
  | nil => simp [insertString]
  | cons b rest ih =>
    rw [insertString]
    split
    · simp only [List.mem_cons, ih]
      constructor
      · rintro (h | h | h)
        · exact Or.inr (Or.inl h)
        · exact Or.inl h
        · exact Or.inr (Or.inr h)
      · rintro (h | h | h)
        · exact Or.inr (Or.inl h)
        · exact Or.inl h
        · exact Or.inr (Or.inr h)
    · simp

theorem mem_sortStrings (x : String) (l : List String) : x ∈ sortStrings l ↔ x ∈ l := by
  induction l with
  | nil => simp [sortStrings]
  | cons a rest ih => simp [sortStrings, mem_insertString, ih]

theorem insertString_increasing (a : String) (l : List String)
    (hl : l.Pairwise (fun x y => stringLt x y = true)) (ha : a ∉ l) :
    (insertString a l).Pairwise (fun x y => stringLt x y = true) := by
  induction l with
  | nil => simp [insertString]
  | cons b rest ih =>
    have hb := List.pairwise_cons.mp hl
    have hab : a ≠ b := fun e => ha (by simp [e])
    have har : a ∉ rest := fun e => ha (by simp [e])
    rw [insertString]
    by_cases hlt : stringLt b a = true
    · simp only [hlt, if_true]
      refine List.pairwise_cons.mpr ⟨?_, ih hb.2 har⟩
      intro y hy
      rcases (mem_insertString a y rest).mp hy with h | h
      · rw [h]; exact hlt
      · exact hb.1 y h
    · have hlt2 : stringLt b a = false := by simpa using hlt
      simp only [hlt, if_false]
      have hab2 : stringLt a b = true := by
        cases h : stringLt a b with
        | true => rfl
        | false => exact absurd (stringLt_total a b h hlt2) hab
      refine List.pairwise_cons.mpr ⟨?_, hl⟩
      intro y hy
      rcases List.mem_cons.mp hy with h | h
      · rw [h]; exact hab2
      · exact stringLt_trans a b y hab2 (hb.1 y h)

theorem sortStrings_increasing (l : List String) (hl : l.Nodup) :
    (sortStrings l).Pairwise (fun x y => stringLt x y = true) := by
  induction l with
  | nil => simp [sortStrings]
  | cons a rest ih =>
    have h := List.nodup_cons.mp hl
    rw [sortStrings]
    exact insertString_increasing a _ (ih h.2) (fun e => h.1 ((mem_sortStrings a rest).mp e))

end Musql

namespace Musql

/-! ## Flattening: both maps of a row have the same names -/

theorem keys_mapSet_congr {β γ : Type} (m1 : List (String × β)) :
    ∀ (m2 : List (String × γ)) (k : String) (v1 : β) (v2 : γ),
      m1.map Prod.fst = m2.map Prod.fst →
      (mapSet m1 k v1).map Prod.fst = (mapSet m2 k v2).map Prod.fst := by
  induction m1 with
  | nil =>
    intro m2 k v1 v2 h
    cases m2 with
    | nil => rfl
    | cons p rest => simp at h
  | cons p rest ih =>
    intro m2 k v1 v2 h
    cases m2 with
    | nil => simp at h
    | cons q rest2 =>
      obtain ⟨k1, w1⟩ := p
      obtain ⟨k2, w2⟩ := q
      simp only [List.map_cons, List.cons.injEq] at h
      obtain ⟨hk, hrest⟩ := h
      subst hk
      simp only [mapSet]
      by_cases hkk : k1 = k
      · simp [hkk, hrest]
      · simp only [beq_iff_eq, hkk, if_false, List.map_cons, ih rest2 k v1 v2 hrest]

theorem flattenAttrs_keys (pfx : String) (attrs : List (String × String)) :
    ∀ (h : Header) (d : TreeRow), h.map Prod.fst = d.map Prod.fst →
      (flattenAttrs pfx attrs h d).1.map Prod.fst = (flattenAttrs pfx attrs h d).2.map Prod.fst := by
  induction attrs with
  | nil => intro h d hk; exact hk
  | cons a rest ih =>
    intro h d hk
    obtain ⟨name, value⟩ := a
    rw [flattenAttrs]
    exact ih _ _ (keys_mapSet_congr h d _ _ _ hk)

mutual
theorem recFlattenNode_keys :
    ∀ (node : XNode) (pfx : String) (h : Header) (d : TreeRow) (u : String) (h1 : Header)
      (d1 : TreeRow), h.map Prod.fst = d.map Prod.fst →
      recFlattenNode pfx node h d u = .ok (h1, d1) → h1.map Prod.fst = d1.map Prod.fst
  | .element name attrs children, pfx, h, d, u, h1, d1, hk, hr => by
    rw [recFlattenNode] at hr
    exact recFlattenChildren_keys children _ _ _ _ h1 d1 (flattenAttrs_keys _ attrs h d hk) hr
  | .text _, pfx, h, d, u, h1, d1, hk, hr => by
    simp only [recFlattenNode, Except.ok.injEq, Prod.mk.injEq] at hr
    rw [← hr.1, ← hr.2]; exact hk
  | .attribute _ _, pfx, h, d, u, h1, d1, hk, hr => by
    simp only [recFlattenNode, Except.ok.injEq, Prod.mk.injEq] at hr
    rw [← hr.1, ← hr.2]; exact hk
  | .other _, pfx, h, d, u, h1, d1, hk, hr => by
    simp only [recFlattenNode, Except.ok.injEq, Prod.mk.injEq] at hr
    rw [← hr.1, ← hr.2]; exact hk
theorem recFlattenChildren_keys :
    ∀ (children : List XNode) (pfx nodeData : String) (h : Header) (d : TreeRow) (h1 : Header)
      (d1 : TreeRow), h.map Prod.fst = d.map Prod.fst →
      recFlattenChildren pfx nodeData children h d = .ok (h1, d1) →
      h1.map Prod.fst = d1.map Prod.fst
  | [], pfx, nodeData, h, d, h1, d1, hk, hr => by
    simp only [recFlattenChildren, Except.ok.injEq, Prod.mk.injEq] at hr
    rw [← hr.1, ← hr.2]; exact hk
  | .text value :: rest, pfx, nodeData, h, d, h1, d1, hk, hr => by
    rw [recFlattenChildren] at hr
    split at hr
    · cases hr
    · exact recFlattenChildren_keys rest pfx nodeData _ _ h1 d1
        (keys_mapSet_congr h d _ _ _ hk) hr
  | .element name attrs children :: rest, pfx, nodeData, h, d, h1, d1, hk, hr => by
    rw [recFlattenChildren] at hr
    cases hx : recFlattenNode (pfx ++ name) (.element name attrs children) h d "" with
    | error e => simp [hx] at hr
    | ok r =>
      obtain ⟨h2, d2⟩ := r
      simp only [hx] at hr
      exact recFlattenChildren_keys rest pfx nodeData h2 d2 h1 d1
        (recFlattenNode_keys (.element name attrs children) _ h d "" h2 d2 hk hx) hr
  | .attribute _ _ :: rest, pfx, nodeData, h, d, h1, d1, hk, hr => by
    rw [recFlattenChildren] at hr
    exact recFlattenChildren_keys rest pfx nodeData h d h1 d1 hk hr
  | .other _ :: rest, pfx, nodeData, h, d, h1, d1, hk, hr => by
    rw [recFlattenChildren] at hr
    exact recFlattenChildren_keys rest pfx nodeData h d h1 d1 hk hr
end

end Musql
namespace Musql

/-! ## `readTreeFile`: the header -/

theorem lookup_isSome_iff {β : Type} (m : List (String × β)) (k : String) :
    (m.lookup k).isSome = true ↔ k ∈ m.map Prod.fst := by
  induction m with
  | nil => simp [List.lookup]
  | cons p rest ih =>
    obtain ⟨k1, v1⟩ := p
    simp only [List.lookup, List.map_cons, List.mem_cons]
    by_cases h : k = k1
    · simp [h]
    · have h2 : (k == k1) = false := by rw [beq_eq_false_iff_ne]; exact h
      simp [h2, h, ih]

theorem mergemap_keys (src : Header) :
    ∀ (dest : Header) (key : String),
      key ∈ (mergemap dest src).map Prod.fst ↔
        key ∈ dest.map Prod.fst ∨ key ∈ src.map Prod.fst := by
  induction src with
  | nil => intro dest key; simp [mergemap]
  | cons p rest ih =>
    intro dest key
    obtain ⟨k, n⟩ := p
    rw [mergemap, ih]
    by_cases hk : (dest.lookup k).isSome = true
    · have hm := (lookup_isSome_iff dest k).mp hk
      simp only [hk, if_true, List.map_cons, List.mem_cons]
      constructor
      · rintro (h | h)
        · exact Or.inl h
        · exact Or.inr (Or.inr h)
      · rintro (h | h | h)
        · exact Or.inl h
        · exact Or.inl (h ▸ hm)
        · exact Or.inr h
    · simp only [hk, Bool.false_eq_true, if_false, mem_keys_mapSet, List.map_cons, List.mem_cons]
      constructor
      · rintro ((h | h) | h)
        · exact Or.inr (Or.inl h)
        · exact Or.inl h
        · exact Or.inr (Or.inr h)
      · rintro (h | h | h)
        · exact Or.inl (Or.inr h)
        · exact Or.inl (Or.inl h)
        · exact Or.inr h

theorem mergemap_nodup (src : Header) :
    ∀ dest : Header, (dest.map Prod.fst).Nodup → ((mergemap dest src).map Prod.fst).Nodup := by
  induction src with
  | nil => intro dest h; exact h
  | cons p rest ih =>
    intro dest h
    obtain ⟨k, n⟩ := p
    rw [mergemap]
    apply ih
    split
    · exact h
    · exact nodup_keys_mapSet dest k _ h

theorem selectCurrent_keys (xsel : Select) (curr : XNode) (h : Header) (d : TreeRow)
    (h1 : Header) (d1 : TreeRow) (hk : h.map Prod.fst = d.map Prod.fst)
    (hr : selectCurrent xsel curr h d = .ok (h1, d1)) : h1.map Prod.fst = d1.map Prod.fst := by
  rcases curr with ⟨name, attrs, children⟩ | v | ⟨name, value⟩ | v
  · exact recFlattenNode_keys _ _ h d _ h1 d1 hk hr
  · exact recFlattenNode_keys _ _ h d _ h1 d1 hk hr
  · simp only [selectCurrent, Except.ok.injEq, Prod.mk.injEq] at hr
    rw [← hr.1, ← hr.2]
    exact keys_mapSet_congr h d _ _ _ hk
  · exact recFlattenNode_keys _ _ h d _ h1 d1 hk hr

theorem selectFields_keys {α : Type} (env : TreeEnv α) (node : XNode) (xselects : List Select) :
    ∀ (h : Header) (d : TreeRow) (h1 : Header) (d1 : TreeRow),
      h.map Prod.fst = d.map Prod.fst → selectFields env node xselects h d = .ok (h1, d1) →
      h1.map Prod.fst = d1.map Prod.fst := by
  induction xselects with
  | nil =>
    intro h d h1 d1 hk hr
    simp only [selectFields, Except.ok.injEq, Prod.mk.injEq] at hr
    rw [← hr.1, ← hr.2]; exact hk
  | cons xsel rest ih =>
    intro h d h1 d1 hk hr
    rw [selectFields] at hr
    split at hr
    · cases hr
    · split at hr
      · split at hr
        · cases hr
        · exact ih h d h1 d1 hk hr
      · rename_i curr more _
        cases hx : selectCurrent xsel curr h d with
        | error e => simp [hx] at hr
        | ok r =>
          obtain ⟨h2, d2⟩ := r
          simp only [hx] at hr
          split at hr
          · cases hr
          · exact ih h2 d2 h1 d1 (selectCurrent_keys xsel curr h d h2 d2 hk hx) hr

theorem readRows_header {α : Type} (env : TreeEnv α) (xselects : List Select)
    (nodes : List XNode) :
    ∀ (mh : Header) (data : List TreeRow) (mh1 : Header) (data1 : List TreeRow),
      (mh.map Prod.fst).Nodup →
      (∀ key : String, key ∈ mh.map Prod.fst ↔ ∃ d ∈ data, key ∈ d.map Prod.fst) →
      readRows env xselects nodes mh data = .ok (mh1, data1) →
      (mh1.map Prod.fst).Nodup ∧
        ∀ key : String, key ∈ mh1.map Prod.fst ↔ ∃ d ∈ data1, key ∈ d.map Prod.fst := by
  induction nodes with
  | nil =>
    intro mh data mh1 data1 hn hk hr
    simp only [readRows, Except.ok.injEq, Prod.mk.injEq] at hr
    rw [← hr.1, ← hr.2]; exact ⟨hn, hk⟩
  | cons node rest ih =>
    intro mh data mh1 data1 hn hk hr
    rw [readRows] at hr
    cases hx : selectFields env node
        (if xselects.length == 0 then [{ Path := ".", Name := "" }] else xselects) [] [] with
    | error e => rw [hx] at hr; cases hr
    | ok r =>
      obtain ⟨nheader, d⟩ := r
      rw [hx] at hr
      have hkeys := selectFields_keys env node _ [] [] nheader d rfl hx
      refine ih (mergemap mh nheader) (data ++ [d]) mh1 data1 (mergemap_nodup nheader mh hn) ?_ hr
      intro key
      rw [mergemap_keys, hk, hkeys]
      simp only [List.mem_append, List.mem_singleton]
      constructor
      · rintro (⟨d0, hd0, hkey⟩ | h)
        · exact ⟨d0, Or.inl hd0, hkey⟩
        · exact ⟨d, Or.inr rfl, h⟩
      · rintro ⟨d0, hd0 | hd0, hkey⟩
        · exact Or.inl ⟨d0, hd0, hkey⟩
        · rw [hd0] at hkey; exact Or.inr hkey

end Musql

namespace Musql

/-! ## Tree ingest: the columns of the target table -/

theorem update_cons (k : String) (v : Table) (rest : Tables) (name : String) (t0 : Table) :
    Tables.update ((k, v) :: rest) name t0 =
      (k, if k == name then t0 else v) :: Tables.update rest name t0 := by
  unfold Tables.update
  by_cases h : k = name
  · simp [h]
  · simp [h]

theorem lookup_update (ts : Tables) (name : String) (t0 : Table) (T : String) :
    (Tables.update ts name t0).lookup T =
      if T = name then (ts.lookup T).map (fun _ => t0) else ts.lookup T := by
  induction ts with
  | nil => simp [Tables.update, List.lookup]
  | cons p rest ih =>
    obtain ⟨k, v⟩ := p
    rw [update_cons]
    simp only [List.lookup]
    cases hTk : T == k with
    | true =>
      have e : T = k := by simpa using hTk
      subst e
      simp only []
      by_cases hT : T = name
      · simp [hT]
      · have : (T == name) = false := by rw [beq_eq_false_iff_ne]; exact hT
        simp [hT, this]
    | false => simp only []; exact ih

theorem execInsert_cols (db db1 : Store) (ins : Stmt) (row : List String) (T : String)
    (H : List String) (hp : PendingCols db T H) (h : db.execInsert ins row = .ok db1) :
    PendingCols db1 T H := by
  obtain ⟨ts, t, hpend, hl, hc⟩ := hp
  unfold Store.execInsert at h
  split at h
  · rw [hpend] at h
    simp only at h
    cases hl2 : ts.lookup ins.table with
    | none => rw [hl2] at h; cases h
    | some t2 =>
      rw [hl2] at h
      simp only [Except.ok.injEq] at h
      rw [← h]
      by_cases hT : T = ins.table
      · refine ⟨_, { t2 with rows := t2.rows ++ [row] }, rfl, ?_, ?_⟩
        · rw [lookup_update, if_pos hT, hT, hl2]; rfl
        · rw [hT, hl2] at hl
          simp only [Option.some.injEq] at hl
          rw [← hc, ← hl]
      · refine ⟨_, t, rfl, ?_, hc⟩
        rw [lookup_update, if_neg hT, hl]
  · cases h

theorem insertTreeRows_cols (insert : Stmt) (header : List String) (T : String) (H : List String)
    (data : List TreeRow) :
    ∀ db : Store, PendingCols db T H → PendingCols (insertTreeRows insert header data db).2 T H := by
  induction data with
  | nil => intro db hp; exact hp
  | cons d rest ih =>
    intro db hp
    rw [insertTreeRows]
    cases hx : db.execInsert insert (header.map d.get) with
    | error e => exact hp
    | ok db1 => exact ih db1 (execInsert_cols db db1 insert _ T H hp hx)

theorem addTreeFileToTable_cols (rd : TreeReader) (db : Store) (info : FileInfo) (insert : Stmt)
    (header : List String) (xp : String) (xs : List Select) (kind : String) (T : String)
    (H : List String) (hp : PendingCols db T H) :
    PendingCols (addTreeFileToTable rd db info insert header xp xs kind).2 T H := by
  unfold addTreeFileToTable
  cases hr : rd info xp xs kind with
  | error e => exact hp
  | ok r =>
    obtain ⟨nheader, data⟩ := r
    simp only
    cases hv : verifyHeader header nheader with
    | some e => exact hp
    | none => exact insertTreeRows_cols insert header T H data db hp

theorem addTreeFiles_cols (rd : TreeReader) (insert : Stmt) (header : List String) (xp : String)
    (xs : List Select) (kind : String) (T : String) (H : List String) (files : List FileInfo) :
    ∀ db : Store, PendingCols db T H →
      PendingCols (addTreeFiles rd insert header xp xs kind files db).2 T H := by
  induction files with
  | nil => intro db hp; exact hp
  | cons f rest ih =>
    intro db hp
    rw [addTreeFiles]
    have h1 := addTreeFileToTable_cols rd db f insert header xp xs kind T H hp
    cases hx : addTreeFileToTable rd db f insert header xp xs kind with
    | mk err db1 =>
      rw [hx] at h1
      cases err with
      | some e => exact h1
      | none => exact ih db1 h1

theorem ensureTable_ok_columns (db db1 : Store) (T : String) (H : List String)
    (h : ensureTable db T H = (none, db1)) :
    ∃ t, db1.tables.lookup T = some t ∧ t.columns = H := by
  unfold ensureTable at h
  split at h
  · cases h
  · cases hl : db.tables.lookup T with
    | none =>
      cases hR : repeatedColumn H [] with
      | some col =>
        simp [haveTable, Store.query, hl, createTable, Store.execCreate, hR] at h
      | none =>
        simp only [haveTable, Store.query, hl, createTable, Store.execCreate, hR, reduceCtorEq,
          if_false, Prod.mk.injEq, true_and] at h
        rw [← h]
        exact ⟨_, lookup_append_new db.tables T _ hl, rfl⟩
    | some t =>
      cases hv : verifyHeader t.columns H with
      | some e =>
        simp only [haveTable, Store.query, hl, Store.rowsColumns, hv, reduceCtorEq, if_false,
          if_true, dropTable, Store.execDrop, Prod.mk.injEq, false_and] at h
      | none =>
        simp only [haveTable, Store.query, hl, Store.rowsColumns, hv, if_true,
          deleteAllFromTable, Store.execDelete, Prod.mk.injEq, true_and] at h
        rw [← h]
        refine ⟨{ t with rows := [] }, ?_, (verifyHeader_none_iff _ _).mp hv⟩
        simp only
        rw [lookup_update, if_pos rfl, hl]; rfl

theorem AddFromTreeFile_ok_columns (rd : TreeReader) (db db1 : Store) (T : String)
    (path0 : FileInfo) (rest : List FileInfo) (xp : String) (xs : List Select) (kind : String)
    (header : List String) (data : List TreeRow)
    (hr : rd path0 xp xs kind = .ok (header, data))
    (h : AddFromTreeFile rd db T (path0 :: rest) xp xs kind = some (none, db1)) :
    ∃ t, db1.tables.lookup T = some t ∧ t.columns = header := by
  unfold AddFromTreeFile at h
  simp only [hr] at h
  cases he : ensureTable db T header with
  | mk err dbe =>
    rw [he] at h
    cases err with
    | some e => simp at h
    | none =>
      obtain ⟨t, ht, hc⟩ := ensureTable_ok_columns db dbe T header he
      simp only [Store.begin] at h
      cases hm : makeInsert { dbe with pending := some dbe.tables } T header with
      | error e => rw [hm] at h; simp at h
      | ok insert =>
        rw [hm] at h
        simp only [Option.some.injEq, Prod.mk.injEq] at h
        have hp : PendingCols { dbe with pending := some dbe.tables } T header :=
          ⟨dbe.tables, t, rfl, ht, hc⟩
        obtain ⟨ts, t2, hpend, hl2, hc2⟩ :=
          addTreeFiles_cols rd insert header xp xs kind T header (path0 :: rest) _ hp
        rw [← h.2]
        refine ⟨t2, ?_, hc2⟩
        simp only [Store.commit, hpend]
        exact hl2

end Musql

namespace Musql

/-! ## C12: the header of a tree file -/

/-- C12: when `readTreeFile` succeeds, the header it returns is strictly
increasing in lexicographic order (so it is sorted and has no duplicates), a
name is in the header exactly when it is a field of at least one returned row,
and every successful ingest that starts with this file leaves a target table
whose column list is this header. -/
theorem readTreeFile_header_sorted_union_and_table_columns {α : Type} (fs : FileSys α)
    (env : TreeEnv α) (path : FileInfo) (xpathstr : String) (xselects : List Select)
    (kind : String) (header : List String) (data : List TreeRow)
    (h : readTreeFile fs env path xpathstr xselects kind = .ok (header, data)) :
    header.Pairwise (fun a b => stringLt a b = true) ∧
    (∀ name : String, name ∈ header ↔ ∃ d ∈ data, name ∈ d.map Prod.fst) ∧
    (∀ (db db1 : Store) (tablename : String) (rest : List FileInfo),
      AddFromTreeFile (readTreeFile fs env) db tablename (path :: rest) xpathstr xselects kind =
          some (none, db1) →
        ∃ t, db1.tables.lookup tablename = some t ∧ t.columns = header) := by
  have h0 := h
  unfold readTreeFile at h
  cases ho : opencontainer fs path with
  | error e => rw [ho] at h; cases h
  | ok f =>
    rw [ho] at h
    simp only at h
    cases hp : (if kind == "xml" then env.parseXml f else env.parseJson f) with
    | error e => rw [hp] at h; cases h
    | ok docnode =>
      rw [hp] at h
      simp only at h
      cases hc : env.xpathCompile xpathstr with
      | error e => rw [hc] at h; cases h
      | ok rexp =>
        rw [hc] at h
        simp only at h
        cases hr : readRows env xselects (rexp docnode) [] [] with
        | error e => rw [hr] at h; cases h
        | ok r =>
          obtain ⟨mheader, rows⟩ := r
          rw [hr] at h
          simp only [Except.ok.injEq, Prod.mk.injEq] at h
          obtain ⟨hh, hd⟩ := h
          obtain ⟨hn, hk⟩ := readRows_header env xselects (rexp docnode) [] [] mheader rows
            List.nodup_nil (by intro key; simp) hr
          refine ⟨?_, ?_, ?_⟩
          · rw [← hh]; exact sortStrings_increasing _ hn
          · intro name
            rw [← hh, ← hd, mem_sortStrings]
            exact hk name
          · intro db db1 tablename rest hi
            exact AddFromTreeFile_ok_columns (readTreeFile fs env) db db1 tablename path rest
              xpathstr xselects kind header data h0 hi

/-- The two `item` rows of `items.xml` give the header `id`, `kind`, `name`,
`price`, and the ingest into an empty store creates `t` with these columns. -/
theorem readTreeFile_header_sorted_union_and_table_columns_witness :
    readTreeFile exampleTreeFs exampleTreeEnv itemsFile "/items/item" [] "xml" =
        .ok (["id", "kind", "name", "price"],
          [[("kind", "a"), ("id", "1"), ("name", "x")], [("id", "2"), ("price", "3")]]) ∧
      AddFromTreeFile (readTreeFile exampleTreeFs exampleTreeEnv) emptyStore "t" [itemsFile]
          "/items/item" [] "xml" =
        some (none, { tables := [("t", Table.mk ["id", "kind", "name", "price"]
          [["1", "a", "x", ""], ["2", "", "", "3"]])], pending := none }) ∧
      ["id", "kind", "name", "price"].Pairwise (fun a b => stringLt a b = true) ∧
      (∀ name : String, name ∈ ["id", "kind", "name", "price"] ↔
        ∃ d ∈ [[("kind", "a"), ("id", "1"), ("name", "x")], [("id", "2"), ("price", "3")]],
          name ∈ d.map Prod.fst) ∧
      ∃ t, (Store.mk [("t", Table.mk ["id", "kind", "name", "price"]
          [["1", "a", "x", ""], ["2", "", "", "3"]])] none).tables.lookup "t" = some t ∧
        t.columns = ["id", "kind", "name", "price"] :=
  ⟨rfl, by decide,
    (readTreeFile_header_sorted_union_and_table_columns exampleTreeFs exampleTreeEnv itemsFile
      "/items/item" [] "xml" _ _ rfl).1,
    (readTreeFile_header_sorted_union_and_table_columns exampleTreeFs exampleTreeEnv itemsFile
      "/items/item" [] "xml" _ _ rfl).2.1,
    (readTreeFile_header_sorted_union_and_table_columns exampleTreeFs exampleTreeEnv itemsFile
      "/items/item" [] "xml" _ _ rfl).2.2 emptyStore _ "t" [] (by decide)⟩

end Musql

namespace Musql

/-! ## C13: the fields of a flattened node -/

/-- C13: on the row `<r><c id="1"/><c id="2"/></r>` the flattening with the
empty prefix succeeds and produces the single field `c/id`, which holds `2`:
the attribute `id="1"` of the first `c` is reached by the path `c`, but its
value is held by no field, because an attribute is stored without the test
for an existing name. The same row with texts instead of attributes,
`<r><c>1</c><c>2</c></r>`, is refused as a duplicate entry. -/
theorem recFlattenNode_repeated_attribute_is_overwritten :
    recFlattenNode "" repeatedAttrRow [] [] "" = .ok ([("c/id", 1)], [("c/id", "2")]) ∧
      (∀ name : String, TreeRow.get [("c/id", "2")] name ≠ "1") ∧
      recFlattenNode "" repeatedTextRow [] [] "" = .error "duplicate entry c (c/)" := by
  refine ⟨rfl, ?_, rfl⟩
  intro name
  unfold TreeRow.get
  simp only [List.lookup]
  cases name == "c/id" <;> decide

end Musql

namespace Musql

/-! ## The transaction of an ingest: what is in the table at every return -/

theorem execInsert_inTransaction (db : Store) (C W : Tables) (T : String) (H : List String)
    (acc : List (List String)) (row : List String) (hw : InTransaction db C W T H acc)
    (hl : row.length = H.length) :
    ∃ db1, db.execInsert { table := T, arity := H.length } row = .ok db1 ∧
      InTransaction db1 C W T H (acc ++ [row]) := by
  obtain ⟨hc, w, hp, hT, ho⟩ := hw
  refine ⟨{ db with pending := some (Tables.update w T { columns := H, rows := acc ++ [row] }) },
    ?_, hc, _, rfl, ?_, ?_⟩
  · simp [Store.execInsert, hl, hp, hT]
  · rw [lookup_update, if_pos rfl, hT]; rfl
  · intro name hn
    rw [lookup_update, if_neg hn]
    exact ho name hn

theorem execInsert_wrong_length (db : Store) (T : String) (n : Nat) (row : List String)
    (hl : row.length ≠ n) :
    ∃ e, db.execInsert { table := T, arity := n } row = .error e := by
  simp [Store.execInsert, hl]

theorem insertLoop_inserted (path : String) (C W : Tables) (T : String) (H : List String)
    (hH : H.length ≠ 0) (recs : List (List String)) :
    ∀ (fields : Nat) (acc : List (List String)) (db : Store),
      fields = 0 ∨ fields = H.length → InTransaction db C W T H acc →
      InTransaction (insertLoop path { table := T, arity := H.length } recs fields db).2 C W T H
          (acc ++ (recordsInserted H recs).1) ∧
        ((insertLoop path { table := T, arity := H.length } recs fields db).1 = none ↔
          (recordsInserted H recs).2 = true) := by
  induction recs with
  | nil =>
    intro fields acc db _ hw
    simpa [insertLoop, recordsInserted] using hw
  | cons row more ih =>
    intro fields acc db hf hw
    by_cases hl : row.length = H.length
    · obtain ⟨db1, he, hw1⟩ := execInsert_inTransaction db C W T H acc row hw hl
      have hread : csvRead (row :: more) fields = (.record row, more, H.length) := by
        rcases hf with h0 | h0
        · simp [csvRead, h0, hl]
        · simp [csvRead, h0, hl, hH]
      have := ih H.length (acc ++ [row]) db1 (Or.inr rfl) hw1
      rw [insertLoop, hread]
      simp only [he, recordsInserted, hl, if_true]
      simpa using this
    · have hres : insertLoop path { table := T, arity := H.length } (row :: more) fields db =
          ((insertLoop path { table := T, arity := H.length } (row :: more) fields db).1, db) ∧
          (insertLoop path { table := T, arity := H.length } (row :: more) fields db).1 ≠
            none := by
        rcases hf with h0 | h0
        · obtain ⟨e, he⟩ := execInsert_wrong_length db T H.length row hl
          have hread : csvRead (row :: more) fields = (.record row, more, row.length) := by
            simp [csvRead, h0]
          rw [insertLoop, hread]
          simp [he]
        · have hread : csvRead (row :: more) fields =
              (.fail "wrong number of fields", more, fields) := by
            simp [csvRead, h0, hl, hH]
          rw [insertLoop, hread]
          simp
      rw [hres.1]
      simp only [recordsInserted, hl, if_false, List.append_nil]
      exact ⟨hw, by simpa using hres.2⟩

theorem addCsvFileToTable_inserted {α : Type} (fs : FileSys α) (C W : Tables) (T : String)
    (H : List String) (hH : H.length ≠ 0) (sep : Char) (csvheader : Bool) (f : FileInfo)
    (acc : List (List String)) (db : Store) (hw : InTransaction db C W T H acc) :
    InTransaction
        (addCsvFileToTable fs db f { table := T, arity := H.length } H sep csvheader).2 C W T H
        (acc ++ (fileInserted fs sep csvheader H f).1) ∧
      ((addCsvFileToTable fs db f { table := T, arity := H.length } H sep csvheader).1 = none ↔
        (fileInserted fs sep csvheader H f).2 = true) := by
  unfold addCsvFileToTable fileInserted
  cases ho : opencontainer fs f with
  | error e => simpa using hw
  | ok c =>
    simp only
    cases csvheader with
    | false =>
      simp only [Bool.false_eq_true, if_false]
      exact insertLoop_inserted f.Path C W T H hH _ 0 acc db (Or.inl rfl) hw
    | true =>
      simp only [if_true]
      cases hr : fs.csvRecords c sep with
      | nil => simpa [csvRead] using hw
      | cons h more =>
        simp only [csvRead, if_true]
        by_cases hh : h = H
        · subst hh
          simp only [(verifyHeader_none_iff h h).mpr rfl, if_true]
          exact insertLoop_inserted f.Path C W T h hH more h.length acc db (Or.inr rfl) hw
        · have hv := verifyHeader_ne H h (fun e => hh e.symm)
          simp only [hv, hh, if_false, List.append_nil]
          exact ⟨hw, by simp⟩

end Musql

namespace Musql

theorem addCsvOne_inserted {α : Type} (fs : FileSys α) (C W : Tables) (T : String)
    (H : List String) (hH : H.length ≠ 0) (sep : Char) (csvheader : Bool) (cont fname : String)
    (acc : List (List String)) (db : Store) (hw : InTransaction db C W T H acc) :
    ∃ (err : Option String) (db1 : Store),
      addCsvOne fs T sep csvheader cont
          { header := H, insert := some { table := T, arity := H.length }, deferred := true,
            db := db } fname =
        (err, { header := H, insert := some { table := T, arity := H.length }, deferred := true,
                db := db1 }) ∧
      InTransaction db1 C W T H
        (acc ++ (fileInserted fs sep csvheader H { Path := fname, Container := cont }).1) ∧
      (err = none ↔
        (fileInserted fs sep csvheader H { Path := fname, Container := cont }).2 = true) := by
  have h := addCsvFileToTable_inserted fs C W T H hH sep csvheader
    { Path := fname, Container := cont } acc db hw
  refine ⟨_, _, ?_, h.1, h.2⟩
  unfold addCsvOne
  simp [hH]

theorem addCsvFlist_inserted {α : Type} (fs : FileSys α) (C W : Tables) (T : String)
    (H : List String) (hH : H.length ≠ 0) (sep : Char) (csvheader : Bool) (cont : String)
    (flist : List String) :
    ∀ (acc : List (List String)) (db : Store), InTransaction db C W T H acc →
      ∃ (err : Option String) (db1 : Store),
        addCsvFlist fs T sep csvheader cont flist
            { header := H, insert := some { table := T, arity := H.length }, deferred := true,
              db := db } =
          (err, { header := H, insert := some { table := T, arity := H.length },
                  deferred := true, db := db1 }) ∧
        InTransaction db1 C W T H (acc ++ (namesInserted fs sep csvheader H cont flist).1) ∧
        (err = none ↔ (namesInserted fs sep csvheader H cont flist).2 = true) := by
  induction flist with
  | nil =>
    intro acc db hw
    exact ⟨none, db, rfl, by simpa [namesInserted] using hw, by simp [namesInserted]⟩
  | cons fname rest ih =>
    intro acc db hw
    obtain ⟨err, db1, he, hw1, hf⟩ :=
      addCsvOne_inserted fs C W T H hH sep csvheader cont fname acc db hw
    rw [addCsvFlist, he, namesInserted]
    cases err with
    | some e =>
      have hfl : (fileInserted fs sep csvheader H { Path := fname, Container := cont }).2 =
          false := by
        cases hx : (fileInserted fs sep csvheader H { Path := fname, Container := cont }).2 with
        | false => rfl
        | true => exact absurd (hf.mpr hx) (by simp)
      refine ⟨some e, db1, rfl, ?_, ?_⟩
      · simpa [hfl] using hw1
      · simp [hfl]
    | none =>
      have hfl := hf.mp rfl
      obtain ⟨err2, db2, he2, hw2, hf2⟩ := ih _ db1 hw1
      refine ⟨err2, db2, he2, ?_, ?_⟩
      · simpa [hfl, List.append_assoc] using hw2
      · simpa [hfl] using hf2

theorem addCsvPaths_inserted {α : Type} (fs : FileSys α) (C W : Tables) (T : String)
    (H : List String) (hH : H.length ≠ 0) (sep : Char) (csvheader : Bool)
    (path : List FileInfo) :
    ∀ (acc : List (List String)) (db : Store), InTransaction db C W T H acc →
      ∃ (err : Option String) (db1 : Store),
        addCsvPaths fs T sep csvheader path
            { header := H, insert := some { table := T, arity := H.length }, deferred := true,
              db := db } =
          (err, { header := H, insert := some { table := T, arity := H.length },
                  deferred := true, db := db1 }) ∧
        InTransaction db1 C W T H (acc ++ (entriesInserted fs sep csvheader H path).1) ∧
        (err = none ↔ (entriesInserted fs sep csvheader H path).2 = true) := by
  induction path with
  | nil =>
    intro acc db hw
    exact ⟨none, db, rfl, by simpa [entriesInserted] using hw, by simp [entriesInserted]⟩
  | cons entry rest ih =>
    intro acc db hw
    rw [addCsvPaths, entriesInserted]
    cases hg : fs.glob (globPattern entry) with
    | error e => exact ⟨some e, db, rfl, by simpa using hw, by simp⟩
    | ok flist =>
      simp only
      by_cases h0 : (flist.length == 0) = true
      · simp only [h0, if_true]
        exact ⟨_, db, rfl, by simpa using hw, by simp⟩
      · simp only [h0, Bool.false_eq_true, if_false]
        obtain ⟨err, db1, he, hw1, hf⟩ :=
          addCsvFlist_inserted fs C W T H hH sep csvheader entry.Container flist acc db hw
        rw [he]
        cases err with
        | some e =>
          have hfl : (namesInserted fs sep csvheader H entry.Container flist).2 = false := by
            cases hx : (namesInserted fs sep csvheader H entry.Container flist).2 with
            | false => rfl
            | true => exact absurd (hf.mpr hx) (by simp)
          refine ⟨some e, db1, rfl, ?_, ?_⟩
          · simpa [hfl] using hw1
          · simp [hfl]
        | none =>
          have hfl := hf.mp rfl
          obtain ⟨err2, db2, he2, hw2, hf2⟩ := ih _ db1 hw1
          refine ⟨err2, db2, he2, ?_, ?_⟩
          · simpa [hfl, List.append_assoc] using hw2
          · simpa [hfl] using hf2

end Musql

namespace Musql

theorem ensureTable_ok_table (db db1 : Store) (T : String) (H : List String)
    (h : ensureTable db T H = (none, db1)) :
    db1.tables.lookup T = some { columns := H, rows := [] } ∧ H.length ≠ 0 := by
  have hlen : H.length ≠ 0 := ensureTable_ok_header db T H (by rw [h])
  refine ⟨?_, hlen⟩
  unfold ensureTable at h
  split at h
  · cases h
  · cases hl : db.tables.lookup T with
    | none =>
      cases hR : repeatedColumn H [] with
      | some col =>
        simp [haveTable, Store.query, hl, createTable, Store.execCreate, hR] at h
      | none =>
        simp only [haveTable, Store.query, hl, createTable, Store.execCreate, hR, reduceCtorEq,
          if_false, Prod.mk.injEq, true_and] at h
        rw [← h]
        exact lookup_append_new db.tables T _ hl
    | some t =>
      cases hv : verifyHeader t.columns H with
      | some e =>
        simp only [haveTable, Store.query, hl, Store.rowsColumns, hv, reduceCtorEq, if_false,
          if_true, dropTable, Store.execDrop, Prod.mk.injEq, false_and] at h
      | none =>
        simp only [haveTable, Store.query, hl, Store.rowsColumns, hv, if_true,
          deleteAllFromTable, Store.execDelete, Prod.mk.injEq, true_and] at h
        rw [← h]
        simp only
        rw [lookup_update, if_pos rfl, hl, (verifyHeader_none_iff _ _).mp hv]; rfl

theorem makeInsert_after_begin (db1 : Store) (T : String) (H : List String)
    (hT : db1.tables.lookup T = some { columns := H, rows := [] }) :
    makeInsert { db1 with pending := some db1.tables } T H =
      .ok { table := T, arity := H.length } := by
  simp [makeInsert, Store.prepareInsert, hT]

theorem inTransaction_after_begin (db1 : Store) (T : String) (H : List String)
    (hT : db1.tables.lookup T = some { columns := H, rows := [] }) :
    InTransaction { db1 with pending := some db1.tables } db1.tables db1.tables T H [] :=
  ⟨rfl, db1.tables, rfl, hT, fun _ _ => rfl⟩

theorem committed_of_inTransaction (db : Store) (C W : Tables) (T : String) (H : List String)
    (rows : List (List String)) (hw : InTransaction db C W T H rows) :
    Committed db.commit W T H rows := by
  obtain ⟨_, w, hp, hT, ho⟩ := hw
  simp only [Committed, Store.commit, hp]
  exact ⟨trivial, hT, ho⟩

theorem AddCsvWithHeader_commits {α : Type} (fs : FileSys α) (db db1 : Store) (T : String)
    (path : List FileInfo) (sep : Char) (H : List String)
    (he : ensureTable db T H = (none, db1)) :
    Committed (AddCsvWithHeader fs db T path sep H).2 db1.tables T H
        (entriesInserted fs (defaultSep sep) false H path).1 ∧
      ((AddCsvWithHeader fs db T path sep H).1 = none ↔
        (entriesInserted fs (defaultSep sep) false H path).2 = true) := by
  obtain ⟨hT, hH⟩ := ensureTable_ok_table db db1 T H he
  obtain ⟨err, db2, hr, hw, hf⟩ := addCsvPaths_inserted fs db1.tables db1.tables T H hH
    (defaultSep sep) false path [] _ (inTransaction_after_begin db1 T H hT)
  have hc := committed_of_inTransaction db2 _ _ T H _ hw
  unfold AddCsvWithHeader addCsvFiles
  simp only [he, Store.begin, makeInsert_after_begin db1 T H hT, hr, runDeferred, if_true]
  exact ⟨by simpa using hc, hf⟩

theorem AddCsv_commits {α : Type} (fs : FileSys α) (db db1 : Store) (T : String)
    (entry : FileInfo) (rest : List FileInfo) (sep : Char) (H : List String) (fname : String)
    (names : List String) (hg : fs.glob (globPattern entry) = .ok (fname :: names))
    (hh : readHeaderCsv fs { Path := fname, Container := entry.Container } (defaultSep sep) =
      .ok H)
    (he : ensureTable db T H = (none, db1)) :
    Committed (AddCsv fs db T (entry :: rest) sep).2 db1.tables T H
        (entriesInserted fs (defaultSep sep) true H (entry :: rest)).1 ∧
      ((AddCsv fs db T (entry :: rest) sep).1 = none ↔
        (entriesInserted fs (defaultSep sep) true H (entry :: rest)).2 = true) := by
  obtain ⟨hT, hH⟩ := ensureTable_ok_table db db1 T H he
  have h1 := addCsvFileToTable_inserted fs db1.tables db1.tables T H hH (defaultSep sep) true
    { Path := fname, Container := entry.Container } [] _ (inTransaction_after_begin db1 T H hT)
  have hone : addCsvOne fs T (defaultSep sep) true entry.Container
      { header := [], insert := none, deferred := false, db := db } fname =
      ((addCsvFileToTable fs { db1 with pending := some db1.tables }
          { Path := fname, Container := entry.Container } { table := T, arity := H.length } H
          (defaultSep sep) true).1,
       { header := H, insert := some { table := T, arity := H.length }, deferred := true,
         db := (addCsvFileToTable fs { db1 with pending := some db1.tables }
          { Path := fname, Container := entry.Container } { table := T, arity := H.length } H
          (defaultSep sep) true).2 }) := by
    unfold addCsvOne
    simp [hh, he, Store.begin, makeInsert_after_begin db1 T H hT]
  generalize hx : addCsvFileToTable fs { db1 with pending := some db1.tables }
      { Path := fname, Container := entry.Container } { table := T, arity := H.length } H
      (defaultSep sep) true = r at h1 hone
  obtain ⟨err1, db2⟩ := r
  simp only [List.nil_append] at h1
  obtain ⟨hw1, hf1⟩ := h1
  unfold AddCsv addCsvFiles
  simp only [addCsvPaths, hg, List.length_cons, Nat.add_one_ne_zero, beq_iff_eq, if_false,
    addCsvFlist, hone, entriesInserted, namesInserted]
  cases err1 with
  | some e =>
    have hfl : (fileInserted fs (defaultSep sep) true H
        { Path := fname, Container := entry.Container }).2 = false := by
      cases hx2 : (fileInserted fs (defaultSep sep) true H
          { Path := fname, Container := entry.Container }).2 with
      | false => rfl
      | true => exact absurd (hf1.mpr hx2) (by simp)
    have hc := committed_of_inTransaction db2 _ _ T H _ hw1
    simp only [hfl, Bool.false_eq_true, if_false, runDeferred, if_true]
    exact ⟨hc, by simp⟩
  | none =>
    have hfl := hf1.mp rfl
    obtain ⟨err2, db3, hr2, hw2, hf2⟩ := addCsvFlist_inserted fs db1.tables db1.tables T H hH
      (defaultSep sep) true entry.Container names _ db2 hw1
    simp only [hfl, if_true, hr2]
    cases err2 with
    | some e =>
      have hfl2 : (namesInserted fs (defaultSep sep) true H entry.Container names).2 = false := by
        cases hx2 : (namesInserted fs (defaultSep sep) true H entry.Container names).2 with
        | false => rfl
        | true => exact absurd (hf2.mpr hx2) (by simp)
      have hc := committed_of_inTransaction db3 _ _ T H _ hw2
      simp only [hfl2, Bool.false_eq_true, if_false, runDeferred, if_true]
      exact ⟨hc, by simp⟩
    | none =>
      have hfl2 := hf2.mp rfl
      obtain ⟨err3, db4, hr3, hw3, hf3⟩ := addCsvPaths_inserted fs db1.tables db1.tables T H hH
        (defaultSep sep) true rest _ db3 hw2
      have hc := committed_of_inTransaction db4 _ _ T H _ hw3
      simp only [hfl2, if_true, hr3, runDeferred]
      exact ⟨by simpa [List.append_assoc] using hc, hf3⟩

end Musql

namespace Musql

theorem insertTreeRows_inserted (C W : Tables) (T : String) (H : List String)
    (data : List TreeRow) :
    ∀ (acc : List (List String)) (db : Store), InTransaction db C W T H acc →
      ∃ db1, insertTreeRows { table := T, arity := H.length } H data db = (none, db1) ∧
        InTransaction db1 C W T H (acc ++ data.map (fun d => H.map d.get)) := by
  induction data with
  | nil => intro acc db hw; exact ⟨db, rfl, by simpa using hw⟩
  | cons d rest ih =>
    intro acc db hw
    obtain ⟨db1, he, hw1⟩ := execInsert_inTransaction db C W T H acc (H.map d.get) hw (by simp)
    obtain ⟨db2, he2, hw2⟩ := ih _ db1 hw1
    refine ⟨db2, ?_, by simpa [List.append_assoc] using hw2⟩
    rw [insertTreeRows, he]
    exact he2

theorem addTreeFiles_inserted (rd : TreeReader) (C W : Tables) (T : String) (H : List String)
    (xp : String) (xs : List Select) (kind : String) (files : List FileInfo) :
    ∀ (acc : List (List String)) (db : Store), InTransaction db C W T H acc →
      ∃ (err : Option String) (db1 : Store),
        addTreeFiles rd { table := T, arity := H.length } H xp xs kind files db = (err, db1) ∧
        InTransaction db1 C W T H (acc ++ (treeInserted rd H xp xs kind files).1) ∧
        (err = none ↔ (treeInserted rd H xp xs kind files).2 = true) := by
  induction files with
  | nil =>
    intro acc db hw
    exact ⟨none, db, rfl, by simpa [treeInserted] using hw, by simp [treeInserted]⟩
  | cons f rest ih =>
    intro acc db hw
    rw [addTreeFiles, addTreeFileToTable, treeInserted]
    cases hr : rd f xp xs kind with
    | error e => exact ⟨some e, db, rfl, by simpa using hw, by simp⟩
    | ok r =>
      obtain ⟨nheader, data⟩ := r
      simp only
      by_cases hh : nheader = H
      · subst hh
        obtain ⟨db1, he, hw1⟩ := insertTreeRows_inserted C W T nheader data acc db hw
        obtain ⟨err2, db2, he2, hw2, hf2⟩ := ih _ db1 hw1
        simp only [(verifyHeader_none_iff nheader nheader).mpr rfl, he, if_true]
        exact ⟨err2, db2, he2, by simpa [List.append_assoc] using hw2, hf2⟩
      · have hv := verifyHeader_ne H nheader (fun e => hh e.symm)
        simp only [hv, hh, if_false]
        exact ⟨_, db, rfl, by simpa using hw, by simp⟩

theorem AddFromTreeFile_commits (rd : TreeReader) (db db1 : Store) (T : String)
    (path0 : FileInfo) (rest : List FileInfo) (xp : String) (xs : List Select) (kind : String)
    (H : List String) (data0 : List TreeRow) (hr : rd path0 xp xs kind = .ok (H, data0))
    (he : ensureTable db T H = (none, db1)) :
    ∃ (err : Option String) (db3 : Store),
      AddFromTreeFile rd db T (path0 :: rest) xp xs kind = some (err, db3) ∧
      Committed db3 db1.tables T H (treeInserted rd H xp xs kind (path0 :: rest)).1 ∧
      (err = none ↔ (treeInserted rd H xp xs kind (path0 :: rest)).2 = true) := by
  obtain ⟨hT, hH⟩ := ensureTable_ok_table db db1 T H he
  obtain ⟨err, db2, hr2, hw, hf⟩ := addTreeFiles_inserted rd db1.tables db1.tables T H xp xs kind
    (path0 :: rest) [] _ (inTransaction_after_begin db1 T H hT)
  have hc := committed_of_inTransaction db2 _ _ T H _ hw
  refine ⟨err, db2.commit, ?_, by simpa using hc, hf⟩
  unfold AddFromTreeFile
  simp only [hr, he, Store.begin, makeInsert_after_begin db1 T H hT, hr2]

end Musql

namespace Musql

/-- C4, as the code behaves: the commit is deferred at the point where the
transaction begins, so it runs on every later return, with or without an
error. Once the header is known and `ensureTable` has returned nil (the
transaction begins right after it), every delimited ingest with the header
from the first file, every delimited ingest with a given header and every tree
ingest ends with no transaction open and with the committed table holding
exactly the rows inserted up to the first failure, whatever the files are and
whatever fails; the other tables are as `ensureTable` left them. The ingest
returns nil exactly when nothing failed. -/
theorem ingest_commits_on_every_return :
    (∀ {α : Type} (fs : FileSys α) (db db1 : Store) (T : String) (entry : FileInfo)
        (rest : List FileInfo) (sep : Char) (H : List String) (fname : String)
        (names : List String),
        fs.glob (globPattern entry) = .ok (fname :: names) →
        readHeaderCsv fs { Path := fname, Container := entry.Container } (defaultSep sep) =
          .ok H →
        ensureTable db T H = (none, db1) →
        Committed (AddCsv fs db T (entry :: rest) sep).2 db1.tables T H
            (entriesInserted fs (defaultSep sep) true H (entry :: rest)).1 ∧
          ((AddCsv fs db T (entry :: rest) sep).1 = none ↔
            (entriesInserted fs (defaultSep sep) true H (entry :: rest)).2 = true)) ∧
    (∀ {α : Type} (fs : FileSys α) (db db1 : Store) (T : String) (path : List FileInfo)
        (sep : Char) (H : List String),
        ensureTable db T H = (none, db1) →
        Committed (AddCsvWithHeader fs db T path sep H).2 db1.tables T H
            (entriesInserted fs (defaultSep sep) false H path).1 ∧
          ((AddCsvWithHeader fs db T path sep H).1 = none ↔
            (entriesInserted fs (defaultSep sep) false H path).2 = true)) ∧
    (∀ (readTreeFile : TreeReader) (db db1 : Store) (T : String) (path0 : FileInfo)
        (rest : List FileInfo) (xpathstr : String) (xselects : List Select) (kind : String)
        (H : List String) (data0 : List TreeRow),
        readTreeFile path0 xpathstr xselects kind = .ok (H, data0) →
        ensureTable db T H = (none, db1) →
        ∃ (err : Option String) (db3 : Store),
          AddFromTreeFile readTreeFile db T (path0 :: rest) xpathstr xselects kind =
            some (err, db3) ∧
          Committed db3 db1.tables T H
            (treeInserted readTreeFile H xpathstr xselects kind (path0 :: rest)).1 ∧
          (err = none ↔
            (treeInserted readTreeFile H xpathstr xselects kind (path0 :: rest)).2 = true)) := by
  refine ⟨?_, ?_, ?_⟩
  · intro α fs db db1 T entry rest sep H fname names hg hh he
    exact AddCsv_commits fs db db1 T entry rest sep H fname names hg hh he
  · intro α fs db db1 T path sep H he
    exact AddCsvWithHeader_commits fs db db1 T path sep H he
  · intro rd db db1 T path0 rest xp xs kind H data0 hr he
    exact AddFromTreeFile_commits rd db db1 T path0 rest xp xs kind H data0 hr he

/-- Witness of `ingest_commits_on_every_return`: `t.csv` then `other_t.csv`
(the header of the second file differs, the three rows of the first are
committed); `ragged.csv` with the given header `Name`, `Wert` (the second
record is too short, the first is committed); `a.xml` then `b.xml` (the header
of the second file differs, the two rows of the first are committed). -/
theorem ingest_commits_on_every_return_witness :
    (entriesInserted exampleFs (defaultSep ';') true ["Name", "Wert"]
        [{ Path := "t.csv", Container := "" }, { Path := "other_t.csv", Container := "" }] =
        ([["a", "15000"], ["b", "30000"], ["c", "17000"]], false) ∧
      Committed
          (AddCsv exampleFs emptyStore "mytable_2"
            [{ Path := "t.csv", Container := "" }, { Path := "other_t.csv", Container := "" }]
            ';').2
          [("mytable_2", Table.mk ["Name", "Wert"] [])] "mytable_2" ["Name", "Wert"]
          (entriesInserted exampleFs (defaultSep ';') true ["Name", "Wert"]
            [{ Path := "t.csv", Container := "" },
             { Path := "other_t.csv", Container := "" }]).1) ∧
    (entriesInserted raggedFs (defaultSep ';') false ["Name", "Wert"]
        [{ Path := "ragged.csv", Container := "" }] = ([["a", "1"]], false) ∧
      (AddCsvWithHeader raggedFs emptyStore "r" [{ Path := "ragged.csv", Container := "" }] ';'
          ["Name", "Wert"]).1 =
        some "wrong number of fields: fill table from ragged.csv" ∧
      Committed
          (AddCsvWithHeader raggedFs emptyStore "r" [{ Path := "ragged.csv", Container := "" }]
            ';' ["Name", "Wert"]).2
          [("r", Table.mk ["Name", "Wert"] [])] "r" ["Name", "Wert"]
          (entriesInserted raggedFs (defaultSep ';') false ["Name", "Wert"]
            [{ Path := "ragged.csv", Container := "" }]).1) ∧
    (treeInserted exampleTreeReader ["id"] "//row" [] "xml"
        [{ Path := "a.xml", Container := "" }, { Path := "b.xml", Container := "" }] =
        ([["1"], ["2"]], false) ∧
      ∃ (err : Option String) (db3 : Store),
        AddFromTreeFile exampleTreeReader emptyStore "x"
            [{ Path := "a.xml", Container := "" }, { Path := "b.xml", Container := "" }]
            "//row" [] "xml" = some (err, db3) ∧
          Committed db3 [("x", Table.mk ["id"] [])] "x" ["id"]
            (treeInserted exampleTreeReader ["id"] "//row" [] "xml"
              [{ Path := "a.xml", Container := "" }, { Path := "b.xml", Container := "" }]).1 ∧
          (err = none ↔
            (treeInserted exampleTreeReader ["id"] "//row" [] "xml"
              [{ Path := "a.xml", Container := "" },
               { Path := "b.xml", Container := "" }]).2 = true)) :=
  ⟨⟨by decide,
      (ingest_commits_on_every_return.1 exampleFs emptyStore
        { tables := [("mytable_2", Table.mk ["Name", "Wert"] [])], pending := none } "mytable_2"
        { Path := "t.csv", Container := "" } [{ Path := "other_t.csv", Container := "" }] ';'
        ["Name", "Wert"] "t.csv" [] rfl rfl (by decide)).1⟩,
   ⟨by decide, by decide,
      (ingest_commits_on_every_return.2.1 raggedFs emptyStore
        { tables := [("r", Table.mk ["Name", "Wert"] [])], pending := none } "r"
        [{ Path := "ragged.csv", Container := "" }] ';' ["Name", "Wert"] (by decide)).1⟩,
   ⟨by decide,
      ingest_commits_on_every_return.2.2 exampleTreeReader emptyStore
        { tables := [("x", Table.mk ["id"] [])], pending := none } "x"
        { Path := "a.xml", Container := "" } [{ Path := "b.xml", Container := "" }] "//row" []
        "xml" ["id"] [[("id", "1")], [("id", "2")]] rfl (by decide)⟩⟩

end Musql
